import Mathlib

/-!
# Verification of the Munchkin lazy-clause-generation solver core

A shallow embedding of the solver's engine components, translated from the
Rust sources:

* `src/engine/cp/variable_literal_mappings.rs` — the integer-predicate to
  boolean-literal mapping (eager unary encoding).
* `src/engine/sat/clause_allocator.rs` — the arena clause store with
  tombstone-based slot reuse.
* `src/engine/sat/clausal_propagator.rs` — two-watched-literal unit
  propagation.
* `src/engine/cp/watch_list_cp.rs` — CP event watch lists.
* `src/engine/conflict_analysis/conflict_analysis_context.rs` — backtracking.

Support types whose source files are not part of the provided tree
(`Literal`, `AssignmentsPropositional`, `AssignmentsInteger`,
`Preprocessor`) are modelled from the specification and from the doc
comments in the provided files; each such definition carries a doc comment
saying so.
-/

namespace Munchkin

/-! ## Literals and predicates -/

/-- Modelled from the spec (§3, "Boolean variable / Literal"): a literal is a
propositional variable paired with a polarity; negation is a pure
transformation. The variable index 0 is the dedicated true/false variable
created by the solver at start-up. -/
structure Literal where
  variableIndex : Nat
  isPositive : Bool
  deriving DecidableEq, Repr

instance : Inhabited Literal := ⟨⟨0, false⟩⟩

/-- Negation of a literal flips the polarity (the `!` operator on `Literal`
in the Rust source); no new literal is allocated. -/
def Literal.negate (l : Literal) : Literal := ⟨l.variableIndex, !l.isPositive⟩

/-- The u32 code of a literal, used to index watch lists and the
literal-to-predicate registry (`Literal::index` in the source; the false
literal, variable 0 with negative polarity, has index 0, matching the
assertion `lower_bound_literals.last().unwrap().index() == 0` in
`create_equality_literals`). -/
def Literal.index (l : Literal) : Nat :=
  2 * l.variableIndex + l.isPositive.toNat

/-- An atomic constraint over an integer domain
(`IntegerPredicate` in `src/engine/predicates/integer_predicate.rs`,
not part of the provided tree; the four variants are named in the spec §3
and used throughout `variable_literal_mappings.rs`). -/
inductive IntegerPredicate where
  | lowerBound (domainId : Nat) (bound : Int)
  | upperBound (domainId : Nat) (bound : Int)
  | notEqual (domainId : Nat) (constant : Int)
  | equal (domainId : Nat) (constant : Int)
  deriving DecidableEq, Repr

/-- Modelled from the spec: predicate negation, used when registering the
predicate of the negated literal in
`add_predicate_information_to_propositional_variable`.
`¬(x ≥ v) = (x ≤ v − 1)`, `¬(x = v) = (x ≠ v)`, and conversely. -/
def IntegerPredicate.negate : IntegerPredicate → IntegerPredicate
  | .lowerBound d v => .upperBound d (v - 1)
  | .upperBound d v => .lowerBound d (v + 1)
  | .notEqual d c => .equal d c
  | .equal d c => .notEqual d c

/-! ## Clauses and the clause allocator (`clause_allocator.rs`) -/

/-- A stable reference to an allocated clause; `code` 0 is the reserved null
value, allocated clauses have `code ≥ 1` (see `create_clause`). -/
structure ClauseReference where
  code : Nat
  deriving DecidableEq, Repr

instance : Inhabited ClauseReference := ⟨⟨0⟩⟩

/-- A clause: ordered literals plus learned/deleted flags (`Clause` in
`src/engine/sat/mod.rs`, not part of the provided tree; the fields are
those named by the spec §3 and used by the allocator and propagator). -/
structure Clause where
  literals : List Literal
  isLearned : Bool
  isDeleted : Bool
  deriving DecidableEq, Repr

instance : Inhabited Clause := ⟨⟨[], false, false⟩⟩

/-- `Clause::new(literals, is_learned)`: a freshly created clause is not
deleted. -/
def Clause.new (literals : List Literal) (isLearned : Bool) : Clause :=
  ⟨literals, isLearned, false⟩

def Clause.markDeleted (c : Clause) : Clause := { c with isDeleted := true }

/-- `ClauseAllocator`: one contiguous arena of clauses plus the free list of
deleted clause references. -/
structure ClauseAllocator where
  allocatedClauses : List Clause
  deletedClauseReferences : List ClauseReference
  deriving DecidableEq, Repr

def ClauseAllocator.empty : ClauseAllocator := ⟨[], []⟩

/-- `ClauseAllocator::get_clause`: clause ids start at one, hence the `- 1`. -/
def ClauseAllocator.getClause (a : ClauseAllocator) (r : ClauseReference) : Clause :=
  a.allocatedClauses.getD (r.code - 1) default

/-- Overwrite the literal list of the clause behind `r`, keeping its flags
(used to mirror the in-place clause mutation done through
`get_mutable_clause` during propagation). -/
def ClauseAllocator.setClauseLiterals (a : ClauseAllocator) (r : ClauseReference)
    (lits : List Literal) : ClauseAllocator :=
  { a with allocatedClauses :=
      a.allocatedClauses.set (r.code - 1) { a.getClause r with literals := lits } }

/-- `ClauseAllocator::create_clause(literals, is_learned)`: take a reference
from the free list if one is available, overwriting that slot; otherwise
grow the arena and hand out the fresh reference `len + 1` (reference 0 is
kept as the null value). -/
def ClauseAllocator.createClause (a : ClauseAllocator) (literals : List Literal)
    (isLearned : Bool) : ClauseReference × ClauseAllocator :=
  if a.deletedClauseReferences.isEmpty then
    let r : ClauseReference := ⟨a.allocatedClauses.length + 1⟩
    (r, { a with allocatedClauses := a.allocatedClauses ++ [Clause.new literals isLearned] })
  else
    let r := a.deletedClauseReferences.getLast?.getD default
    (r, { allocatedClauses := a.allocatedClauses.set (r.code - 1) (Clause.new literals isLearned),
          deletedClauseReferences := a.deletedClauseReferences.dropLast })

/-- `ClauseAllocator::delete_clause(reference)`: mark the tombstone and push
the reference onto the free list. -/
def ClauseAllocator.deleteClause (a : ClauseAllocator) (r : ClauseReference) : ClauseAllocator :=
  { allocatedClauses := a.allocatedClauses.set (r.code - 1) ((a.getClause r).markDeleted),
    deletedClauseReferences := a.deletedClauseReferences ++ [r] }

/-! ## The boolean assignment store

`AssignmentsPropositional` (`src/engine/sat/assignments_propositional.rs`) is
not part of the provided tree; it is modelled from the spec (§4.1: trail of
assigned literals with causing constraint, pure reads, mutations that append
a trail entry) and from its uses in the provided files. -/

/-- A boolean trail entry: the assigned literal plus the clause reference of
the propagating clause (`none` for decisions). -/
structure TrailEntry where
  literal : Literal
  reason : Option ClauseReference
  deriving DecidableEq, Repr

instance : Inhabited TrailEntry := ⟨⟨default, none⟩⟩

/-- Modelled from the spec: the boolean assignment store. `values` holds the
truth value of each propositional variable (`none` when unassigned);
`trueLiteral` is the dedicated always-true literal and the false literal is
its negation (`false_literal = !true_literal` at construction). -/
structure AssignmentsPropositional where
  values : List (Option Bool)
  trail : List TrailEntry
  trueLiteral : Literal
  deriving DecidableEq, Repr

/-- The dedicated always-false literal is the negation of the true literal. -/
def AssignmentsPropositional.falseLiteral (asg : AssignmentsPropositional) : Literal :=
  asg.trueLiteral.negate

def AssignmentsPropositional.numPropositionalVariables (asg : AssignmentsPropositional) : Nat :=
  asg.values.length

def AssignmentsPropositional.grow (asg : AssignmentsPropositional) : AssignmentsPropositional :=
  { asg with values := asg.values ++ [none] }

def AssignmentsPropositional.isLiteralAssignedTrue (asg : AssignmentsPropositional)
    (l : Literal) : Bool :=
  asg.values.getD l.variableIndex none == some l.isPositive

def AssignmentsPropositional.isLiteralAssignedFalse (asg : AssignmentsPropositional)
    (l : Literal) : Bool :=
  asg.values.getD l.variableIndex none == some (!l.isPositive)

def AssignmentsPropositional.isLiteralUnassigned (asg : AssignmentsPropositional)
    (l : Literal) : Bool :=
  asg.values.getD l.variableIndex none == none

def AssignmentsPropositional.numTrailEntries (asg : AssignmentsPropositional) : Nat :=
  asg.trail.length

def AssignmentsPropositional.getTrailEntry (asg : AssignmentsPropositional) (i : Nat) : Literal :=
  (asg.trail.getD i default).literal

/-- Record an assignment: set the variable's value and append a trail entry. -/
def AssignmentsPropositional.makeAssignment (asg : AssignmentsPropositional) (l : Literal)
    (reason : Option ClauseReference) : AssignmentsPropositional :=
  { asg with
    values := asg.values.set l.variableIndex (some l.isPositive),
    trail := asg.trail ++ [⟨l, reason⟩] }

/-- Modelled from the spec: `enqueue_decision_literal` assigns the literal
true with no reason. -/
def AssignmentsPropositional.enqueueDecisionLiteral (asg : AssignmentsPropositional)
    (l : Literal) : AssignmentsPropositional :=
  asg.makeAssignment l none

/-- The conflict information reported by unit propagation: the literal whose
propagation failed and the propagating clause (`ConflictInfo::Propagation`). -/
structure ConflictInfo where
  literal : Literal
  reference : ClauseReference
  deriving DecidableEq, Repr

/-- Modelled from the spec: `enqueue_propagated_literal` reports a conflict
when the literal is already assigned false, ignores a literal already
assigned true, and otherwise appends the literal to the trail with the given
clause as its reason. -/
def AssignmentsPropositional.enqueuePropagatedLiteral (asg : AssignmentsPropositional)
    (l : Literal) (reason : ClauseReference) :
    Option ConflictInfo × AssignmentsPropositional :=
  if asg.isLiteralAssignedFalse l then (some ⟨l, reason⟩, asg)
  else if asg.isLiteralAssignedTrue l then (none, asg)
  else (none, asg.makeAssignment l (some reason))

/-- The error type of constraint-posting operations
(`ConstraintOperationError` in `basic_types`, not part of the provided tree;
the two variants used by `add_permanent_clause` appear in
`clausal_propagator.rs`). -/
inductive ConstraintOperationError where
  | infeasibleState
  | infeasibleClause
  deriving DecidableEq, Repr

/-! ## The clausal propagator (`clausal_propagator.rs`) -/

/-- A watcher record: the watched clause plus a cached literal used to
short-circuit satisfied-clause checks. -/
structure ClauseWatcher where
  cachedLiteral : Literal
  clauseReference : ClauseReference
  deriving DecidableEq, Repr

/-- The two-watched-literal clausal propagator state. The watch lists are
indexed by `Literal.index` (one list per literal polarity). -/
structure ClausalPropagator where
  watchLists : List (List ClauseWatcher)
  nextPositionOnTrailToPropagate : Nat
  permanentClauses : List ClauseReference
  isInInfeasibleState : Bool
  deriving DecidableEq, Repr

def ClausalPropagator.empty : ClausalPropagator := ⟨[], 0, [], false⟩

/-- `ClausalPropagator::grow`: one new (empty) watch list per polarity. -/
def ClausalPropagator.grow (p : ClausalPropagator) : ClausalPropagator :=
  { p with watchLists := p.watchLists ++ [[], []] }

def ClausalPropagator.getWatchList (p : ClausalPropagator) (l : Literal) : List ClauseWatcher :=
  p.watchLists.getD l.index []

/-- Pad a list of watch lists with empty lists so that index `n - 1` exists.
Only the in-range case is reachable from solver states, where the watch
lists were grown alongside every variable; padding totalises the update. -/
def padWatchLists (ws : List (List ClauseWatcher)) (n : Nat) : List (List ClauseWatcher) :=
  ws ++ List.replicate (n - ws.length) []

/-- Overwrite the watch list of one literal (the in-place compaction /
`truncate` of the Rust code). -/
def ClausalPropagator.setWatchList (p : ClausalPropagator) (l : Literal)
    (ws : List ClauseWatcher) : ClausalPropagator :=
  { p with watchLists := (padWatchLists p.watchLists (l.index + 1)).set l.index ws }

/-- Append one watcher to the watch list of `l`
(`self.watch_lists[l].push(w)`). -/
def ClausalPropagator.pushWatcher (p : ClausalPropagator) (l : Literal)
    (w : ClauseWatcher) : ClausalPropagator :=
  p.setWatchList l (p.getWatchList l ++ [w])

/-- `start_watching_clause_unchecked`: watch the clause from its first two
literals, each caching the other. -/
def ClausalPropagator.startWatchingClauseUnchecked (p : ClausalPropagator)
    (clause : List Literal) (r : ClauseReference) : ClausalPropagator :=
  let p1 := p.pushWatcher (clause.getD 0 default) ⟨clause.getD 1 default, r⟩
  p1.pushWatcher (clause.getD 1 default) ⟨clause.getD 0 default, r⟩

/-- `add_clause_unchecked`: allocate the clause, register it as permanent and
start watching its first two literals. -/
def ClausalPropagator.addClauseUnchecked (p : ClausalPropagator) (literals : List Literal)
    (isLearned : Bool) (alloc : ClauseAllocator) :
    ClauseReference × ClausalPropagator × ClauseAllocator :=
  let result := alloc.createClause literals isLearned
  let clause := result.2.getClause result.1
  let p1 := { p with permanentClauses := p.permanentClauses ++ [result.1] }
  (result.1, p1.startWatchingClauseUnchecked clause.literals result.1, result.2)

/-- `add_permanent_implication_unchecked(lhs, rhs)` adds the clause
`[¬lhs, rhs]`. -/
def ClausalPropagator.addPermanentImplicationUnchecked (p : ClausalPropagator)
    (lhs rhs : Literal) (alloc : ClauseAllocator) : ClausalPropagator × ClauseAllocator :=
  let result := p.addClauseUnchecked [lhs.negate, rhs] false alloc
  (result.2.1, result.2.2)

/-- `add_permanent_ternary_clause_unchecked(a, b, c)` adds the clause
`[a, b, c]`. -/
def ClausalPropagator.addPermanentTernaryClauseUnchecked (p : ClausalPropagator)
    (a b c : Literal) (alloc : ClauseAllocator) : ClausalPropagator × ClauseAllocator :=
  let result := p.addClauseUnchecked [a, b, c] false alloc
  (result.2.1, result.2.2)

/-- Swap the first two elements of a list (the watched-literal
normalisation `watched_clause[0] = watched_clause[1]; watched_clause[1] =
!true_literal` in `propagate`). -/
def swap01 : List Literal → List Literal
  | a :: b :: rest => b :: a :: rest
  | l => l

/-- `for i in 2..watched_clause.len()`: the first index `i ≥ 2` whose literal
is not assigned false, if any. -/
def findNewWatchIdx (asg : AssignmentsPropositional) (lits : List Literal) : Option Nat :=
  (List.range' 2 (lits.length - 2)).find?
    (fun i => !asg.isLiteralAssignedFalse (lits.getD i default))

/-- The outcome of handling one watcher of the newly true trail literal
inside `propagate`: the watcher is kept (clause satisfied, or it
propagated/conflicted), or it moved to another literal's watch list. -/
inductive WatcherStep where
  | keep (w : ClauseWatcher)
  | moved
  | propagated (w : ClauseWatcher)
  | conflict (w : ClauseWatcher) (ci : ConflictInfo)
  deriving DecidableEq, Repr

/-- One iteration of the inner watcher loop of `ClausalPropagator::propagate`
for the trail literal whose negation is `negLit`. Mirrors the source: check
the cached literal; normalise the clause so that `negLit` sits at position
1; check the other watched literal; search for a replacement watch from
index 2 on; otherwise propagate the remaining watched literal or report the
conflict. Pushes to other literals' watch lists are applied to `p`; the
caller holds `negLit`'s own list out of band (the in-place compaction of the
source). -/
def ClausalPropagator.processWatcher (p : ClausalPropagator) (asg : AssignmentsPropositional)
    (alloc : ClauseAllocator) (negLit : Literal) (w : ClauseWatcher) :
    WatcherStep × ClausalPropagator × AssignmentsPropositional × ClauseAllocator :=
  if asg.isLiteralAssignedTrue w.cachedLiteral then (.keep w, p, asg, alloc)
  else
    let r := w.clauseReference
    let cl := alloc.getClause r
    let lits := if cl.literals.getD 0 default = negLit then swap01 cl.literals else cl.literals
    let alloc1 := alloc.setClauseLiterals r lits
    let first := lits.getD 0 default
    if asg.isLiteralAssignedTrue first then
      (.keep { w with cachedLiteral := first }, p, asg, alloc1)
    else
      match findNewWatchIdx asg lits with
      | some i =>
          let newWatch := lits.getD i default
          let lits1 := (lits.set 1 newWatch).set i negLit
          (.moved, p.pushWatcher newWatch ⟨first, r⟩, asg, alloc1.setClauseLiterals r lits1)
      | none =>
          match asg.enqueuePropagatedLiteral first r with
          | (some ci, asg1) => (.conflict w ci, p, asg1, alloc1)
          | (none, asg1) => (.propagated w, p, asg1, alloc1)

/-- The inner watcher loop of `propagate`: consume the pending watchers of
`negLit` one by one, accumulating the kept ones (`end_index` compaction). On
conflict the current watcher and all remaining unprocessed watchers are put
back into `negLit`'s watch list and the conflict is returned at once. -/
def ClausalPropagator.processWatchers (p : ClausalPropagator) (asg : AssignmentsPropositional)
    (alloc : ClauseAllocator) (negLit : Literal) (kept : List ClauseWatcher) :
    List ClauseWatcher →
    Option ConflictInfo × ClausalPropagator × AssignmentsPropositional × ClauseAllocator
  | [] => (none, p.setWatchList negLit kept, asg, alloc)
  | w :: rest =>
    match p.processWatcher asg alloc negLit w with
    | (.keep w1, p1, asg1, alloc1) => p1.processWatchers asg1 alloc1 negLit (kept ++ [w1]) rest
    | (.moved, p1, asg1, alloc1) => p1.processWatchers asg1 alloc1 negLit kept rest
    | (.propagated w1, p1, asg1, alloc1) =>
        p1.processWatchers asg1 alloc1 negLit (kept ++ [w1]) rest
    | (.conflict w1 ci, p1, asg1, alloc1) =>
        (some ci, p1.setWatchList negLit (kept ++ w1 :: rest), asg1, alloc1)

/-- The outer trail loop of `ClausalPropagator::propagate`, with explicit
fuel (the source loop terminates because each iteration advances the trail
cursor and the trail cannot outgrow the variable count). Running out of fuel
returns the state unchanged; `ClausalPropagator.propagate` supplies enough
fuel for that never to happen. -/
def ClausalPropagator.propagateGo (fuel : Nat) (p : ClausalPropagator)
    (asg : AssignmentsPropositional) (alloc : ClauseAllocator) :
    Except ConflictInfo Unit × ClausalPropagator × AssignmentsPropositional × ClauseAllocator :=
  match fuel with
  | 0 => (.ok (), p, asg, alloc)
  | fuel + 1 =>
    if p.nextPositionOnTrailToPropagate < asg.numTrailEntries then
      let trueLit := asg.getTrailEntry p.nextPositionOnTrailToPropagate
      let negLit := trueLit.negate
      if (p.getWatchList negLit).isEmpty then
        ClausalPropagator.propagateGo fuel
          { p with nextPositionOnTrailToPropagate := p.nextPositionOnTrailToPropagate + 1 }
          asg alloc
      else
        match p.processWatchers asg alloc negLit [] (p.getWatchList negLit) with
        | (some ci, p1, asg1, alloc1) => (.error ci, p1, asg1, alloc1)
        | (none, p1, asg1, alloc1) =>
            ClausalPropagator.propagateGo fuel
              { p1 with nextPositionOnTrailToPropagate := p1.nextPositionOnTrailToPropagate + 1 }
              asg1 alloc1
    else (.ok (), p, asg, alloc)

/-- `ClausalPropagator::propagate`: drain the boolean trail from the saved
cursor. The fuel bound covers the pending trail entries plus every
propagation the trail can still absorb (one per propositional variable). -/
def ClausalPropagator.propagate (p : ClausalPropagator) (asg : AssignmentsPropositional)
    (alloc : ClauseAllocator) :
    Except ConflictInfo Unit × ClausalPropagator × AssignmentsPropositional × ClauseAllocator :=
  ClausalPropagator.propagateGo
    (asg.numTrailEntries - p.nextPositionOnTrailToPropagate
      + asg.numPropositionalVariables + 1)
    p asg alloc

/-- First-occurrence deduplication (`seen` accumulates the literals already
kept). -/
def dedupKeepFirst (seen : List Literal) : List Literal → List Literal
  | [] => []
  | l :: rest =>
      if l ∈ seen then dedupKeepFirst seen rest
      else l :: dedupKeepFirst (l :: seen) rest

/-- Modelled from the spec: `Preprocessor::preprocess_clause` is not part of
the provided tree. Per §4.3 it deduplicates literals and drops literals
falsified at the root, and per the comment in `add_permanent_clause` it
returns a unit clause holding a root-satisfied literal whenever the clause
is satisfied at the root. -/
def preprocessClause (literals : List Literal) (asg : AssignmentsPropositional) : List Literal :=
  match literals.find? (fun l => asg.isLiteralAssignedTrue l) with
  | some l => [l]
  | none => dedupKeepFirst [] (literals.filter (fun l => !asg.isLiteralAssignedFalse l))

/-- The part of `ClausalPropagator::add_permanent_clause` operating on the
preprocessed literal list: an empty clause or a falsified unit makes the
propagator permanently infeasible; an unassigned unit is enqueued as a root
assignment and propagated (failure again making the state infeasible); a
root-satisfied unit is a no-op; otherwise the clause is installed via
`add_clause_unchecked`. -/
def ClausalPropagator.installPreprocessedClause (p : ClausalPropagator)
    (literals : List Literal) (asg : AssignmentsPropositional) (alloc : ClauseAllocator) :
    Except ConstraintOperationError Unit × ClausalPropagator
      × AssignmentsPropositional × ClauseAllocator :=
  match literals with
  | [] => (.error .infeasibleClause, { p with isInInfeasibleState := true }, asg, alloc)
  | [l] =>
      if asg.isLiteralAssignedFalse l then
        (.error .infeasibleClause, { p with isInInfeasibleState := true }, asg, alloc)
      else if asg.isLiteralUnassigned l then
        let asg1 := asg.enqueueDecisionLiteral l
        match p.propagate asg1 alloc with
        | (.error _, p1, asg2, alloc1) =>
            (.error .infeasibleClause, { p1 with isInInfeasibleState := true }, asg2, alloc1)
        | (.ok _, p1, asg2, alloc1) => (.ok (), p1, asg2, alloc1)
      else (.ok (), p, asg, alloc)
  | l1 :: l2 :: rest =>
      let result := p.addClauseUnchecked (l1 :: l2 :: rest) false alloc
      (.ok (), result.2.1, asg, result.2.2)

/-- `ClausalPropagator::add_permanent_clause`: reject everything once
infeasible, otherwise preprocess and install. -/
def ClausalPropagator.addPermanentClause (p : ClausalPropagator) (literals : List Literal)
    (asg : AssignmentsPropositional) (alloc : ClauseAllocator) :
    Except ConstraintOperationError Unit × ClausalPropagator
      × AssignmentsPropositional × ClauseAllocator :=
  if p.isInInfeasibleState then (.error .infeasibleState, p, asg, alloc)
  else p.installPreprocessedClause (preprocessClause literals asg) asg alloc

/-! ## The integer assignment store and CP watch lists -/

/-- Modelled from the spec (§3): one integer domain with its initial bounds
(fixed at creation) and current bounds. The set of removed interior values
is omitted: no operation embedded here inspects it. -/
structure IntegerDomain where
  initialLowerBound : Int
  initialUpperBound : Int
  lowerBound : Int
  upperBound : Int
  deriving DecidableEq, Repr

instance : Inhabited IntegerDomain := ⟨⟨0, 0, 0, 0⟩⟩

/-- Modelled from the spec: the integer assignment store
(`AssignmentsInteger`, not part of the provided tree); `DomainId`s index the
domain list. -/
structure AssignmentsInteger where
  domains : List IntegerDomain
  deriving DecidableEq, Repr

/-- `AssignmentsInteger::grow(lb, ub)` registers a new domain and returns its
id. -/
def AssignmentsInteger.grow (a : AssignmentsInteger) (lb ub : Int) : Nat × AssignmentsInteger :=
  (a.domains.length, { domains := a.domains ++ [⟨lb, ub, lb, ub⟩] })

def AssignmentsInteger.getInitialLowerBound (a : AssignmentsInteger) (d : Nat) : Int :=
  (a.domains.getD d default).initialLowerBound

def AssignmentsInteger.getInitialUpperBound (a : AssignmentsInteger) (d : Nat) : Int :=
  (a.domains.getD d default).initialUpperBound

def AssignmentsInteger.getLowerBound (a : AssignmentsInteger) (d : Nat) : Int :=
  (a.domains.getD d default).lowerBound

def AssignmentsInteger.getUpperBound (a : AssignmentsInteger) (d : Nat) : Int :=
  (a.domains.getD d default).upperBound

/-! ## CP watch lists (`watch_list_cp.rs`) -/

/-- A (propagator, local-variable-id) pair (`PropagatorVarId`). -/
structure PropagatorVarId where
  propagatorId : Nat
  variableId : Nat
  deriving DecidableEq, Repr

/-- The kinds of events on a domain variable (`IntDomainEvent`). -/
inductive IntDomainEvent where
  | assign
  | lowerBound
  | upperBound
  | removal
  deriving DecidableEq, Repr

/-- An `EnumSet<IntDomainEvent>` modelled as one membership flag per event. -/
structure IntDomainEventSet where
  assign : Bool
  lowerBound : Bool
  upperBound : Bool
  removal : Bool
  deriving DecidableEq, Repr

def IntDomainEventSet.mem (s : IntDomainEventSet) : IntDomainEvent → Bool
  | .assign => s.assign
  | .lowerBound => s.lowerBound
  | .upperBound => s.upperBound
  | .removal => s.removal

/-- The per-domain forward watcher: one ordered subscriber list per event
class (`Watcher`). -/
structure Watcher where
  lowerBoundWatchers : List PropagatorVarId
  upperBoundWatchers : List PropagatorVarId
  assignWatchers : List PropagatorVarId
  removalWatchers : List PropagatorVarId
  deriving DecidableEq, Repr

instance : Inhabited Watcher := ⟨⟨[], [], [], []⟩⟩

/-- `WatcherCP`: wraps the forward watcher. -/
structure WatcherCP where
  forwardWatcher : Watcher
  deriving DecidableEq, Repr

instance : Inhabited WatcherCP := ⟨⟨default⟩⟩

/-- `WatchListCP`: the per-domain watchers plus the global
`is_watching_anything` flag. -/
structure WatchListCP where
  watchers : List WatcherCP
  isWatchingAnything : Bool
  deriving DecidableEq, Repr

def WatchListCP.grow (wl : WatchListCP) : WatchListCP :=
  { wl with watchers := wl.watchers ++ [default] }

def Watcher.eventList (w : Watcher) : IntDomainEvent → List PropagatorVarId
  | .assign => w.assignWatchers
  | .lowerBound => w.lowerBoundWatchers
  | .upperBound => w.upperBoundWatchers
  | .removal => w.removalWatchers

/-- `WatchListCP::get_affected_propagators(event, domain)`. -/
def WatchListCP.getAffectedPropagators (wl : WatchListCP) (event : IntDomainEvent)
    (domain : Nat) : List PropagatorVarId :=
  ((wl.watchers.getD domain default).forwardWatcher).eventList event

def Watcher.setEventList (w : Watcher) (e : IntDomainEvent) (l : List PropagatorVarId) : Watcher :=
  match e with
  | .assign => { w with assignWatchers := l }
  | .lowerBound => { w with lowerBoundWatchers := l }
  | .upperBound => { w with upperBoundWatchers := l }
  | .removal => { w with removalWatchers := l }

/-- The body of the `for event in events` loop of `Watchers::watch_all`: push
the subscribing pair onto the event class's list unless it is already
present. -/
def Watcher.subscribe (w : Watcher) (pv : PropagatorVarId) (e : IntDomainEvent) : Watcher :=
  if pv ∈ w.eventList e then w else w.setEventList e (w.eventList e ++ [pv])

/-- The body of the `for event in events` loop of `Watchers::watch_all`:
subscribe to the class when it is a member of the event set. -/
def watchAllStep (pv : PropagatorVarId) (events : IntDomainEventSet) (w : Watcher)
    (e : IntDomainEvent) : Watcher :=
  if events.mem e then w.subscribe pv e else w

/-- `Watchers::watch_all(domain, events)` for the pair `pv`
(`Watchers { propagator_var, watch_list }`): set the global flag and
subscribe the pair to every event class contained in `events`. The `EnumSet`
iterates the event classes in declaration order. -/
def WatchListCP.watchAll (wl : WatchListCP) (pv : PropagatorVarId) (domain : Nat)
    (events : IntDomainEventSet) : WatchListCP :=
  { watchers := wl.watchers.set domain
      ⟨watchAllStep pv events
        (watchAllStep pv events
          (watchAllStep pv events
            (watchAllStep pv events
              ((wl.watchers.getD domain default).forwardWatcher) .assign)
            .lowerBound)
          .upperBound)
        .removal⟩,
    isWatchingAnything := true }

/-- `WatchListPropositional` (not part of the provided tree): during variable
creation it is only grown, so only its size is modelled. -/
structure WatchListPropositional where
  numVariables : Nat
  deriving DecidableEq, Repr

def WatchListPropositional.grow (wl : WatchListPropositional) : WatchListPropositional :=
  { numVariables := wl.numVariables + 1 }

/-! ## The variable-literal mapping (`variable_literal_mappings.rs`) -/

/-- `VariableLiteralMappings`: per-domain equality and lower-bound literal
arrays, plus the literal-to-predicate registry indexed by `Literal.index`. -/
structure VariableLiteralMappings where
  domainToEqualityLiterals : List (List Literal)
  domainToLowerBoundLiterals : List (List Literal)
  literalToPredicates : List (List IntegerPredicate)
  deriving DecidableEq, Repr

/-- `KeyedVec::accomodate(key, default)`: extend with empty entries so that
index `i` exists. -/
def accomodatePreds (xs : List (List IntegerPredicate)) (i : Nat) :
    List (List IntegerPredicate) :=
  if i < xs.length then xs else xs ++ List.replicate (i + 1 - xs.length) []

def pushPredAt (xs : List (List IntegerPredicate)) (i : Nat) (p : IntegerPredicate) :
    List (List IntegerPredicate) :=
  xs.set i (xs.getD i [] ++ [p])

/-- `add_predicate_information_to_propositional_variable`: register the
predicate with the literal and its negation with the negated literal. -/
def VariableLiteralMappings.addPredicateInformation (m : VariableLiteralMappings)
    (l : Literal) (pred : IntegerPredicate) : VariableLiteralMappings :=
  let xs := accomodatePreds (accomodatePreds m.literalToPredicates l.index) l.negate.index
  { m with literalToPredicates :=
      pushPredAt (pushPredAt xs l.index pred) l.negate.index pred.negate }

/-- The solver components threaded through variable creation
(the `&mut` parameters of `create_new_domain`). -/
structure SolverCtx where
  mappings : VariableLiteralMappings
  assignmentsInteger : AssignmentsInteger
  watchListCP : WatchListCP
  watchListPropositional : WatchListPropositional
  clausalPropagator : ClausalPropagator
  assignmentsPropositional : AssignmentsPropositional
  clauseAllocator : ClauseAllocator
  deriving DecidableEq, Repr

/-- `create_new_propositional_variable`: the fresh variable index is the
current variable count; the watch lists, the propositional store and the
predicate registry are grown alongside. -/
def SolverCtx.createNewPropositionalVariable (ctx : SolverCtx) : Nat × SolverCtx :=
  let idx := ctx.assignmentsPropositional.numPropositionalVariables
  (idx, { ctx with
    clausalPropagator := ctx.clausalPropagator.grow,
    watchListPropositional := ctx.watchListPropositional.grow,
    assignmentsPropositional := ctx.assignmentsPropositional.grow,
    mappings := { ctx.mappings with
      literalToPredicates := ctx.mappings.literalToPredicates ++ [[], []] } })

/-- `create_new_propositional_variable_with_predicate`: create the variable
and register the predicate with its positive literal. -/
def SolverCtx.createNewPropositionalVariableWithPredicate (ctx : SolverCtx)
    (pred : IntegerPredicate) : Nat × SolverCtx :=
  let r := ctx.createNewPropositionalVariable
  (r.1, { r.2 with
    mappings := r.2.mappings.addPredicateInformation (Literal.mk r.1 true) pred })

/-- `for v in lo..hi` over machine integers. -/
def intRange (lo hi : Int) : List Int :=
  (List.range (hi - lo).toNat).map (fun (i : Nat) => lo + (i : Int))

/-- The variable-creating loops of `create_lower_bound_literals` and
`create_equality_literals`: one fresh positive literal per value, each
registered with `mk v`. -/
def SolverCtx.createVarsWithPredicates (ctx : SolverCtx) (mk : Int → IntegerPredicate) :
    List Int → List Literal × SolverCtx
  | [] => ([], ctx)
  | v :: vs =>
    let r1 := ctx.createNewPropositionalVariableWithPredicate (mk v)
    let r2 := r1.2.createVarsWithPredicates mk vs
    (Literal.mk r1.1 true :: r2.1, r2.2)

def SolverCtx.addPermanentImplicationUnchecked (ctx : SolverCtx) (lhs rhs : Literal) :
    SolverCtx :=
  let r := ctx.clausalPropagator.addPermanentImplicationUnchecked lhs rhs ctx.clauseAllocator
  { ctx with clausalPropagator := r.1, clauseAllocator := r.2 }

def SolverCtx.addPermanentTernaryClauseUnchecked (ctx : SolverCtx) (a b c : Literal) :
    SolverCtx :=
  let r := ctx.clausalPropagator.addPermanentTernaryClauseUnchecked a b c ctx.clauseAllocator
  { ctx with clausalPropagator := r.1, clauseAllocator := r.2 }

def SolverCtx.addPermanentClause (ctx : SolverCtx) (literals : List Literal) : SolverCtx :=
  let r :=
    ctx.clausalPropagator.addPermanentClause literals ctx.assignmentsPropositional
      ctx.clauseAllocator
  { ctx with
    clausalPropagator := r.2.1
    assignmentsPropositional := r.2.2.1
    clauseAllocator := r.2.2.2 }

/-- `create_lower_bound_literals`: the literal at index `i` is
`[x ≥ lb + i]`; index 0 is pinned to the global true literal, one fresh
variable is created per value in `lb+1 ..= ub`, the final entry is pinned to
the global false literal, and the chain implications
`[x ≥ v] → [x ≥ v − 1]` are added for `v` in `lb+2 ..= ub`. -/
def SolverCtx.createLowerBoundLiterals (ctx : SolverCtx) (domainId : Nat) :
    List Literal × SolverCtx :=
  let lb := ctx.assignmentsInteger.getLowerBound domainId
  let ub := ctx.assignmentsInteger.getUpperBound domainId
  let firstLit := ctx.assignmentsPropositional.trueLiteral
  let ctx1 := { ctx with
    mappings := ctx.mappings.addPredicateInformation firstLit (.lowerBound domainId lb) }
  let mid := ctx1.createVarsWithPredicates (fun v => .lowerBound domainId v)
    (intRange (lb + 1) (ub + 1))
  let lastLit := mid.2.assignmentsPropositional.falseLiteral
  let ctx2 := { mid.2 with
    mappings := mid.2.mappings.addPredicateInformation lastLit (.lowerBound domainId (ub + 1)) }
  let lits := firstLit :: mid.1 ++ [lastLit]
  let ctx3 := (intRange (lb + 2) (ub + 1)).foldl (fun c v =>
    c.addPermanentImplicationUnchecked
      (lits.getD (v - lb).toNat default) (lits.getD ((v - lb).toNat - 1) default)) ctx2
  (lits, ctx3)

/-- `create_equality_literals`: `[x = lb]` is `¬[x ≥ lb+1]`, one fresh
variable is created per interior value, `[x = ub]` reuses `[x ≥ ub]` when
`lb < ub`, and for every interior value the three clauses encoding
`[x = v] ↔ [x ≥ v] ∧ ¬[x ≥ v+1]` are added. -/
def SolverCtx.createEqualityLiterals (ctx : SolverCtx) (domainId : Nat)
    (lbLits : List Literal) : List Literal × SolverCtx :=
  let lb := ctx.assignmentsInteger.getLowerBound domainId
  let ub := ctx.assignmentsInteger.getUpperBound domainId
  let eq0 := (lbLits.getD 1 default).negate
  let ctx1 := { ctx with
    mappings := ctx.mappings.addPredicateInformation eq0 (.equal domainId lb) }
  let mid := ctx1.createVarsWithPredicates (fun v => .equal domainId v) (intRange (lb + 1) ub)
  let r2 : List Literal × SolverCtx :=
    if lb < ub then
      let equalsUb := lbLits.getD (lbLits.length - 2) default
      (eq0 :: mid.1 ++ [equalsUb],
        { mid.2 with
          mappings := mid.2.mappings.addPredicateInformation equalsUb (.equal domainId ub) })
    else (eq0 :: mid.1, mid.2)
  let eqLits := r2.1
  let ctx3 := (intRange (lb + 1) ub).foldl (fun c v =>
    let idx := (v - lb).toNat
    let c1 := c.addPermanentTernaryClauseUnchecked
      ((lbLits.getD idx default).negate) (lbLits.getD (idx + 1) default)
      (eqLits.getD idx default)
    let c2 := c1.addPermanentImplicationUnchecked
      (eqLits.getD idx default) (lbLits.getD idx default)
    c2.addPermanentImplicationUnchecked
      (eqLits.getD idx default) ((lbLits.getD (idx + 1) default).negate)) r2.2
  (eqLits, ctx3)

/-- `create_propositional_representation`: build the lower-bound chain and
the equality literals, record both arrays, and add the permanent
at-least-one-equality clause. -/
def SolverCtx.createPropositionalRepresentation (ctx : SolverCtx) (domainId : Nat) :
    SolverCtx :=
  let r1 := ctx.createLowerBoundLiterals domainId
  let r2 := r1.2.createEqualityLiterals domainId r1.1
  let ctx3 := { r2.2 with mappings := { r2.2.mappings with
    domainToLowerBoundLiterals := r2.2.mappings.domainToLowerBoundLiterals ++ [r1.1],
    domainToEqualityLiterals := r2.2.mappings.domainToEqualityLiterals ++ [r2.1] } }
  ctx3.addPermanentClause r2.1

/-- `create_new_domain(lb, ub)`: register the integer domain (the source
asserts `lb ≤ ub`), grow the CP watch list, and build the propositional
representation. -/
def SolverCtx.createNewDomain (ctx : SolverCtx) (lb ub : Int) : Nat × SolverCtx :=
  let g := ctx.assignmentsInteger.grow lb ub
  let ctx1 := { ctx with assignmentsInteger := g.2, watchListCP := ctx.watchListCP.grow }
  (g.1, ctx1.createPropositionalRepresentation g.1)

/-- `get_lower_bound_literal`: trivially true below the initial lower bound,
trivially false above the initial upper bound, otherwise the stored chain
literal at offset `lower_bound − initial_lower_bound`. -/
def VariableLiteralMappings.getLowerBoundLiteral (m : VariableLiteralMappings)
    (domain : Nat) (lowerBound : Int) (asgP : AssignmentsPropositional)
    (asgInt : AssignmentsInteger) : Literal :=
  let ilb := asgInt.getInitialLowerBound domain
  let iub := asgInt.getInitialUpperBound domain
  if lowerBound < ilb then asgP.trueLiteral
  else if lowerBound > iub then asgP.falseLiteral
  else (m.domainToLowerBoundLiterals.getD domain []).getD (lowerBound - ilb).toNat default

/-- `get_upper_bound_literal`: the negation of the lower-bound literal one
step up. -/
def VariableLiteralMappings.getUpperBoundLiteral (m : VariableLiteralMappings)
    (domain : Nat) (upperBound : Int) (asgP : AssignmentsPropositional)
    (asgInt : AssignmentsInteger) : Literal :=
  (m.getLowerBoundLiteral domain (upperBound + 1) asgP asgInt).negate

/-- `get_equality_literal`: trivially false outside the initial range,
otherwise the stored equality literal. -/
def VariableLiteralMappings.getEqualityLiteral (m : VariableLiteralMappings)
    (domain : Nat) (equalityConstant : Int) (asgP : AssignmentsPropositional)
    (asgInt : AssignmentsInteger) : Literal :=
  let ilb := asgInt.getInitialLowerBound domain
  let iub := asgInt.getInitialUpperBound domain
  if equalityConstant < ilb ∨ equalityConstant > iub then asgP.falseLiteral
  else (m.domainToEqualityLiterals.getD domain []).getD (equalityConstant - ilb).toNat default

/-- `get_inequality_literal`: the negation of the equality literal. -/
def VariableLiteralMappings.getInequalityLiteral (m : VariableLiteralMappings)
    (domain : Nat) (notEqualConstant : Int) (asgP : AssignmentsPropositional)
    (asgInt : AssignmentsInteger) : Literal :=
  (m.getEqualityLiteral domain notEqualConstant asgP asgInt).negate

/-- `get_literal(predicate)`: dispatch to the four specialisations. -/
def VariableLiteralMappings.getLiteral (m : VariableLiteralMappings)
    (pred : IntegerPredicate) (asgP : AssignmentsPropositional)
    (asgInt : AssignmentsInteger) : Literal :=
  match pred with
  | .lowerBound d v => m.getLowerBoundLiteral d v asgP asgInt
  | .upperBound d v => m.getUpperBoundLiteral d v asgP asgInt
  | .notEqual d c => m.getInequalityLiteral d c asgP asgInt
  | .equal d c => m.getEqualityLiteral d c asgP asgInt

/-- Modelled from the spec: the solver start-up state (the constructor of
`ConstraintSatisfactionSolver` is not part of the provided tree). The
dedicated variable 0 carries the always-true literal, is assigned true at
the root, and every id-indexed structure has been grown for it; the
propagation cursor sits past the root entry. -/
def initialCtx : SolverCtx :=
  { mappings := ⟨[], [], [[], []]⟩,
    assignmentsInteger := ⟨[]⟩,
    watchListCP := ⟨[], false⟩,
    watchListPropositional := ⟨1⟩,
    clausalPropagator := ⟨[[], []], 1, [], false⟩,
    assignmentsPropositional := ⟨[some true], [⟨⟨0, true⟩, none⟩], ⟨0, true⟩⟩,
    clauseAllocator := ⟨[], []⟩ }

/-- The solver state right after creating one integer domain with initial
bounds `[0, 2]` from the start-up state; a concrete state used to
instantiate the theorems below. -/
def ctx02 : SolverCtx := (initialCtx.createNewDomain 0 2).2

/-! ## Backtracking (`conflict_analysis_context.rs`)

`ConflictAnalysisContext::backtrack` orchestrates the two assignment
stores, the clausal propagator cursor, the reason store and the propagator
queue, and notifies the brancher. The stores' `synchronise` methods live in
files that are not part of the provided tree and are modelled from the spec
(§4.1: `synchronise(level)` truncates the trail back to `level`, returning
the undone entries). To make the order of operations observable, each
sub-operation appends an event to a log. -/

/-- One observable step of `backtrack`, in the order the code performs
them. -/
inductive BacktrackEvent where
  | syncBooleanStore
  | onUnassignLiteral (l : Literal)
  | syncClausalPropagator (trailCursor : Nat)
  | syncIntegerStore
  | onUnassignInteger (domainId : Nat) (previousValue : Int)
  | syncReasonStore
  | clearPropagatorQueue
  deriving DecidableEq, Repr

/-- Modelled from the spec: the boolean store's trail with, per decision
level, the trail length at which that level started (`synchronise(level)`
truncates back to that length and yields the literals undone, most recent
first). -/
structure BoolStore where
  trail : List Literal
  levelStarts : List Nat
  deriving DecidableEq, Repr

/-- The current decision level of the boolean store. -/
def BoolStore.decisionLevel (s : BoolStore) : Nat := s.levelStarts.length

/-- Modelled from the spec: truncate the trail back to the start of level
`level + 1`; the undone literals are returned most recent first. -/
def BoolStore.synchronise (s : BoolStore) (level : Nat) : List Literal × BoolStore :=
  let keep := s.levelStarts.getD level s.trail.length
  ((s.trail.drop keep).reverse, ⟨s.trail.take keep, s.levelStarts.take level⟩)

/-- Modelled from the spec: the integer store's trail of
(domain id, previous value) change records, organised like `BoolStore`. -/
structure IntStore where
  trail : List (Nat × Int)
  levelStarts : List Nat
  deriving DecidableEq, Repr

def IntStore.decisionLevel (s : IntStore) : Nat := s.levelStarts.length

def IntStore.synchronise (s : IntStore) (level : Nat) : List (Nat × Int) × IntStore :=
  let keep := s.levelStarts.getD level s.trail.length
  ((s.trail.drop keep).reverse, ⟨s.trail.take keep, s.levelStarts.take level⟩)

/-- The slice of `ConflictAnalysisContext` touched by `backtrack`, plus the
event log. The reason store is represented by the level it is synchronised
to, the propagator queue by its pending propagator ids. -/
structure ConflictAnalysisContext where
  assignmentsPropositional : BoolStore
  assignmentsInteger : IntStore
  clausalPropagatorCursor : Nat
  propositionalTrailIndex : Nat
  reasonStoreLevel : Nat
  propagatorQueue : List Nat
  satTrailSyncedPosition : Nat
  cpTrailSyncedPosition : Nat
  log : List BacktrackEvent
  deriving DecidableEq, Repr

/-- `ConflictAnalysisContext::backtrack(backtrack_level)` (the source
asserts `backtrack_level < decision level`): synchronise the boolean store
and notify the brancher of each literal undone, synchronise the clausal
propagator to the new boolean trail length, cap the propositional trail
index, synchronise the integer store and notify the brancher of each
(domain id, previous value) pair undone, synchronise the reason store,
clear the propagator queue, and update the two synced positions. -/
def ConflictAnalysisContext.backtrack (ctx : ConflictAnalysisContext) (backtrackLevel : Nat) :
    ConflictAnalysisContext :=
  let sb := ctx.assignmentsPropositional.synchronise backtrackLevel
  let log1 := ctx.log ++ [BacktrackEvent.syncBooleanStore]
      ++ sb.1.map BacktrackEvent.onUnassignLiteral
  let newCursor := sb.2.trail.length
  let log2 := log1 ++ [BacktrackEvent.syncClausalPropagator newCursor]
  let newTrailIndex := min ctx.propositionalTrailIndex sb.2.trail.length
  let si := ctx.assignmentsInteger.synchronise backtrackLevel
  let log3 := log2 ++ [BacktrackEvent.syncIntegerStore]
      ++ si.1.map (fun e => BacktrackEvent.onUnassignInteger e.1 e.2)
  let log4 := log3 ++ [BacktrackEvent.syncReasonStore, BacktrackEvent.clearPropagatorQueue]
  { assignmentsPropositional := sb.2,
    assignmentsInteger := si.2,
    clausalPropagatorCursor := newCursor,
    propositionalTrailIndex := newTrailIndex,
    reasonStoreLevel := backtrackLevel,
    propagatorQueue := [],
    satTrailSyncedPosition := sb.2.trail.length,
    cpTrailSyncedPosition := si.2.trail.length,
    log := log4 }

/-- A concrete conflict-analysis context at decision level 2 (one literal
undone and one integer change undone when backtracking to level 1), used to
instantiate the backtracking theorem. -/
def ctxBacktrack : ConflictAnalysisContext :=
  ⟨⟨[⟨1, true⟩, ⟨2, true⟩, ⟨3, true⟩], [1, 2]⟩, ⟨[(0, 5)], [0, 0]⟩, 3, 3, 2, [7], 3, 1, []⟩

/-- The allocator's free-list invariant: the free list holds pairwise
distinct references to in-range, tombstoned slots. It holds initially
(empty free list) and is maintained because `delete_clause` refuses
double deletion and `create_clause` pops the reused reference. -/
def AllocInvariant (a : ClauseAllocator) : Prop :=
  a.deletedClauseReferences.Nodup
    ∧ ∀ r ∈ a.deletedClauseReferences,
        1 ≤ r.code ∧ r.code ≤ a.allocatedClauses.length ∧ (a.getClause r).isDeleted = true

/-! ## The two-watched-literal invariant (`debug_check_state`) -/

/-- The literal whose watch list lives at index `i` (`Literal.index` is a
bijection between literals and naturals, see `litOfIndex_index`). -/
def litOfIndex (i : Nat) : Literal := ⟨i / 2, i % 2 == 1⟩

/-- The number of watchers for clause `r` in the watch list of `l`. -/
def ClausalPropagator.watchCount (p : ClausalPropagator) (l : Literal)
    (r : ClauseReference) : Nat :=
  (p.getWatchList l).countP (fun w => w.clauseReference == r)

/-- The two-watched-literal invariant of `debug_check_state`: every arena
clause has at least two pairwise distinct literals; every watcher references
a valid, registered, non-deleted clause and sits in the watch list of that
clause's literal 0 or literal 1; and every registered non-deleted clause is
watched exactly once from each of the lists of its first two literals and
from no other list. Watch lists are adressed by `Literal.index`, so the
watcher quantifications run over the indices of the stored lists. -/
def WatchInvariant (p : ClausalPropagator) (alloc : ClauseAllocator) : Prop :=
  (∀ cl ∈ alloc.allocatedClauses, 2 ≤ cl.literals.length ∧ cl.literals.Nodup)
    ∧ (∀ i ∈ List.range p.watchLists.length, ∀ w ∈ p.watchLists.getD i [],
        1 ≤ w.clauseReference.code
          ∧ w.clauseReference.code ≤ alloc.allocatedClauses.length
          ∧ w.clauseReference ∈ p.permanentClauses
          ∧ (alloc.getClause w.clauseReference).isDeleted = false
          ∧ (litOfIndex i = (alloc.getClause w.clauseReference).literals.getD 0 default
            ∨ litOfIndex i = (alloc.getClause w.clauseReference).literals.getD 1 default))
    ∧ (∀ r ∈ p.permanentClauses,
        1 ≤ r.code
          ∧ r.code ≤ alloc.allocatedClauses.length
          ∧ ((alloc.getClause r).isDeleted = false →
            p.watchCount ((alloc.getClause r).literals.getD 0 default) r = 1
              ∧ p.watchCount ((alloc.getClause r).literals.getD 1 default) r = 1
              ∧ ∀ i ∈ List.range p.watchLists.length,
                  litOfIndex i ≠ (alloc.getClause r).literals.getD 0 default →
                  litOfIndex i ≠ (alloc.getClause r).literals.getD 1 default →
                  (p.watchLists.getD i []).countP
                    (fun w => w.clauseReference == r) = 0))

/-- The same invariant with the watcher quantifications running over all
literals (`getWatchList` is empty beyond the stored lists, so this is
equivalent — see `watchInvariant_iff`); the form the preservation proofs
use. -/
def WatchInvariantL (p : ClausalPropagator) (alloc : ClauseAllocator) : Prop :=
  (∀ cl ∈ alloc.allocatedClauses, 2 ≤ cl.literals.length ∧ cl.literals.Nodup)
    ∧ (∀ l : Literal, ∀ w ∈ p.getWatchList l,
        1 ≤ w.clauseReference.code
          ∧ w.clauseReference.code ≤ alloc.allocatedClauses.length
          ∧ w.clauseReference ∈ p.permanentClauses
          ∧ (alloc.getClause w.clauseReference).isDeleted = false
          ∧ (l = (alloc.getClause w.clauseReference).literals.getD 0 default
            ∨ l = (alloc.getClause w.clauseReference).literals.getD 1 default))
    ∧ (∀ r ∈ p.permanentClauses,
        1 ≤ r.code
          ∧ r.code ≤ alloc.allocatedClauses.length
          ∧ ((alloc.getClause r).isDeleted = false →
            p.watchCount ((alloc.getClause r).literals.getD 0 default) r = 1
              ∧ p.watchCount ((alloc.getClause r).literals.getD 1 default) r = 1
              ∧ ∀ l : Literal,
                  l ≠ (alloc.getClause r).literals.getD 0 default →
                  l ≠ (alloc.getClause r).literals.getD 1 default →
                  p.watchCount l r = 0))

/-- Every clause literal refers to a propositional variable that exists in
the value store. -/
def LiteralsInRange (alloc : ClauseAllocator) (asg : AssignmentsPropositional) : Prop :=
  ∀ cl ∈ alloc.allocatedClauses, ∀ l ∈ cl.literals,
    l.variableIndex < asg.values.length

/-- Every trail entry records a literal over an existing variable that is
currently assigned true (§4.1: the trail lists the literals made true, in
order). -/
def TrailConsistent (asg : AssignmentsPropositional) : Prop :=
  ∀ e ∈ asg.trail, e.literal.variableIndex < asg.values.length
    ∧ asg.values.getD e.literal.variableIndex none = some e.literal.isPositive

/-- The watchers a `processWatcher` step leaves in (or returns to) the
processed literal's own watch list. -/
def stepKept : WatcherStep → List ClauseWatcher
  | .keep w1 => [w1]
  | .moved => []
  | .propagated w1 => [w1]
  | .conflict w1 _ => [w1]

/-! ## Theorems -/

theorem Literal.negate_negate (l : Literal) : l.negate.negate = l := by
  cases l with
  | mk v p => cases p <;> rfl

theorem Literal.index_injective : Function.Injective Literal.index := by
  intro a b h
  cases a with
  | mk va pa =>
    cases b with
    | mk vb pb =>
      cases pa <;> cases pb <;> simp [Literal.index] at h ⊢ <;> omega

/-- **C1**: for every integer domain `d` and every value `v`,
`get_upper_bound_literal(d, v)` returns exactly the negation of
`get_lower_bound_literal(d, v+1)`, and `get_inequality_literal(d, v)`
returns exactly the negation of `get_equality_literal(d, v)`: upper-bound
and disequality literals are derived by negation, never separately
allocated. -/
theorem upper_bound_and_inequality_literals_are_negations
    (m : VariableLiteralMappings) (asgP : AssignmentsPropositional)
    (asgInt : AssignmentsInteger) (d : Nat) (v : Int) :
    m.getUpperBoundLiteral d v asgP asgInt
        = (m.getLowerBoundLiteral d (v + 1) asgP asgInt).negate
      ∧ m.getInequalityLiteral d v asgP asgInt
        = (m.getEqualityLiteral d v asgP asgInt).negate :=
  ⟨rfl, rfl⟩

/-- Shared helper: the two equality-family getters on an out-of-range
constant. -/
theorem getEqualityLiteral_outside_range
    (m : VariableLiteralMappings) (asgP : AssignmentsPropositional)
    (asgInt : AssignmentsInteger) (d : Nat) (c : Int)
    (h : c < asgInt.getInitialLowerBound d ∨ c > asgInt.getInitialUpperBound d) :
    m.getEqualityLiteral d c asgP asgInt = asgP.falseLiteral
      ∧ m.getInequalityLiteral d c asgP asgInt = asgP.trueLiteral := by
  have h1 : m.getEqualityLiteral d c asgP asgInt = asgP.falseLiteral := by
    simp only [VariableLiteralMappings.getEqualityLiteral]
    rw [if_pos h]
  refine ⟨h1, ?_⟩
  simp only [VariableLiteralMappings.getInequalityLiteral, h1,
    AssignmentsPropositional.falseLiteral, Literal.negate_negate]

/-- **C10**: for every constant `c` outside the initial bounds of a domain —
below the initial lower bound or above the initial upper bound —
`get_equality_literal` returns the global false literal and consequently
`get_inequality_literal` returns the global true literal; in particular an
equality query below the initial lower bound yields the false literal, not
the true literal. -/
theorem equality_literal_outside_initial_range_is_false
    (m : VariableLiteralMappings) (asgP : AssignmentsPropositional)
    (asgInt : AssignmentsInteger) (d : Nat) (c : Int)
    (h : c < asgInt.getInitialLowerBound d ∨ c > asgInt.getInitialUpperBound d) :
    m.getEqualityLiteral d c asgP asgInt = asgP.falseLiteral
      ∧ m.getInequalityLiteral d c asgP asgInt = asgP.trueLiteral :=
  getEqualityLiteral_outside_range m asgP asgInt d c h

/-- **C10** (witness): on a freshly created domain with initial bounds
`[0, 2]`, the equality query at `-1` yields the false literal and the
disequality query the true literal. -/
theorem equality_literal_outside_initial_range_is_false_witness :
    (initialCtx.createNewDomain 0 2).2.mappings.getEqualityLiteral 0 (-1)
        (initialCtx.createNewDomain 0 2).2.assignmentsPropositional
        (initialCtx.createNewDomain 0 2).2.assignmentsInteger
      = (initialCtx.createNewDomain 0 2).2.assignmentsPropositional.falseLiteral
    ∧ (initialCtx.createNewDomain 0 2).2.mappings.getInequalityLiteral 0 (-1)
        (initialCtx.createNewDomain 0 2).2.assignmentsPropositional
        (initialCtx.createNewDomain 0 2).2.assignmentsInteger
      = (initialCtx.createNewDomain 0 2).2.assignmentsPropositional.trueLiteral :=
  equality_literal_outside_initial_range_is_false _ _ _ 0 (-1) (Or.inl (by decide))

/-- **C2** (counterexample): on a freshly created domain with initial bounds
`[0, 2]`, the upper-bound query at `-2` — below the initial lower bound —
returns the global-false literal, not the global-true literal required by
the claim (the source's own test `negative_upper_bound` asserts the false
literal); the equality query at `-1` likewise returns the global-false
literal. -/
theorem boundary_query_below_lower_bound_not_true_literal :
    (initialCtx.createNewDomain 0 2).2.mappings.getUpperBoundLiteral 0 (-2)
        (initialCtx.createNewDomain 0 2).2.assignmentsPropositional
        (initialCtx.createNewDomain 0 2).2.assignmentsInteger
      ≠ (initialCtx.createNewDomain 0 2).2.assignmentsPropositional.trueLiteral
    ∧ (initialCtx.createNewDomain 0 2).2.mappings.getEqualityLiteral 0 (-1)
        (initialCtx.createNewDomain 0 2).2.assignmentsPropositional
        (initialCtx.createNewDomain 0 2).2.assignmentsInteger
      ≠ (initialCtx.createNewDomain 0 2).2.assignmentsPropositional.trueLiteral := by
  constructor <;> decide

/-- **C2** (amended): out-of-initial-range predicate queries return the
literal carrying the predicate's trivial truth value there. Lower-bound
queries below the initial lower bound return the global-true literal and
above the initial upper bound the global-false literal; upper-bound queries
below the initial lower bound return the global-false literal (given that
entry 0 of the domain's stored chain is pinned to the true literal, as
creation guarantees) and at or above the initial upper bound the
global-true literal; equality queries outside the initial range return the
global-false literal and disequality queries the global-true literal. -/
theorem boundary_queries_return_trivial_truth_values
    (m : VariableLiteralMappings) (asgP : AssignmentsPropositional)
    (asgInt : AssignmentsInteger) (d : Nat)
    (hle : asgInt.getInitialLowerBound d ≤ asgInt.getInitialUpperBound d) :
    (∀ v : Int, v < asgInt.getInitialLowerBound d →
        m.getLowerBoundLiteral d v asgP asgInt = asgP.trueLiteral)
    ∧ (∀ v : Int, v > asgInt.getInitialUpperBound d →
        m.getLowerBoundLiteral d v asgP asgInt = asgP.falseLiteral)
    ∧ ((m.domainToLowerBoundLiterals.getD d []).getD 0 default = asgP.trueLiteral →
        ∀ v : Int, v < asgInt.getInitialLowerBound d →
          m.getUpperBoundLiteral d v asgP asgInt = asgP.falseLiteral)
    ∧ (∀ v : Int, v ≥ asgInt.getInitialUpperBound d →
        m.getUpperBoundLiteral d v asgP asgInt = asgP.trueLiteral)
    ∧ (∀ c : Int, c < asgInt.getInitialLowerBound d ∨ c > asgInt.getInitialUpperBound d →
        m.getEqualityLiteral d c asgP asgInt = asgP.falseLiteral
          ∧ m.getInequalityLiteral d c asgP asgInt = asgP.trueLiteral) := by
  refine ⟨?_, ?_, ?_, ?_, ?_⟩
  · intro v hv
    simp only [VariableLiteralMappings.getLowerBoundLiteral]
    rw [if_pos hv]
  · intro v hv
    simp only [VariableLiteralMappings.getLowerBoundLiteral]
    rw [if_neg (by omega), if_pos hv]
  · intro h0 v hv
    simp only [VariableLiteralMappings.getUpperBoundLiteral,
      VariableLiteralMappings.getLowerBoundLiteral]
    by_cases hlt : v + 1 < asgInt.getInitialLowerBound d
    · rw [if_pos hlt]
      rfl
    · have hveq : v + 1 = asgInt.getInitialLowerBound d := by omega
      rw [if_neg hlt, if_neg (by omega), hveq, sub_self]
      simp only [Int.toNat_zero, h0]
      rfl
  · intro v hv
    simp only [VariableLiteralMappings.getUpperBoundLiteral,
      VariableLiteralMappings.getLowerBoundLiteral]
    rw [if_neg (by omega), if_pos (by omega)]
    simp only [AssignmentsPropositional.falseLiteral, Literal.negate_negate]
  · intro c hc
    exact getEqualityLiteral_outside_range m asgP asgInt d c hc

/-- **C2** (amended, witness): the boundary behaviour on a freshly created
domain with initial bounds `[0, 2]`. -/
theorem boundary_queries_return_trivial_truth_values_witness :
    ctx02.mappings.getLowerBoundLiteral 0 (-1) ctx02.assignmentsPropositional
        ctx02.assignmentsInteger = ctx02.assignmentsPropositional.trueLiteral
    ∧ ctx02.mappings.getLowerBoundLiteral 0 3 ctx02.assignmentsPropositional
        ctx02.assignmentsInteger = ctx02.assignmentsPropositional.falseLiteral
    ∧ ctx02.mappings.getUpperBoundLiteral 0 (-1) ctx02.assignmentsPropositional
        ctx02.assignmentsInteger = ctx02.assignmentsPropositional.falseLiteral
    ∧ ctx02.mappings.getUpperBoundLiteral 0 2 ctx02.assignmentsPropositional
        ctx02.assignmentsInteger = ctx02.assignmentsPropositional.trueLiteral
    ∧ ctx02.mappings.getEqualityLiteral 0 3 ctx02.assignmentsPropositional
        ctx02.assignmentsInteger = ctx02.assignmentsPropositional.falseLiteral
    ∧ ctx02.mappings.getInequalityLiteral 0 3 ctx02.assignmentsPropositional
        ctx02.assignmentsInteger = ctx02.assignmentsPropositional.trueLiteral := by
  have h := boundary_queries_return_trivial_truth_values ctx02.mappings
    ctx02.assignmentsPropositional ctx02.assignmentsInteger 0 (by decide)
  exact ⟨h.1 (-1) (by decide), h.2.1 3 (by decide), h.2.2.1 (by decide) (-1) (by decide),
    h.2.2.2.1 2 (by decide), (h.2.2.2.2 3 (Or.inr (by decide))).1,
    (h.2.2.2.2 3 (Or.inr (by decide))).2⟩

theorem Watcher.subscribe_eventList_self (w : Watcher) (pv : PropagatorVarId)
    (e : IntDomainEvent) :
    (w.subscribe pv e).eventList e
      = if pv ∈ w.eventList e then w.eventList e else w.eventList e ++ [pv] := by
  unfold Watcher.subscribe
  split
  · rfl
  · cases e <;> rfl

theorem Watcher.subscribe_eventList_other (w : Watcher) (pv : PropagatorVarId)
    {e' e : IntDomainEvent} (h : e' ≠ e) :
    (w.subscribe pv e').eventList e = w.eventList e := by
  unfold Watcher.subscribe
  split
  · rfl
  · cases e' <;> cases e <;> first | rfl | exact absurd rfl h

theorem watchAllStep_preserves (w : Watcher) (pv : PropagatorVarId)
    (events : IntDomainEventSet) {e' e : IntDomainEvent} (h : e' ≠ e) :
    (watchAllStep pv events w e').eventList e = w.eventList e := by
  unfold watchAllStep
  split
  · exact w.subscribe_eventList_other pv h
  · rfl

theorem watchAllStep_self (w : Watcher) (pv : PropagatorVarId)
    (events : IntDomainEventSet) (e : IntDomainEvent) :
    (watchAllStep pv events w e).eventList e
      = if events.mem e ∧ pv ∉ w.eventList e then w.eventList e ++ [pv]
        else w.eventList e := by
  unfold watchAllStep
  by_cases hm : events.mem e
  · rw [if_pos hm, Watcher.subscribe_eventList_self]
    by_cases hp : pv ∈ w.eventList e
    · rw [if_pos hp, if_neg (by simp [hm, hp])]
    · rw [if_neg hp, if_pos ⟨hm, hp⟩]
  · rw [if_neg hm, if_neg (by simp [hm])]

theorem getD_set_self {α : Type} [Inhabited α] (xs : List α) (d : Nat) (x : α)
    (hd : d < xs.length) : (xs.set d x).getD d default = x := by
  rw [List.getD_eq_getElem?_getD, List.getElem?_set_self (by omega)]
  rfl

/-- The per-event-class characterisation of `Watchers::watch_all`. -/
theorem watchAll_getAffectedPropagators (wl : WatchListCP) (pv : PropagatorVarId)
    (d : Nat) (events : IntDomainEventSet) (e : IntDomainEvent)
    (hd : d < wl.watchers.length) :
    (wl.watchAll pv d events).getAffectedPropagators e d
      = if events.mem e ∧ pv ∉ wl.getAffectedPropagators e d
        then wl.getAffectedPropagators e d ++ [pv]
        else wl.getAffectedPropagators e d := by
  unfold WatchListCP.watchAll WatchListCP.getAffectedPropagators
  rw [getD_set_self _ _ _ hd]
  cases e
  case assign =>
    rw [watchAllStep_preserves _ _ _ (show IntDomainEvent.removal ≠ .assign from by decide),
      watchAllStep_preserves _ _ _ (show IntDomainEvent.upperBound ≠ .assign from by decide),
      watchAllStep_preserves _ _ _ (show IntDomainEvent.lowerBound ≠ .assign from by decide),
      watchAllStep_self]
  case lowerBound =>
    rw [watchAllStep_preserves _ _ _ (show IntDomainEvent.removal ≠ .lowerBound from by decide),
      watchAllStep_preserves _ _ _ (show IntDomainEvent.upperBound ≠ .lowerBound from by decide),
      watchAllStep_self,
      watchAllStep_preserves _ _ _ (show IntDomainEvent.assign ≠ .lowerBound from by decide)]
  case upperBound =>
    rw [watchAllStep_preserves _ _ _ (show IntDomainEvent.removal ≠ .upperBound from by decide),
      watchAllStep_self,
      watchAllStep_preserves _ _ _ (show IntDomainEvent.lowerBound ≠ .upperBound from by decide),
      watchAllStep_preserves _ _ _ (show IntDomainEvent.assign ≠ .upperBound from by decide)]
  case removal =>
    rw [watchAllStep_self,
      watchAllStep_preserves _ _ _ (show IntDomainEvent.upperBound ≠ .removal from by decide),
      watchAllStep_preserves _ _ _ (show IntDomainEvent.lowerBound ≠ .removal from by decide),
      watchAllStep_preserves _ _ _ (show IntDomainEvent.assign ≠ .removal from by decide)]

/-- **C9**: subscribing a (propagator, local-variable-id) pair to a domain's
event classes via `Watchers::watch_all` is idempotent — a pair already
present in an event class's list is not pushed again — so for every event
class the list returned by `get_affected_propagators` contains each
subscribed pair at most once, in first-subscription order (the list is
either unchanged or extended at the back by the new pair). -/
theorem watch_all_is_idempotent_per_event_class (wl : WatchListCP)
    (pv : PropagatorVarId) (d : Nat) (events : IntDomainEventSet) (e : IntDomainEvent)
    (hd : d < wl.watchers.length) :
    ((wl.watchAll pv d events).getAffectedPropagators e d
        = if events.mem e ∧ pv ∉ wl.getAffectedPropagators e d
          then wl.getAffectedPropagators e d ++ [pv]
          else wl.getAffectedPropagators e d)
    ∧ (pv ∈ wl.getAffectedPropagators e d →
        (wl.watchAll pv d events).getAffectedPropagators e d
          = wl.getAffectedPropagators e d)
    ∧ ((wl.getAffectedPropagators e d).Nodup →
        ((wl.watchAll pv d events).getAffectedPropagators e d).Nodup) := by
  have hchar := watchAll_getAffectedPropagators wl pv d events e hd
  refine ⟨hchar, ?_, ?_⟩
  · intro hmem
    rw [hchar, if_neg (by simp [hmem])]
  · intro hnd
    rw [hchar]
    split
    · next h =>
        simp only [List.nodup_append, List.nodup_cons, List.not_mem_nil, not_false_iff,
          List.nodup_nil, and_true, true_and]
        constructor
        · exact hnd
        · intro a ha hb
          simp only [List.mem_singleton] at hb
          exact h.2 (hb ▸ ha)
    · exact hnd

/-- **C9** (witness): subscribing the same pair twice to the lower-bound
class of domain 0 leaves the list a singleton. -/
theorem watch_all_is_idempotent_per_event_class_witness :
    ((WatchListCP.mk [⟨⟨[⟨3, 0⟩], [], [], []⟩⟩] true).watchAll ⟨3, 0⟩ 0
        ⟨false, true, false, false⟩).getAffectedPropagators .lowerBound 0
      = [⟨3, 0⟩] := by
  have h := watch_all_is_idempotent_per_event_class
    (WatchListCP.mk [⟨⟨[⟨3, 0⟩], [], [], []⟩⟩] true) ⟨3, 0⟩ 0
    ⟨false, true, false, false⟩ .lowerBound (by decide)
  exact h.2.1 (by decide)

/-- **C8**: `delete_clause(r)` marks the clause behind `r` as deleted and
pushes `r` onto the free list; `create_clause` pops a reference from the
free list and overwrites the corresponding arena slot without growing the
arena whenever the free list is non-empty, and grows the arena handing out
the fresh, never-before-returned reference `len + 1` only when the free
list is empty; consequently (under the free-list invariant) every returned
reference is either brand new or belonged to a deleted clause — the
reference of a live clause is never returned for a different clause. -/
theorem clause_allocator_reuses_only_deleted_slots
    (a : ClauseAllocator) (lits : List Literal) (isLearned : Bool) (r0 : ClauseReference) :
    (a.deletedClauseReferences = [] →
      (a.createClause lits isLearned).1 = ⟨a.allocatedClauses.length + 1⟩
        ∧ (a.createClause lits isLearned).2.allocatedClauses
            = a.allocatedClauses ++ [Clause.new lits isLearned]
        ∧ ∀ r : ClauseReference, r.code ≤ a.allocatedClauses.length →
            (a.createClause lits isLearned).1 ≠ r)
    ∧ (AllocInvariant a → a.deletedClauseReferences ≠ [] →
        (a.createClause lits isLearned).1
            = a.deletedClauseReferences.getLast?.getD default
          ∧ (a.createClause lits isLearned).2.allocatedClauses.length
              = a.allocatedClauses.length
          ∧ (a.createClause lits isLearned).2.deletedClauseReferences
              = a.deletedClauseReferences.dropLast
          ∧ (a.createClause lits isLearned).2.getClause (a.createClause lits isLearned).1
              = Clause.new lits isLearned)
    ∧ ((a.getClause r0).isDeleted = false → 1 ≤ r0.code →
        r0.code ≤ a.allocatedClauses.length →
        ((a.deleteClause r0).getClause r0).isDeleted = true
          ∧ (a.deleteClause r0).deletedClauseReferences
              = a.deletedClauseReferences ++ [r0])
    ∧ (AllocInvariant a →
        (a.createClause lits isLearned).1.code = a.allocatedClauses.length + 1
          ∨ (a.getClause (a.createClause lits isLearned).1).isDeleted = true) := by
  refine ⟨?_, ?_, ?_, ?_⟩
  · intro hfree
    unfold ClauseAllocator.createClause
    rw [if_pos (by simp [hfree])]
    refine ⟨rfl, rfl, ?_⟩
    intro r hr hcontra
    have : a.allocatedClauses.length + 1 = r.code := congrArg ClauseReference.code hcontra
    omega
  · intro hinv hfree
    have hmem : a.deletedClauseReferences.getLast?.getD default
        ∈ a.deletedClauseReferences := by
      rw [List.getLast?_eq_getLast _ hfree]
      exact List.getLast_mem hfree
    obtain ⟨hge, hle, _⟩ := hinv.2 _ hmem
    unfold ClauseAllocator.createClause
    rw [if_neg (by simp [hfree])]
    refine ⟨rfl, by simp, rfl, ?_⟩
    simp only [ClauseAllocator.getClause]
    exact getD_set_self _ _ _ (by omega)
  · intro _ hge hle
    unfold ClauseAllocator.deleteClause ClauseAllocator.getClause
    refine ⟨?_, rfl⟩
    rw [getD_set_self _ _ _ (by omega)]
    rfl
  · intro hinv
    unfold ClauseAllocator.createClause
    by_cases hfree : a.deletedClauseReferences.isEmpty
    · rw [if_pos hfree]
      exact Or.inl rfl
    · rw [if_neg hfree]
      right
      have hne : a.deletedClauseReferences ≠ [] := by
        simpa [List.isEmpty_iff] using hfree
      have hmem : a.deletedClauseReferences.getLast?.getD default
          ∈ a.deletedClauseReferences := by
        rw [List.getLast?_eq_getLast _ hne]
        exact List.getLast_mem hne
      exact (hinv.2 _ hmem).2.2

/-- **C8** (witness): a fresh allocation from an empty free list hands out
reference 1; after deleting it, the next allocation reuses reference 1
without growing the arena. -/
theorem clause_allocator_reuses_only_deleted_slots_witness :
    ((ClauseAllocator.mk [] []).createClause [⟨1, true⟩, ⟨2, true⟩] false).1 = ⟨1⟩
    ∧ ((ClauseAllocator.mk [⟨[⟨1, true⟩], false, true⟩] [⟨1⟩]).createClause
          [⟨3, true⟩, ⟨4, true⟩] false).1 = ⟨1⟩
    ∧ ((ClauseAllocator.mk [⟨[⟨1, true⟩], false, true⟩] [⟨1⟩]).createClause
          [⟨3, true⟩, ⟨4, true⟩] false).2.allocatedClauses.length = 1
    ∧ (((ClauseAllocator.mk [⟨[⟨1, true⟩, ⟨2, true⟩], false, false⟩] []).deleteClause
          ⟨1⟩).getClause ⟨1⟩).isDeleted = true
    ∧ ((ClauseAllocator.mk [⟨[⟨1, true⟩], false, true⟩] [⟨1⟩]).getClause
        ((ClauseAllocator.mk [⟨[⟨1, true⟩], false, true⟩] [⟨1⟩]).createClause
          [⟨3, true⟩, ⟨4, true⟩] false).1).isDeleted = true := by
  have h1 := clause_allocator_reuses_only_deleted_slots (ClauseAllocator.mk [] [])
    [⟨1, true⟩, ⟨2, true⟩] false ⟨1⟩
  have h2 := clause_allocator_reuses_only_deleted_slots
    (ClauseAllocator.mk [⟨[⟨1, true⟩], false, true⟩] [⟨1⟩]) [⟨3, true⟩, ⟨4, true⟩] false ⟨1⟩
  have h3 := clause_allocator_reuses_only_deleted_slots
    (ClauseAllocator.mk [⟨[⟨1, true⟩, ⟨2, true⟩], false, false⟩] [])
    [⟨1, true⟩] false ⟨1⟩
  have hinv : AllocInvariant (ClauseAllocator.mk [⟨[⟨1, true⟩], false, true⟩] [⟨1⟩]) := by
    constructor
    · decide
    · intro r hr
      simp only [List.mem_singleton] at hr
      subst hr
      exact ⟨by decide, by decide, by decide⟩
  have h2a := h2.2.1 hinv (by decide)
  have h2b := h2.2.2.2 hinv
  refine ⟨(h1.1 rfl).1, ?_, by rw [h2a.2.1]; decide,
    (h3.2.2.1 (by decide) (by decide) (by decide)).1, ?_⟩
  · rw [h2a.1]
    decide
  · rcases h2b with h | h
    · have hc := congrArg ClauseReference.code h2a.1
      rw [h] at hc
      exact absurd hc (by decide)
    · exact h

/-- **C6**: a clause that is trivially false at the root — preprocessing
leaves it empty, or leaves a unit literal already assigned false, or its
root propagation fails — makes `add_permanent_clause` return a
`ConstraintOperationError` and puts the propagator into a permanent
infeasible state; every subsequent `add_permanent_clause` call returns an
error immediately and leaves the propagator, the clause store and the watch
lists completely unchanged. -/
theorem add_permanent_clause_infeasibility (p : ClausalPropagator)
    (literals : List Literal) (asg : AssignmentsPropositional) (alloc : ClauseAllocator) :
    (p.isInInfeasibleState = true →
      p.addPermanentClause literals asg alloc = (.error .infeasibleState, p, asg, alloc))
    ∧ (p.isInInfeasibleState = false → preprocessClause literals asg = [] →
        p.addPermanentClause literals asg alloc
          = (.error .infeasibleClause, { p with isInInfeasibleState := true }, asg, alloc))
    ∧ (∀ l : Literal, asg.isLiteralAssignedFalse l = true →
        p.installPreprocessedClause [l] asg alloc
          = (.error .infeasibleClause, { p with isInInfeasibleState := true }, asg, alloc))
    ∧ (∀ l : Literal, asg.isLiteralAssignedFalse l = false →
        asg.isLiteralUnassigned l = true →
        (∃ ci, (p.propagate (asg.enqueueDecisionLiteral l) alloc).1 = .error ci) →
        p.installPreprocessedClause [l] asg alloc
          = (.error .infeasibleClause,
              { (p.propagate (asg.enqueueDecisionLiteral l) alloc).2.1
                  with isInInfeasibleState := true },
              (p.propagate (asg.enqueueDecisionLiteral l) alloc).2.2.1,
              (p.propagate (asg.enqueueDecisionLiteral l) alloc).2.2.2)) := by
  refine ⟨?_, ?_, ?_, ?_⟩
  · intro h
    simp only [ClausalPropagator.addPermanentClause, h, if_true]
  · intro h hpre
    simp only [ClausalPropagator.addPermanentClause, h, Bool.false_eq_true, if_false, hpre,
      ClausalPropagator.installPreprocessedClause]
  · intro l hf
    simp only [ClausalPropagator.installPreprocessedClause, hf, if_true]
  · intro l hf hun hci
    obtain ⟨ci, hcieq⟩ := hci
    simp only [ClausalPropagator.installPreprocessedClause, hf, Bool.false_eq_true, if_false,
      hun, if_true]
    rcases hpr : p.propagate (asg.enqueueDecisionLiteral l) alloc with ⟨res, p1, asg2, alloc1⟩
    rw [hpr] at hcieq
    simp only at hcieq
    subst hcieq
    simp only [hpr]

/-- **C6** (witness): the empty clause makes a fresh propagator permanently
infeasible; a subsequent call on the infeasible propagator fails without
touching any state; a falsified unit and a conflicting root propagation
also produce the error and set the infeasibility flag. -/
theorem add_permanent_clause_infeasibility_witness :
    (ClausalPropagator.empty.addPermanentClause []
        (AssignmentsPropositional.mk [none] [] ⟨0, true⟩) ClauseAllocator.empty
      = (.error .infeasibleClause,
          { ClausalPropagator.empty with isInInfeasibleState := true },
          AssignmentsPropositional.mk [none] [] ⟨0, true⟩, ClauseAllocator.empty))
    ∧ ((ClausalPropagator.mk [] 0 [] true).addPermanentClause [⟨1, true⟩]
        (AssignmentsPropositional.mk [none] [] ⟨0, true⟩) ClauseAllocator.empty
      = (.error .infeasibleState, ClausalPropagator.mk [] 0 [] true,
          AssignmentsPropositional.mk [none] [] ⟨0, true⟩, ClauseAllocator.empty))
    ∧ ((ClausalPropagator.empty.installPreprocessedClause [⟨1, true⟩]
        (AssignmentsPropositional.mk [none, some false] [] ⟨0, true⟩) ClauseAllocator.empty).1
      = .error .infeasibleClause)
    ∧ ((ClausalPropagator.mk [[], [], [⟨⟨1, false⟩, ⟨1⟩⟩], []] 0 [⟨1⟩]
          false).installPreprocessedClause [⟨1, true⟩]
        (AssignmentsPropositional.mk [none, none] [] ⟨0, true⟩)
        (ClauseAllocator.mk [⟨[⟨1, false⟩, ⟨1, false⟩], false, false⟩] [])).1
      = .error .infeasibleClause := by
  have h1 := add_permanent_clause_infeasibility ClausalPropagator.empty []
    (AssignmentsPropositional.mk [none] [] ⟨0, true⟩) ClauseAllocator.empty
  have h2 := add_permanent_clause_infeasibility (ClausalPropagator.mk [] 0 [] true)
    [⟨1, true⟩] (AssignmentsPropositional.mk [none] [] ⟨0, true⟩) ClauseAllocator.empty
  have h3 := add_permanent_clause_infeasibility ClausalPropagator.empty [⟨1, true⟩]
    (AssignmentsPropositional.mk [none, some false] [] ⟨0, true⟩) ClauseAllocator.empty
  have h4 := add_permanent_clause_infeasibility
    (ClausalPropagator.mk [[], [], [⟨⟨1, false⟩, ⟨1⟩⟩], []] 0 [⟨1⟩] false) [⟨1, true⟩]
    (AssignmentsPropositional.mk [none, none] [] ⟨0, true⟩)
    (ClauseAllocator.mk [⟨[⟨1, false⟩, ⟨1, false⟩], false, false⟩] [])
  refine ⟨h1.2.1 (by decide) (by decide), h2.1 (by decide), ?_, ?_⟩
  · rw [h3.2.2.1 ⟨1, true⟩ (by decide)]
  · rw [h4.2.2.2 ⟨1, true⟩ (by decide) (by decide) ⟨⟨⟨1, false⟩, ⟨1⟩⟩, rfl⟩]

/-- **C7**: under the precondition that the target level is strictly below
the current decision level, `backtrack(level)` synchronises the boolean
assignment store first, then sets the clausal propagator's trail cursor to
the new boolean trail length, then synchronises the integer assignment
store, then the reason store, and clears the propagator queue, in that
fixed order; the brancher is notified through `on_unassign_literal` of
every literal undone and through `on_unassign_integer` of every
(domain id, previous value) pair undone. -/
theorem backtrack_order_and_notifications (ctx : ConflictAnalysisContext) (level : Nat)
    (_hlevel : level < ctx.assignmentsPropositional.decisionLevel) :
    (ctx.backtrack level).log
        = ctx.log ++ [.syncBooleanStore]
          ++ (ctx.assignmentsPropositional.synchronise level).1.map .onUnassignLiteral
          ++ [.syncClausalPropagator
              (ctx.assignmentsPropositional.synchronise level).2.trail.length]
          ++ [.syncIntegerStore]
          ++ (ctx.assignmentsInteger.synchronise level).1.map
              (fun e => .onUnassignInteger e.1 e.2)
          ++ [.syncReasonStore, .clearPropagatorQueue]
      ∧ (ctx.backtrack level).clausalPropagatorCursor
          = (ctx.backtrack level).assignmentsPropositional.trail.length
      ∧ (ctx.backtrack level).propagatorQueue = []
      ∧ (ctx.backtrack level).assignmentsPropositional
          = (ctx.assignmentsPropositional.synchronise level).2
      ∧ (ctx.backtrack level).assignmentsInteger
          = (ctx.assignmentsInteger.synchronise level).2 := by
  refine ⟨?_, rfl, rfl, rfl, rfl⟩
  simp only [ConflictAnalysisContext.backtrack, List.append_assoc, List.cons_append,
    List.nil_append, List.singleton_append]

/-- **C7** (witness): backtracking the concrete context from level 2 to
level 1 logs the five synchronisation steps in order, with the undone
literal and integer change notified in between. -/
theorem backtrack_order_and_notifications_witness :
    (ctxBacktrack.backtrack 1).log
        = [.syncBooleanStore, .onUnassignLiteral ⟨3, true⟩, .syncClausalPropagator 2,
            .syncIntegerStore, .onUnassignInteger 0 5, .syncReasonStore,
            .clearPropagatorQueue]
      ∧ (ctxBacktrack.backtrack 1).clausalPropagatorCursor = 2
      ∧ (ctxBacktrack.backtrack 1).propagatorQueue = [] := by
  have h := backtrack_order_and_notifications ctxBacktrack 1 (by decide)
  exact ⟨h.1.trans (by decide), h.2.1.trans (by decide), h.2.2.1⟩

theorem mem_intRange {lo hi v : Int} : v ∈ intRange lo hi ↔ lo ≤ v ∧ v < hi := by
  simp only [intRange, List.mem_map, List.mem_range]
  constructor
  · rintro ⟨i, hi', rfl⟩
    omega
  · rintro ⟨h1, h2⟩
    exact ⟨(v - lo).toNat, by omega, by omega⟩

theorem intRange_length (lo hi : Int) : (intRange lo hi).length = (hi - lo).toNat := by
  rw [intRange, List.length_map, List.length_range]

theorem getD_append_left {α : Type} [Inhabited α] (xs ys : List α) (i : Nat)
    (h : i < xs.length) : (xs ++ ys).getD i default = xs.getD i default := by
  simp [List.getD_eq_getElem?_getD, List.getElem?_append_left h]

theorem getD_append_length {α : Type} [Inhabited α] (xs : List α) (y : α) (ys : List α) :
    (xs ++ y :: ys).getD xs.length default = y := by
  simp [List.getD_eq_getElem?_getD, List.getElem?_append_right (Nat.le_refl xs.length)]

theorem getD_map_range (f : Nat → Literal) (n i : Nat) (h : i < n) :
    (((List.range n).map f).getD i default) = f i := by
  rw [List.getD_eq_getElem?_getD, List.getElem?_map, List.getElem?_range h]
  rfl

/-- `dedupKeepFirst` leaves a duplicate-free list that avoids `seen` alone. -/
theorem dedupKeepFirst_eq_self (l : List Literal) (hnd : l.Nodup) :
    ∀ seen : List Literal, (∀ x ∈ l, x ∉ seen) → dedupKeepFirst seen l = l := by
  induction l with
  | nil => intro seen _; rfl
  | cons a l ih =>
    intro seen hseen
    have hnd' := List.nodup_cons.mp hnd
    unfold dedupKeepFirst
    rw [if_neg (hseen a (List.mem_cons_self a l))]
    congr 1
    apply ih hnd'.2
    intro x hx
    simp only [List.mem_cons, not_or]
    exact ⟨fun hcontra => hnd'.1 (hcontra ▸ hx), hseen x (List.mem_cons_of_mem a hx)⟩

/-- The value store extended with fresh (unassigned) variables reads `none`
at every index at or past the old length. -/
theorem getD_values_fresh (vals : List (Option Bool)) (m i : Nat)
    (h : vals.length ≤ i) :
    (vals ++ List.replicate m none).getD i none = none := by
  rcases Nat.lt_or_ge i (vals.length + m) with hlt | hge
  · rw [List.getD_eq_getElem?_getD, List.getElem?_append_right h]
    have : i - vals.length < m := by omega
    simp [List.getElem?_replicate, this]
  · rw [List.getD_eq_getElem?_getD, List.getElem?_eq_none (by simp; omega)]
    rfl

/-- Component-wise characterisation of the fresh-variable creation loops of
`create_lower_bound_literals` / `create_equality_literals`: one fresh
positive literal per listed value, numbered consecutively from the current
variable count; no other solver component is touched. -/
theorem createVarsWithPredicates_spec (mk : Int → IntegerPredicate) :
    ∀ (vs : List Int) (ctx : SolverCtx),
      (ctx.createVarsWithPredicates mk vs).1
          = (List.range vs.length).map
              (fun i => Literal.mk (ctx.assignmentsPropositional.values.length + i) true)
        ∧ (ctx.createVarsWithPredicates mk vs).2.assignmentsPropositional.values
            = ctx.assignmentsPropositional.values ++ List.replicate vs.length none
        ∧ (ctx.createVarsWithPredicates mk vs).2.assignmentsPropositional.trueLiteral
            = ctx.assignmentsPropositional.trueLiteral
        ∧ (ctx.createVarsWithPredicates mk vs).2.assignmentsInteger = ctx.assignmentsInteger
        ∧ (ctx.createVarsWithPredicates mk vs).2.clauseAllocator = ctx.clauseAllocator
        ∧ (ctx.createVarsWithPredicates mk vs).2.mappings.domainToLowerBoundLiterals
            = ctx.mappings.domainToLowerBoundLiterals
        ∧ (ctx.createVarsWithPredicates mk vs).2.mappings.domainToEqualityLiterals
            = ctx.mappings.domainToEqualityLiterals
        ∧ (ctx.createVarsWithPredicates mk vs).2.clausalPropagator.isInInfeasibleState
            = ctx.clausalPropagator.isInInfeasibleState := by
  intro vs
  induction vs with
  | nil =>
    intro ctx
    refine ⟨rfl, ?_, rfl, rfl, rfl, rfl, rfl, rfl⟩
    show ctx.assignmentsPropositional.values = _
    simp
  | cons v vs ih =>
    intro ctx
    obtain ⟨h1, h2, h3, h4, h5, h6, h7, h8⟩ :=
      ih (ctx.createNewPropositionalVariableWithPredicate (mk v)).2
    refine ⟨?_, ?_, h3, h4, h5, h6, h7, h8⟩
    · show Literal.mk ctx.assignmentsPropositional.values.length true :: _ = _
      rw [h1]
      simp only [List.length_cons, List.range_succ_eq_map, List.map_cons, List.map_map]
      refine congrArg₂ _ (by rw [Nat.add_zero]) ?_
      apply List.map_congr_left
      intro i _
      show Literal.mk ((ctx.assignmentsPropositional.values ++ [none]).length + i) true = _
      simp only [List.length_append, List.length_cons, List.length_nil, Function.comp,
        Nat.succ_eq_add_one, Literal.mk.injEq, and_true]
      omega
    · show ((ctx.createNewPropositionalVariableWithPredicate
          (mk v)).2.createVarsWithPredicates mk vs).2.assignmentsPropositional.values = _
      rw [h2]
      show (ctx.assignmentsPropositional.values ++ [none]) ++ _ = _
      rw [List.append_assoc, List.singleton_append, ← List.replicate_succ]
      rfl

/-- One unchecked implication-clause addition appends exactly the clause
`[¬lhs, rhs]` to the arena (free list empty) and leaves every other tracked
component unchanged. -/
theorem addPermanentImplicationUnchecked_spec (ctx : SolverCtx) (lhs rhs : Literal)
    (hfree : ctx.clauseAllocator.deletedClauseReferences = []) :
    (ctx.addPermanentImplicationUnchecked lhs rhs).clauseAllocator.allocatedClauses
        = ctx.clauseAllocator.allocatedClauses ++ [Clause.new [lhs.negate, rhs] false]
      ∧ (ctx.addPermanentImplicationUnchecked lhs rhs).clauseAllocator.deletedClauseReferences
          = []
      ∧ (ctx.addPermanentImplicationUnchecked lhs rhs).assignmentsPropositional
          = ctx.assignmentsPropositional
      ∧ (ctx.addPermanentImplicationUnchecked lhs rhs).assignmentsInteger
          = ctx.assignmentsInteger
      ∧ (ctx.addPermanentImplicationUnchecked lhs rhs).mappings = ctx.mappings
      ∧ (ctx.addPermanentImplicationUnchecked lhs rhs).clausalPropagator.isInInfeasibleState
          = ctx.clausalPropagator.isInInfeasibleState := by
  simp only [SolverCtx.addPermanentImplicationUnchecked,
    ClausalPropagator.addPermanentImplicationUnchecked, ClausalPropagator.addClauseUnchecked,
    ClauseAllocator.createClause, hfree, List.isEmpty_nil, if_true]
  refine ⟨?_, ?_, ?_, ?_, ?_, ?_⟩ <;> first | rfl | trivial

/-- One unchecked ternary-clause addition appends exactly the clause
`[a, b, c]` to the arena (free list empty) and leaves every other tracked
component unchanged. -/
theorem addPermanentTernaryClauseUnchecked_spec (ctx : SolverCtx) (a b c : Literal)
    (hfree : ctx.clauseAllocator.deletedClauseReferences = []) :
    (ctx.addPermanentTernaryClauseUnchecked a b c).clauseAllocator.allocatedClauses
        = ctx.clauseAllocator.allocatedClauses ++ [Clause.new [a, b, c] false]
      ∧ (ctx.addPermanentTernaryClauseUnchecked a b c).clauseAllocator.deletedClauseReferences
          = []
      ∧ (ctx.addPermanentTernaryClauseUnchecked a b c).assignmentsPropositional
          = ctx.assignmentsPropositional
      ∧ (ctx.addPermanentTernaryClauseUnchecked a b c).assignmentsInteger
          = ctx.assignmentsInteger
      ∧ (ctx.addPermanentTernaryClauseUnchecked a b c).mappings = ctx.mappings
      ∧ (ctx.addPermanentTernaryClauseUnchecked a b c).clausalPropagator.isInInfeasibleState
          = ctx.clausalPropagator.isInInfeasibleState := by
  simp only [SolverCtx.addPermanentTernaryClauseUnchecked,
    ClausalPropagator.addPermanentTernaryClauseUnchecked, ClausalPropagator.addClauseUnchecked,
    ClauseAllocator.createClause, hfree, List.isEmpty_nil, if_true]
  refine ⟨?_, ?_, ?_, ?_, ?_, ?_⟩ <;> first | rfl | trivial

/-- The chain-implication loop of `create_lower_bound_literals`: one
implication clause per listed value, in order. -/
theorem foldl_implications_spec (f g : Int → Literal) :
    ∀ (l : List Int) (ctx : SolverCtx),
      ctx.clauseAllocator.deletedClauseReferences = [] →
      (l.foldl (fun c v => c.addPermanentImplicationUnchecked (f v) (g v))
          ctx).clauseAllocator.allocatedClauses
          = ctx.clauseAllocator.allocatedClauses
            ++ l.map (fun v => Clause.new [(f v).negate, g v] false)
        ∧ (l.foldl (fun c v => c.addPermanentImplicationUnchecked (f v) (g v))
            ctx).clauseAllocator.deletedClauseReferences = []
        ∧ (l.foldl (fun c v => c.addPermanentImplicationUnchecked (f v) (g v))
            ctx).assignmentsPropositional = ctx.assignmentsPropositional
        ∧ (l.foldl (fun c v => c.addPermanentImplicationUnchecked (f v) (g v))
            ctx).assignmentsInteger = ctx.assignmentsInteger
        ∧ (l.foldl (fun c v => c.addPermanentImplicationUnchecked (f v) (g v))
            ctx).mappings = ctx.mappings
        ∧ (l.foldl (fun c v => c.addPermanentImplicationUnchecked (f v) (g v))
            ctx).clausalPropagator.isInInfeasibleState
            = ctx.clausalPropagator.isInInfeasibleState := by
  intro l
  induction l with
  | nil =>
    intro ctx hfree
    exact ⟨(List.append_nil _).symm, hfree, rfl, rfl, rfl, rfl⟩
  | cons v l ih =>
    intro ctx hfree
    obtain ⟨s1, s2, s3, s4, s5, s6⟩ := addPermanentImplicationUnchecked_spec ctx (f v) (g v) hfree
    obtain ⟨h1, h2, h3, h4, h5, h6⟩ := ih (ctx.addPermanentImplicationUnchecked (f v) (g v)) s2
    rw [List.foldl_cons]
    refine ⟨?_, h2, h3.trans s3, h4.trans s4, h5.trans s5, h6.trans s6⟩
    rw [h1, s1, List.map_cons, List.append_assoc, List.singleton_append]

/-- The interior-value consistency loop of `create_equality_literals`:
three clauses per listed value — the ternary clause and the two
implications encoding `[x = v] ↔ [x ≥ v] ∧ ¬[x ≥ v+1]` — in order. -/
theorem foldl_equality_clauses_spec (a b c d e : Int → Literal) :
    ∀ (l : List Int) (ctx : SolverCtx),
      ctx.clauseAllocator.deletedClauseReferences = [] →
      (l.foldl (fun ctx1 v =>
          ((ctx1.addPermanentTernaryClauseUnchecked ((a v).negate) (b v) (c v)
            ).addPermanentImplicationUnchecked (c v) (d v)
            ).addPermanentImplicationUnchecked (c v) ((e v).negate))
          ctx).clauseAllocator.allocatedClauses
          = ctx.clauseAllocator.allocatedClauses
            ++ l.flatMap (fun v =>
              [Clause.new [(a v).negate, b v, c v] false,
               Clause.new [(c v).negate, d v] false,
               Clause.new [(c v).negate, (e v).negate] false])
        ∧ (l.foldl (fun ctx1 v =>
            ((ctx1.addPermanentTernaryClauseUnchecked ((a v).negate) (b v) (c v)
              ).addPermanentImplicationUnchecked (c v) (d v)
              ).addPermanentImplicationUnchecked (c v) ((e v).negate))
            ctx).clauseAllocator.deletedClauseReferences = []
        ∧ (l.foldl (fun ctx1 v =>
            ((ctx1.addPermanentTernaryClauseUnchecked ((a v).negate) (b v) (c v)
              ).addPermanentImplicationUnchecked (c v) (d v)
              ).addPermanentImplicationUnchecked (c v) ((e v).negate))
            ctx).assignmentsPropositional = ctx.assignmentsPropositional
        ∧ (l.foldl (fun ctx1 v =>
            ((ctx1.addPermanentTernaryClauseUnchecked ((a v).negate) (b v) (c v)
              ).addPermanentImplicationUnchecked (c v) (d v)
              ).addPermanentImplicationUnchecked (c v) ((e v).negate))
            ctx).assignmentsInteger = ctx.assignmentsInteger
        ∧ (l.foldl (fun ctx1 v =>
            ((ctx1.addPermanentTernaryClauseUnchecked ((a v).negate) (b v) (c v)
              ).addPermanentImplicationUnchecked (c v) (d v)
              ).addPermanentImplicationUnchecked (c v) ((e v).negate))
            ctx).mappings = ctx.mappings
        ∧ (l.foldl (fun ctx1 v =>
            ((ctx1.addPermanentTernaryClauseUnchecked ((a v).negate) (b v) (c v)
              ).addPermanentImplicationUnchecked (c v) (d v)
              ).addPermanentImplicationUnchecked (c v) ((e v).negate))
            ctx).clausalPropagator.isInInfeasibleState
            = ctx.clausalPropagator.isInInfeasibleState := by
  intro l
  induction l with
  | nil =>
    intro ctx hfree
    exact ⟨(List.append_nil _).symm, hfree, rfl, rfl, rfl, rfl⟩
  | cons v l ih =>
    intro ctx hfree
    obtain ⟨t1, t2, t3, t4, t5, t6⟩ :=
      addPermanentTernaryClauseUnchecked_spec ctx ((a v).negate) (b v) (c v) hfree
    obtain ⟨u1, u2, u3, u4, u5, u6⟩ := addPermanentImplicationUnchecked_spec
      (ctx.addPermanentTernaryClauseUnchecked ((a v).negate) (b v) (c v)) (c v) (d v) t2
    obtain ⟨w1, w2, w3, w4, w5, w6⟩ := addPermanentImplicationUnchecked_spec
      ((ctx.addPermanentTernaryClauseUnchecked ((a v).negate) (b v) (c v)
        ).addPermanentImplicationUnchecked (c v) (d v)) (c v) ((e v).negate) u2
    obtain ⟨h1, h2, h3, h4, h5, h6⟩ := ih
      (((ctx.addPermanentTernaryClauseUnchecked ((a v).negate) (b v) (c v)
        ).addPermanentImplicationUnchecked (c v) (d v)
        ).addPermanentImplicationUnchecked (c v) ((e v).negate)) w2
    rw [List.foldl_cons]
    refine ⟨?_, h2, (h3.trans w3).trans (u3.trans t3), (h4.trans w4).trans (u4.trans t4),
      (h5.trans w5).trans (u5.trans t5), (h6.trans w6).trans (u6.trans t6)⟩
    rw [h1, w1, u1, t1]
    simp only [List.flatMap_cons, List.append_assoc, List.cons_append, List.nil_append,
      List.singleton_append]

theorem intRange_map {α : Type} (F : Int → α) (lo hi : Int) :
    (intRange lo hi).map F
      = (List.range (hi - lo).toNat).map (fun (i : Nat) => F (lo + (i : Int))) := by
  rw [intRange, List.map_map]
  rfl

theorem chain_getD_head (t fl : Literal) (n0 N : Nat) :
    (t :: (List.range N).map (fun i => Literal.mk (n0 + i) true) ++ [fl]).getD 0 default
      = t := rfl

theorem chain_getD_succ (t fl : Literal) (n0 N j : Nat) (h : j < N) :
    (t :: (List.range N).map (fun i => Literal.mk (n0 + i) true) ++ [fl]).getD (j + 1) default
      = Literal.mk (n0 + j) true := by
  show ((List.range N).map (fun i => Literal.mk (n0 + i) true) ++ [fl]).getD j default = _
  rw [getD_append_left _ _ _ (by simpa using h)]
  exact getD_map_range _ _ _ h

theorem chain_getD_last (t fl : Literal) (n0 N : Nat) :
    (t :: (List.range N).map (fun i => Literal.mk (n0 + i) true) ++ [fl]).getD (N + 1) default
      = fl := by
  show ((List.range N).map (fun i => Literal.mk (n0 + i) true) ++ [fl]).getD N default = _
  rw [List.getD_eq_getElem?_getD, List.getElem?_append_right (by simp)]
  simp

theorem chain_length (t fl : Literal) (n0 N : Nat) :
    (t :: (List.range N).map (fun i => Literal.mk (n0 + i) true) ++ [fl]).length = N + 2 := by
  simp

/-- Full characterisation of `create_lower_bound_literals`: the returned
chain is the true literal, then one fresh positive literal per value of
`lb+1 ..= ub` numbered from the current variable count, then the false
literal; the chain implications `[x ≥ v] → [x ≥ v−1]` are appended to the
arena for `v` in `lb+2 ..= ub`; no other tracked component changes. -/
theorem createLowerBoundLiterals_spec (ctx : SolverCtx) (domainId : Nat)
    (hfree : ctx.clauseAllocator.deletedClauseReferences = []) :
    (ctx.createLowerBoundLiterals domainId).1
        = ctx.assignmentsPropositional.trueLiteral
          :: (List.range (ctx.assignmentsInteger.getUpperBound domainId
              - ctx.assignmentsInteger.getLowerBound domainId).toNat).map
            (fun i => Literal.mk (ctx.assignmentsPropositional.values.length + i) true)
          ++ [ctx.assignmentsPropositional.trueLiteral.negate]
      ∧ (ctx.createLowerBoundLiterals domainId).2.assignmentsPropositional.values
          = ctx.assignmentsPropositional.values
            ++ List.replicate (ctx.assignmentsInteger.getUpperBound domainId
              - ctx.assignmentsInteger.getLowerBound domainId).toNat none
      ∧ (ctx.createLowerBoundLiterals domainId).2.assignmentsPropositional.trueLiteral
          = ctx.assignmentsPropositional.trueLiteral
      ∧ (ctx.createLowerBoundLiterals domainId).2.assignmentsInteger = ctx.assignmentsInteger
      ∧ (ctx.createLowerBoundLiterals domainId).2.clauseAllocator.allocatedClauses
          = ctx.clauseAllocator.allocatedClauses
            ++ (List.range (ctx.assignmentsInteger.getUpperBound domainId
                - ctx.assignmentsInteger.getLowerBound domainId - 1).toNat).map
              (fun i => Clause.new
                [Literal.mk (ctx.assignmentsPropositional.values.length + i + 1) false,
                 Literal.mk (ctx.assignmentsPropositional.values.length + i) true] false)
      ∧ (ctx.createLowerBoundLiterals domainId).2.clauseAllocator.deletedClauseReferences = []
      ∧ (ctx.createLowerBoundLiterals domainId).2.mappings.domainToLowerBoundLiterals
          = ctx.mappings.domainToLowerBoundLiterals
      ∧ (ctx.createLowerBoundLiterals domainId).2.mappings.domainToEqualityLiterals
          = ctx.mappings.domainToEqualityLiterals
      ∧ (ctx.createLowerBoundLiterals domainId).2.clausalPropagator.isInInfeasibleState
          = ctx.clausalPropagator.isInInfeasibleState := by
  obtain ⟨m1, m2, m3, m4, m5, m6, m7, m8⟩ := createVarsWithPredicates_spec
    (fun v => IntegerPredicate.lowerBound domainId v)
    (intRange (ctx.assignmentsInteger.getLowerBound domainId + 1)
      (ctx.assignmentsInteger.getUpperBound domainId + 1))
    { ctx with mappings := (ctx.mappings.addPredicateInformation
        ctx.assignmentsPropositional.trueLiteral
        (IntegerPredicate.lowerBound domainId
          (ctx.assignmentsInteger.getLowerBound domainId))) }
  rcases hmid : ({ ctx with mappings := (ctx.mappings.addPredicateInformation
        ctx.assignmentsPropositional.trueLiteral
        (IntegerPredicate.lowerBound domainId
          (ctx.assignmentsInteger.getLowerBound domainId)))
      } : SolverCtx).createVarsWithPredicates (fun v => IntegerPredicate.lowerBound domainId v)
      (intRange (ctx.assignmentsInteger.getLowerBound domainId + 1)
        (ctx.assignmentsInteger.getUpperBound domainId + 1)) with ⟨midLits, midCtx⟩
  rw [hmid] at m1 m2 m3 m4 m5 m6 m7 m8
  dsimp only at m1 m2 m3 m4 m5 m6 m7 m8
  simp only [VariableLiteralMappings.addPredicateInformation] at m6 m7
  have har1 : ctx.assignmentsInteger.getUpperBound domainId + 1
      - (ctx.assignmentsInteger.getLowerBound domainId + 1)
      = ctx.assignmentsInteger.getUpperBound domainId
        - ctx.assignmentsInteger.getLowerBound domainId := by ring
  have hlits : ctx.assignmentsPropositional.trueLiteral :: midLits
        ++ [midCtx.assignmentsPropositional.falseLiteral]
      = ctx.assignmentsPropositional.trueLiteral
        :: (List.range (ctx.assignmentsInteger.getUpperBound domainId
            - ctx.assignmentsInteger.getLowerBound domainId).toNat).map
          (fun i => Literal.mk (ctx.assignmentsPropositional.values.length + i) true)
        ++ [ctx.assignmentsPropositional.trueLiteral.negate] := by
    rw [m1, intRange_length, har1]
    simp only [AssignmentsPropositional.falseLiteral, m3]
  have hdef : ctx.createLowerBoundLiterals domainId
      = (ctx.assignmentsPropositional.trueLiteral :: midLits
            ++ [midCtx.assignmentsPropositional.falseLiteral],
         (intRange (ctx.assignmentsInteger.getLowerBound domainId + 2)
            (ctx.assignmentsInteger.getUpperBound domainId + 1)).foldl
           (fun c v => c.addPermanentImplicationUnchecked
             ((ctx.assignmentsPropositional.trueLiteral :: midLits
                ++ [midCtx.assignmentsPropositional.falseLiteral]).getD
               (v - ctx.assignmentsInteger.getLowerBound domainId).toNat default)
             ((ctx.assignmentsPropositional.trueLiteral :: midLits
                ++ [midCtx.assignmentsPropositional.falseLiteral]).getD
               ((v - ctx.assignmentsInteger.getLowerBound domainId).toNat - 1) default))
           { midCtx with mappings := (midCtx.mappings.addPredicateInformation
               midCtx.assignmentsPropositional.falseLiteral
               (IntegerPredicate.lowerBound domainId
                 (ctx.assignmentsInteger.getUpperBound domainId + 1))) }) := by
    simp only [SolverCtx.createLowerBoundLiterals]
    rw [hmid]
  have hfree2 : ({ midCtx with mappings := (midCtx.mappings.addPredicateInformation
        midCtx.assignmentsPropositional.falseLiteral
        (IntegerPredicate.lowerBound domainId
          (ctx.assignmentsInteger.getUpperBound domainId + 1)))
      } : SolverCtx).clauseAllocator.deletedClauseReferences = [] := by
    dsimp only
    rw [m5]
    exact hfree
  obtain ⟨f1, f2, f3, f4, f5, f6⟩ := foldl_implications_spec
    (fun v => (ctx.assignmentsPropositional.trueLiteral :: midLits
        ++ [midCtx.assignmentsPropositional.falseLiteral]).getD
      (v - ctx.assignmentsInteger.getLowerBound domainId).toNat default)
    (fun v => (ctx.assignmentsPropositional.trueLiteral :: midLits
        ++ [midCtx.assignmentsPropositional.falseLiteral]).getD
      ((v - ctx.assignmentsInteger.getLowerBound domainId).toNat - 1) default)
    (intRange (ctx.assignmentsInteger.getLowerBound domainId + 2)
      (ctx.assignmentsInteger.getUpperBound domainId + 1))
    { midCtx with mappings := (midCtx.mappings.addPredicateInformation
        midCtx.assignmentsPropositional.falseLiteral
        (IntegerPredicate.lowerBound domainId
          (ctx.assignmentsInteger.getUpperBound domainId + 1))) }
    hfree2
  rw [hdef]
  dsimp only
  refine ⟨hlits, ?_, ?_, ?_, ?_, f2, ?_, ?_, ?_⟩
  · rw [f3]
    dsimp only
    rw [m2]
    rw [intRange_length, har1]
  · rw [f3]
    dsimp only
    exact m3
  · rw [f4]
    dsimp only
    exact m4
  · rw [f1]
    dsimp only
    rw [m5]
    congr 1
    rw [intRange_map]
    have har2 : ctx.assignmentsInteger.getUpperBound domainId + 1
        - (ctx.assignmentsInteger.getLowerBound domainId + 2)
        = ctx.assignmentsInteger.getUpperBound domainId
          - ctx.assignmentsInteger.getLowerBound domainId - 1 := by ring
    rw [har2]
    apply List.map_congr_left
    intro i hi
    rw [List.mem_range] at hi
    rw [hlits]
    have hidx : (ctx.assignmentsInteger.getLowerBound domainId + 2 + (i : Int)
        - ctx.assignmentsInteger.getLowerBound domainId).toNat = i + 2 := by omega
    rw [hidx]
    rw [show i + 2 = (i + 1) + 1 from rfl]
    rw [chain_getD_succ _ _ _ _ _ (by omega)]
    rw [show (i + 1) + 1 - 1 = i + 1 from rfl]
    rw [chain_getD_succ _ _ _ _ _ (by omega)]
    simp only [Literal.negate, Bool.not_true]
    rfl
  · rw [f5]
    dsimp only
    simp only [VariableLiteralMappings.addPredicateInformation]
    exact m6
  · rw [f5]
    dsimp only
    simp only [VariableLiteralMappings.addPredicateInformation]
    exact m7
  · rw [f6]
    dsimp only
    exact m8

/-- Full characterisation of `create_equality_literals` for `lb < ub`: the
returned list starts with `¬[x ≥ lb+1]`, continues with one fresh positive
literal per interior value numbered from the current variable count, and
ends with the reused chain literal `[x ≥ ub]`; the three consistency
clauses per interior value are appended to the arena; no other tracked
component changes. -/
theorem createEqualityLiterals_spec (ctx : SolverCtx) (domainId : Nat)
    (lbLits : List Literal)
    (hfree : ctx.clauseAllocator.deletedClauseReferences = [])
    (hlb : ctx.assignmentsInteger.getLowerBound domainId
      < ctx.assignmentsInteger.getUpperBound domainId) :
    (ctx.createEqualityLiterals domainId lbLits).1
        = (lbLits.getD 1 default).negate
          :: (List.range (ctx.assignmentsInteger.getUpperBound domainId
              - (ctx.assignmentsInteger.getLowerBound domainId + 1)).toNat).map
            (fun i => Literal.mk (ctx.assignmentsPropositional.values.length + i) true)
          ++ [lbLits.getD (lbLits.length - 2) default]
      ∧ (ctx.createEqualityLiterals domainId lbLits).2.assignmentsPropositional.values
          = ctx.assignmentsPropositional.values
            ++ List.replicate (ctx.assignmentsInteger.getUpperBound domainId
              - (ctx.assignmentsInteger.getLowerBound domainId + 1)).toNat none
      ∧ (ctx.createEqualityLiterals domainId lbLits).2.assignmentsPropositional.trueLiteral
          = ctx.assignmentsPropositional.trueLiteral
      ∧ (ctx.createEqualityLiterals domainId lbLits).2.assignmentsInteger
          = ctx.assignmentsInteger
      ∧ (ctx.createEqualityLiterals domainId lbLits).2.clauseAllocator.allocatedClauses
          = ctx.clauseAllocator.allocatedClauses
            ++ (intRange (ctx.assignmentsInteger.getLowerBound domainId + 1)
                (ctx.assignmentsInteger.getUpperBound domainId)).flatMap (fun v =>
              [Clause.new
                [(lbLits.getD (v - ctx.assignmentsInteger.getLowerBound domainId).toNat
                    default).negate,
                 lbLits.getD
                   ((v - ctx.assignmentsInteger.getLowerBound domainId).toNat + 1) default,
                 ((lbLits.getD 1 default).negate
                    :: (List.range (ctx.assignmentsInteger.getUpperBound domainId
                        - (ctx.assignmentsInteger.getLowerBound domainId + 1)).toNat).map
                      (fun i =>
                        Literal.mk (ctx.assignmentsPropositional.values.length + i) true)
                    ++ [lbLits.getD (lbLits.length - 2) default]).getD
                   (v - ctx.assignmentsInteger.getLowerBound domainId).toNat default] false,
               Clause.new
                [(((lbLits.getD 1 default).negate
                    :: (List.range (ctx.assignmentsInteger.getUpperBound domainId
                        - (ctx.assignmentsInteger.getLowerBound domainId + 1)).toNat).map
                      (fun i =>
                        Literal.mk (ctx.assignmentsPropositional.values.length + i) true)
                    ++ [lbLits.getD (lbLits.length - 2) default]).getD
                   (v - ctx.assignmentsInteger.getLowerBound domainId).toNat default).negate,
                 lbLits.getD (v - ctx.assignmentsInteger.getLowerBound domainId).toNat
                   default] false,
               Clause.new
                [(((lbLits.getD 1 default).negate
                    :: (List.range (ctx.assignmentsInteger.getUpperBound domainId
                        - (ctx.assignmentsInteger.getLowerBound domainId + 1)).toNat).map
                      (fun i =>
                        Literal.mk (ctx.assignmentsPropositional.values.length + i) true)
                    ++ [lbLits.getD (lbLits.length - 2) default]).getD
                   (v - ctx.assignmentsInteger.getLowerBound domainId).toNat default).negate,
                 (lbLits.getD
                   ((v - ctx.assignmentsInteger.getLowerBound domainId).toNat + 1)
                   default).negate] false])
      ∧ (ctx.createEqualityLiterals domainId lbLits
          ).2.clauseAllocator.deletedClauseReferences = []
      ∧ (ctx.createEqualityLiterals domainId lbLits).2.mappings.domainToLowerBoundLiterals
          = ctx.mappings.domainToLowerBoundLiterals
      ∧ (ctx.createEqualityLiterals domainId lbLits).2.mappings.domainToEqualityLiterals
          = ctx.mappings.domainToEqualityLiterals
      ∧ (ctx.createEqualityLiterals domainId lbLits).2.clausalPropagator.isInInfeasibleState
          = ctx.clausalPropagator.isInInfeasibleState := by
  obtain ⟨m1, m2, m3, m4, m5, m6, m7, m8⟩ := createVarsWithPredicates_spec
    (fun v => IntegerPredicate.equal domainId v)
    (intRange (ctx.assignmentsInteger.getLowerBound domainId + 1)
      (ctx.assignmentsInteger.getUpperBound domainId))
    { ctx with mappings := (ctx.mappings.addPredicateInformation
        ((lbLits.getD 1 default).negate)
        (IntegerPredicate.equal domainId
          (ctx.assignmentsInteger.getLowerBound domainId))) }
  rcases hmid : ({ ctx with mappings := (ctx.mappings.addPredicateInformation
        ((lbLits.getD 1 default).negate)
        (IntegerPredicate.equal domainId
          (ctx.assignmentsInteger.getLowerBound domainId)))
      } : SolverCtx).createVarsWithPredicates (fun v => IntegerPredicate.equal domainId v)
      (intRange (ctx.assignmentsInteger.getLowerBound domainId + 1)
        (ctx.assignmentsInteger.getUpperBound domainId)) with ⟨midLits, midCtx⟩
  rw [hmid] at m1 m2 m3 m4 m5 m6 m7 m8
  dsimp only at m1 m2 m3 m4 m5 m6 m7 m8
  simp only [VariableLiteralMappings.addPredicateInformation] at m6 m7
  have heqs : (lbLits.getD 1 default).negate :: midLits
        ++ [lbLits.getD (lbLits.length - 2) default]
      = (lbLits.getD 1 default).negate
        :: (List.range (ctx.assignmentsInteger.getUpperBound domainId
            - (ctx.assignmentsInteger.getLowerBound domainId + 1)).toNat).map
          (fun i => Literal.mk (ctx.assignmentsPropositional.values.length + i) true)
        ++ [lbLits.getD (lbLits.length - 2) default] := by
    rw [m1, intRange_length]
  have hdef : ctx.createEqualityLiterals domainId lbLits
      = ((lbLits.getD 1 default).negate :: midLits
            ++ [lbLits.getD (lbLits.length - 2) default],
         (intRange (ctx.assignmentsInteger.getLowerBound domainId + 1)
            (ctx.assignmentsInteger.getUpperBound domainId)).foldl
           (fun c v =>
             ((c.addPermanentTernaryClauseUnchecked
                ((lbLits.getD
                  (v - ctx.assignmentsInteger.getLowerBound domainId).toNat default).negate)
                (lbLits.getD
                  ((v - ctx.assignmentsInteger.getLowerBound domainId).toNat + 1) default)
                (((lbLits.getD 1 default).negate :: midLits
                    ++ [lbLits.getD (lbLits.length - 2) default]).getD
                  (v - ctx.assignmentsInteger.getLowerBound domainId).toNat default)
               ).addPermanentImplicationUnchecked
                (((lbLits.getD 1 default).negate :: midLits
                    ++ [lbLits.getD (lbLits.length - 2) default]).getD
                  (v - ctx.assignmentsInteger.getLowerBound domainId).toNat default)
                (lbLits.getD
                  (v - ctx.assignmentsInteger.getLowerBound domainId).toNat default)
               ).addPermanentImplicationUnchecked
                (((lbLits.getD 1 default).negate :: midLits
                    ++ [lbLits.getD (lbLits.length - 2) default]).getD
                  (v - ctx.assignmentsInteger.getLowerBound domainId).toNat default)
                ((lbLits.getD
                  ((v - ctx.assignmentsInteger.getLowerBound domainId).toNat + 1)
                  default).negate))
           { midCtx with mappings := (midCtx.mappings.addPredicateInformation
               (lbLits.getD (lbLits.length - 2) default)
               (IntegerPredicate.equal domainId
                 (ctx.assignmentsInteger.getUpperBound domainId))) }) := by
    simp only [SolverCtx.createEqualityLiterals]
    rw [hmid, if_pos hlb]
  have hfree2 : ({ midCtx with mappings := (midCtx.mappings.addPredicateInformation
        (lbLits.getD (lbLits.length - 2) default)
        (IntegerPredicate.equal domainId
          (ctx.assignmentsInteger.getUpperBound domainId)))
      } : SolverCtx).clauseAllocator.deletedClauseReferences = [] := by
    dsimp only
    rw [m5]
    exact hfree
  obtain ⟨f1, f2, f3, f4, f5, f6⟩ := foldl_equality_clauses_spec
    (fun v => lbLits.getD
      (v - ctx.assignmentsInteger.getLowerBound domainId).toNat default)
    (fun v => lbLits.getD
      ((v - ctx.assignmentsInteger.getLowerBound domainId).toNat + 1) default)
    (fun v => ((lbLits.getD 1 default).negate :: midLits
        ++ [lbLits.getD (lbLits.length - 2) default]).getD
      (v - ctx.assignmentsInteger.getLowerBound domainId).toNat default)
    (fun v => lbLits.getD
      (v - ctx.assignmentsInteger.getLowerBound domainId).toNat default)
    (fun v => lbLits.getD
      ((v - ctx.assignmentsInteger.getLowerBound domainId).toNat + 1) default)
    (intRange (ctx.assignmentsInteger.getLowerBound domainId + 1)
      (ctx.assignmentsInteger.getUpperBound domainId))
    { midCtx with mappings := (midCtx.mappings.addPredicateInformation
        (lbLits.getD (lbLits.length - 2) default)
        (IntegerPredicate.equal domainId
          (ctx.assignmentsInteger.getUpperBound domainId))) }
    hfree2
  rw [hdef]
  dsimp only
  refine ⟨heqs, ?_, ?_, ?_, ?_, f2, ?_, ?_, ?_⟩
  · rw [f3]
    dsimp only
    rw [m2, intRange_length]
  · rw [f3]
    dsimp only
    exact m3
  · rw [f4]
    dsimp only
    exact m4
  · rw [f1]
    dsimp only
    rw [m5, heqs]
  · rw [f5]
    dsimp only
    simp only [VariableLiteralMappings.addPredicateInformation]
    exact m6
  · rw [f5]
    dsimp only
    simp only [VariableLiteralMappings.addPredicateInformation]
    exact m7
  · rw [f6]
    dsimp only
    exact m8

theorem intRange_flatMap {α : Type} (F : Int → List α) (lo hi : Int) :
    (intRange lo hi).flatMap F
      = (List.range (hi - lo).toNat).flatMap (fun (i : Nat) => F (lo + (i : Int))) := by
  rw [intRange, List.flatMap_map]

theorem addClauseUnchecked_alloc (p : ClausalPropagator) (lits : List Literal)
    (isLearned : Bool) (al : ClauseAllocator) (hfree : al.deletedClauseReferences = []) :
    (p.addClauseUnchecked lits isLearned al).2.2.allocatedClauses
        = al.allocatedClauses ++ [Clause.new lits isLearned]
      ∧ (p.addClauseUnchecked lits isLearned al).2.2.deletedClauseReferences = []
      ∧ (p.addClauseUnchecked lits isLearned al).2.1.isInInfeasibleState
          = p.isInInfeasibleState := by
  simp only [ClausalPropagator.addClauseUnchecked, ClauseAllocator.createClause, hfree,
    List.isEmpty_nil, if_true]
  refine ⟨?_, ?_, ?_⟩ <;> first | rfl | trivial

/-- **C3** (amended): for `lb < ub`, `create_new_domain(lb, ub)` eagerly
builds the unary encoding: the stored lower-bound chain for the new domain
is the global true literal (for `[x ≥ lb]`), one fresh literal `[x ≥ v]`
per value `v` of `lb+1 ..= ub` numbered consecutively from the current
variable count `n0`, and the global false literal (for `[x ≥ ub+1]`); the
chain implications `[x ≥ v+1] → [x ≥ v]` are added for every `v` of
`lb+1 ..= ub−1`; the stored equality list has one literal `[x = v]` per
value of `[lb, ub]`, its endpoints reusing the chain (`[x = lb] =
¬[x ≥ lb+1]`, `[x = ub] = [x ≥ ub]`); for every interior value the three
clauses encoding `[x = v] ↔ [x ≥ v] ∧ ¬[x ≥ v+1]` are added; and one
permanent clause holding exactly the equality literals is added last. -/
theorem create_new_domain_builds_unary_encoding (ctx : SolverCtx) (lb ub : Int)
    (hlb : lb < ub)
    (hfree : ctx.clauseAllocator.deletedClauseReferences = [])
    (hinf : ctx.clausalPropagator.isInInfeasibleState = false)
    (halign1 : ctx.mappings.domainToLowerBoundLiterals.length
      = ctx.assignmentsInteger.domains.length)
    (halign2 : ctx.mappings.domainToEqualityLiterals.length
      = ctx.assignmentsInteger.domains.length) :
    (ctx.createNewDomain lb ub).1 = ctx.assignmentsInteger.domains.length
    ∧ ((ctx.createNewDomain lb ub).2.mappings.domainToLowerBoundLiterals).getD
        (ctx.createNewDomain lb ub).1 []
        = ctx.assignmentsPropositional.trueLiteral
          :: (List.range (ub - lb).toNat).map
            (fun i => Literal.mk (ctx.assignmentsPropositional.values.length + i) true)
          ++ [ctx.assignmentsPropositional.trueLiteral.negate]
    ∧ ((ctx.createNewDomain lb ub).2.mappings.domainToEqualityLiterals).getD
        (ctx.createNewDomain lb ub).1 []
        = Literal.mk ctx.assignmentsPropositional.values.length false
          :: (List.range (ub - lb - 1).toNat).map
            (fun i => Literal.mk
              (ctx.assignmentsPropositional.values.length + (ub - lb).toNat + i) true)
          ++ [Literal.mk
              (ctx.assignmentsPropositional.values.length + (ub - lb).toNat - 1) true]
    ∧ (ctx.createNewDomain lb ub).2.clauseAllocator.allocatedClauses
        = ctx.clauseAllocator.allocatedClauses
          ++ (List.range (ub - lb - 1).toNat).map
            (fun i => Clause.new
              [Literal.mk (ctx.assignmentsPropositional.values.length + i + 1) false,
               Literal.mk (ctx.assignmentsPropositional.values.length + i) true] false)
          ++ (List.range (ub - lb - 1).toNat).flatMap
            (fun i =>
              [Clause.new
                [Literal.mk (ctx.assignmentsPropositional.values.length + i) false,
                 Literal.mk (ctx.assignmentsPropositional.values.length + i + 1) true,
                 Literal.mk (ctx.assignmentsPropositional.values.length
                   + (ub - lb).toNat + i) true] false,
               Clause.new
                [Literal.mk (ctx.assignmentsPropositional.values.length
                   + (ub - lb).toNat + i) false,
                 Literal.mk (ctx.assignmentsPropositional.values.length + i) true] false,
               Clause.new
                [Literal.mk (ctx.assignmentsPropositional.values.length
                   + (ub - lb).toNat + i) false,
                 Literal.mk (ctx.assignmentsPropositional.values.length + i + 1)
                   false] false])
          ++ [Clause.new
              (Literal.mk ctx.assignmentsPropositional.values.length false
                :: (List.range (ub - lb - 1).toNat).map
                  (fun i => Literal.mk
                    (ctx.assignmentsPropositional.values.length + (ub - lb).toNat + i) true)
                ++ [Literal.mk
                    (ctx.assignmentsPropositional.values.length + (ub - lb).toNat - 1)
                    true]) false] := by
  have hgrow : ctx.createNewDomain lb ub
      = (ctx.assignmentsInteger.domains.length,
         ({ ctx with
            assignmentsInteger := ⟨ctx.assignmentsInteger.domains ++ [⟨lb, ub, lb, ub⟩]⟩,
            watchListCP := ctx.watchListCP.grow
          } : SolverCtx).createPropositionalRepresentation
           ctx.assignmentsInteger.domains.length) := rfl
  have hdom : (ctx.assignmentsInteger.domains ++ [(⟨lb, ub, lb, ub⟩ : IntegerDomain)]).getD
      ctx.assignmentsInteger.domains.length default = (⟨lb, ub, lb, ub⟩ : IntegerDomain) :=
    getD_append_length _ _ _
  have hlow : (AssignmentsInteger.mk
        (ctx.assignmentsInteger.domains ++ [⟨lb, ub, lb, ub⟩])).getLowerBound
      ctx.assignmentsInteger.domains.length = lb := by
    unfold AssignmentsInteger.getLowerBound
    dsimp only
    rw [hdom]
  have hup : (AssignmentsInteger.mk
        (ctx.assignmentsInteger.domains ++ [⟨lb, ub, lb, ub⟩])).getUpperBound
      ctx.assignmentsInteger.domains.length = ub := by
    unfold AssignmentsInteger.getUpperBound
    dsimp only
    rw [hdom]
  obtain ⟨c1, c2, c3, c4, c5, c6, c7, c8, c9⟩ := createLowerBoundLiterals_spec
    ({ ctx with
      assignmentsInteger := ⟨ctx.assignmentsInteger.domains ++ [⟨lb, ub, lb, ub⟩]⟩,
      watchListCP := ctx.watchListCP.grow } : SolverCtx)
    ctx.assignmentsInteger.domains.length hfree
  rcases hr1 : ({ ctx with
      assignmentsInteger := ⟨ctx.assignmentsInteger.domains ++ [⟨lb, ub, lb, ub⟩]⟩,
      watchListCP := ctx.watchListCP.grow } : SolverCtx).createLowerBoundLiterals
      ctx.assignmentsInteger.domains.length with ⟨lbL, ctxA⟩
  rw [hr1] at c1 c2 c3 c4 c5 c6 c7 c8 c9
  dsimp only at c1 c2 c3 c4 c5 c6 c7 c8 c9
  rw [hlow, hup] at c1 c2 c5
  have hlbA : ctxA.assignmentsInteger.getLowerBound ctx.assignmentsInteger.domains.length
      < ctxA.assignmentsInteger.getUpperBound ctx.assignmentsInteger.domains.length := by
    rw [c4, hlow, hup]
    exact hlb
  obtain ⟨e1, e2, e3, e4, e5, e6, e7, e8, e9⟩ := createEqualityLiterals_spec ctxA
    ctx.assignmentsInteger.domains.length lbL c6 hlbA
  rcases hr2 : ctxA.createEqualityLiterals ctx.assignmentsInteger.domains.length lbL
    with ⟨eqL, ctxB⟩
  rw [hr2] at e1 e2 e3 e4 e5 e6 e7 e8 e9
  dsimp only at e1 e2 e3 e4 e5 e6 e7 e8 e9
  rw [c4] at e1 e2 e5
  rw [hlow, hup] at e1 e2 e5
  have hAlen : ctxA.assignmentsPropositional.values.length
      = ctx.assignmentsPropositional.values.length + (ub - lb).toNat := by
    rw [c2]
    simp
  rw [hAlen] at e1 e5
  have har2 : ub - (lb + 1) = ub - lb - 1 := by ring
  rw [har2] at e1 e2 e5
  have hgetD1 : lbL.getD 1 default
      = Literal.mk ctx.assignmentsPropositional.values.length true := by
    rw [c1, show (1 : Nat) = 0 + 1 from rfl,
      chain_getD_succ _ _ _ _ _ (show 0 < (ub - lb).toNat by omega), Nat.add_zero]
  have hlen2 : lbL.length - 2 = (ub - lb).toNat := by
    rw [c1, chain_length]
    omega
  have hgetDlast : lbL.getD (lbL.length - 2) default
      = Literal.mk (ctx.assignmentsPropositional.values.length + (ub - lb).toNat - 1)
          true := by
    rw [hlen2, c1,
      show (ub - lb).toNat = ((ub - lb).toNat - 1) + 1 from by omega,
      chain_getD_succ _ _ _ _ _ (by omega)]
    simp only [Literal.mk.injEq, and_true]
    omega
  have heqL : eqL
      = Literal.mk ctx.assignmentsPropositional.values.length false
        :: (List.range (ub - lb - 1).toNat).map
          (fun i => Literal.mk
            (ctx.assignmentsPropositional.values.length + (ub - lb).toNat + i) true)
        ++ [Literal.mk
            (ctx.assignmentsPropositional.values.length + (ub - lb).toNat - 1) true] := by
    rw [e1, hgetD1, hgetDlast]
    simp only [Literal.negate, Bool.not_true]
  have hvaluesB : ctxB.assignmentsPropositional.values
      = ctx.assignmentsPropositional.values
        ++ List.replicate ((ub - lb).toNat + (ub - lb - 1).toNat) none := by
    rw [e2, c2, List.append_assoc, ← List.replicate_add]
  have hinfB : ctxB.clausalPropagator.isInInfeasibleState = false := by
    rw [e9, c9]
    exact hinf
  have hdefPR : ({ ctx with
        assignmentsInteger := ⟨ctx.assignmentsInteger.domains ++ [⟨lb, ub, lb, ub⟩]⟩,
        watchListCP := ctx.watchListCP.grow
      } : SolverCtx).createPropositionalRepresentation
        ctx.assignmentsInteger.domains.length
      = ({ ctxB with mappings := { ctxB.mappings with
          domainToLowerBoundLiterals := ctxB.mappings.domainToLowerBoundLiterals ++ [lbL],
          domainToEqualityLiterals := ctxB.mappings.domainToEqualityLiterals ++ [eqL] } }
            : SolverCtx).addPermanentClause eqL := by
    simp only [SolverCtx.createPropositionalRepresentation]
    rw [hr1]
    dsimp only
    rw [hr2]
  have hvarsGe : ∀ l ∈ eqL, ctx.assignmentsPropositional.values.length ≤ l.variableIndex := by
    rw [heqL]
    intro l hl
    rcases List.mem_cons.mp hl with h | h
    · subst h
      exact Nat.le_refl _
    · rcases List.mem_append.mp h with h | h
      · rcases List.mem_map.mp h with ⟨i, _, hEq⟩
        subst hEq
        show ctx.assignmentsPropositional.values.length
          ≤ ctx.assignmentsPropositional.values.length + (ub - lb).toNat + i
        omega
      · rw [List.mem_singleton] at h
        subst h
        show ctx.assignmentsPropositional.values.length
          ≤ ctx.assignmentsPropositional.values.length + (ub - lb).toNat - 1
        omega
  have hnone : ∀ l ∈ eqL,
      ctxB.assignmentsPropositional.values.getD l.variableIndex none = none := by
    intro l hl
    rw [hvaluesB]
    exact getD_values_fresh _ _ _ (hvarsGe l hl)
  have hnodup : eqL.Nodup := by
    rw [heqL]
    refine List.nodup_cons.mpr ⟨?_, ?_⟩
    · intro hmem
      rcases List.mem_append.mp hmem with h | h
      · rcases List.mem_map.mp h with ⟨i, _, hEq⟩
        simp only [Literal.mk.injEq] at hEq
        exact absurd hEq.2 (by simp)
      · rw [List.mem_singleton] at h
        simp only [Literal.mk.injEq] at h
        exact absurd h.2 (by simp)
    · refine List.Nodup.append ?_ (List.nodup_singleton _) ?_
      · refine List.Nodup.map ?_ (List.nodup_range _)
        intro a b hEq
        simp only [Literal.mk.injEq, and_true] at hEq
        omega
      · intro x hx hx2
        rw [List.mem_singleton] at hx2
        subst hx2
        rcases List.mem_map.mp hx with ⟨i, hi, hEq⟩
        rw [List.mem_range] at hi
        simp only [Literal.mk.injEq, and_true] at hEq
        omega
  have hpre : preprocessClause eqL ctxB.assignmentsPropositional = eqL := by
    unfold preprocessClause
    have hfind : eqL.find?
        (fun l => ctxB.assignmentsPropositional.isLiteralAssignedTrue l) = none := by
      rw [List.find?_eq_none]
      intro l hl
      simp only [AssignmentsPropositional.isLiteralAssignedTrue, hnone l hl]
      simp
    rw [hfind]
    have hfilter : eqL.filter
        (fun l => !ctxB.assignmentsPropositional.isLiteralAssignedFalse l) = eqL := by
      rw [List.filter_eq_self]
      intro l hl
      simp only [AssignmentsPropositional.isLiteralAssignedFalse, hnone l hl]
      simp
    rw [hfilter]
    exact dedupKeepFirst_eq_self eqL hnodup [] (by simp)
  have hRalloc : (ClausalPropagator.addPermanentClause ctxB.clausalPropagator eqL
        ctxB.assignmentsPropositional ctxB.clauseAllocator).2.2.2.allocatedClauses
      = ctxB.clauseAllocator.allocatedClauses ++ [Clause.new eqL false] := by
    simp only [ClausalPropagator.addPermanentClause, hinfB, Bool.false_eq_true, if_false,
      hpre]
    rcases htail : (List.range (ub - lb - 1).toNat).map
        (fun i => Literal.mk
          (ctx.assignmentsPropositional.values.length + (ub - lb).toNat + i) true)
        ++ [Literal.mk
            (ctx.assignmentsPropositional.values.length + (ub - lb).toNat - 1) true]
      with _ | ⟨t1, trest⟩
    · exact absurd htail (by simp)
    · rw [show eqL = Literal.mk ctx.assignmentsPropositional.values.length false
          :: t1 :: trest from by rw [heqL, List.cons_append, htail]]
      dsimp only [ClausalPropagator.installPreprocessedClause]
      rw [(addClauseUnchecked_alloc ctxB.clausalPropagator _ false
        ctxB.clauseAllocator e6).1]
  have hlbLsucc : ∀ j : Nat, j < (ub - lb).toNat → lbL.getD (j + 1) default
      = Literal.mk (ctx.assignmentsPropositional.values.length + j) true := by
    intro j hj
    rw [c1]
    exact chain_getD_succ _ _ _ _ _ hj
  refine ⟨?_, ?_, ?_, ?_⟩
  · rw [hgrow]
  · rw [hgrow]
    dsimp only
    rw [hdefPR]
    simp only [SolverCtx.addPermanentClause]
    rw [e7, c7, ← halign1]
    exact (getD_append_length _ _ _).trans c1
  · rw [hgrow]
    dsimp only
    rw [hdefPR]
    simp only [SolverCtx.addPermanentClause]
    rw [e8, c8, ← halign2]
    exact (getD_append_length _ _ _).trans heqL
  · rw [hgrow]
    dsimp only
    rw [hdefPR]
    simp only [SolverCtx.addPermanentClause]
    rw [hRalloc, e5, c5, heqL]
    congr 1
    congr 1
    rw [intRange_flatMap, show ub - (lb + 1) = ub - lb - 1 from by ring,
      List.flatMap_def, List.flatMap_def]
    congr 1
    apply List.map_congr_left
    intro i hi
    rw [List.mem_range] at hi
    have hidx : (lb + 1 + (i : Int) - lb).toNat = i + 1 := by omega
    rw [hidx, hlbLsucc i (by omega), hlbLsucc (i + 1) (by omega),
      chain_getD_succ _ _ _ _ _ hi]
    simp only [Literal.negate, Bool.not_true, ← Nat.add_assoc]

/-- **C3** (counterexample to the claim as stated): the claim asks for the
chain implication `[x ≥ v+1] → [x ≥ v]` for every `v` of `lb+1 ..= ub`. On
the domain `[0, 2]` created from the start-up state, the stored chain entry
for `[x ≥ 3]` is the pinned false literal (variable 0, negative), so the
implication for `v = ub = 2` would be the clause
`[¬[x ≥ 3], [x ≥ 2]] = [+0, +2]` — and no such clause is in the arena: the
loop only covers `v` up to `ub − 1`. -/
theorem create_new_domain_no_chain_implication_at_ub :
    (ctx02.mappings.domainToLowerBoundLiterals.getD 0 []).getD 3 default
        = Literal.mk 0 false
      ∧ Clause.new [(Literal.mk 0 false).negate, Literal.mk 2 true] false
          ∉ ctx02.clauseAllocator.allocatedClauses := by
  decide

theorem getD_mem {α : Type} [Inhabited α] (l : List α) (i : Nat) (h : i < l.length) :
    l.getD i default ∈ l := by
  rw [List.getD_eq_getElem?_getD, List.getElem?_eq_getElem h]
  exact List.getElem_mem h

theorem getD_nil_of_le {α : Type} (L : List (List α)) (i : Nat) (h : L.length ≤ i) :
    L.getD i [] = [] := by
  rw [List.getD_eq_getElem?_getD, List.getElem?_eq_none h]
  rfl

theorem litOfIndex_index (l : Literal) : litOfIndex l.index = l := by
  cases l with
  | mk v p => cases p <;> simp [litOfIndex, Literal.index] <;> omega

theorem index_litOfIndex (i : Nat) : (litOfIndex i).index = i := by
  simp only [litOfIndex, Literal.index]
  rcases Nat.mod_two_eq_zero_or_one i with h | h <;> simp [h] <;> omega

theorem getD_append_replicate_nil {α : Type} (ws : List (List α)) (m i : Nat) :
    (ws ++ List.replicate m ([] : List α)).getD i [] = ws.getD i [] := by
  rcases Nat.lt_or_ge i ws.length with h | h
  · exact getD_append_left _ _ _ h
  · rw [List.getD_eq_getElem?_getD, List.getD_eq_getElem?_getD,
      List.getElem?_append_right h, List.getElem?_eq_none h, List.getElem?_replicate]
    split <;> rfl

theorem getWatchList_setWatchList_self (p : ClausalPropagator) (l : Literal)
    (ws : List ClauseWatcher) : (p.setWatchList l ws).getWatchList l = ws := by
  show ((padWatchLists p.watchLists (l.index + 1)).set l.index ws).getD l.index [] = ws
  exact getD_set_self _ _ _ (by simp [padWatchLists]; omega)

theorem getWatchList_setWatchList_ne (p : ClausalPropagator) (l l' : Literal)
    (ws : List ClauseWatcher) (h : l' ≠ l) :
    (p.setWatchList l ws).getWatchList l' = p.getWatchList l' := by
  have hidx : l.index ≠ l'.index := fun hc => h (Literal.index_injective hc).symm
  show ((padWatchLists p.watchLists (l.index + 1)).set l.index ws).getD l'.index []
    = p.watchLists.getD l'.index []
  rw [List.getD_eq_getElem?_getD, List.getElem?_set_ne hidx, ← List.getD_eq_getElem?_getD]
  exact getD_append_replicate_nil _ _ _

theorem watchCount_setWatchList_self (p : ClausalPropagator) (l : Literal)
    (ws : List ClauseWatcher) (r : ClauseReference) :
    (p.setWatchList l ws).watchCount l r = ws.countP (fun w => w.clauseReference == r) := by
  unfold ClausalPropagator.watchCount
  rw [getWatchList_setWatchList_self]

theorem watchCount_setWatchList_ne (p : ClausalPropagator) (l l' : Literal)
    (ws : List ClauseWatcher) (r : ClauseReference) (h : l' ≠ l) :
    (p.setWatchList l ws).watchCount l' r = p.watchCount l' r := by
  unfold ClausalPropagator.watchCount
  rw [getWatchList_setWatchList_ne _ _ _ _ h]

theorem watchCount_eq_countP (p : ClausalPropagator) (l : Literal) (r : ClauseReference) :
    p.watchCount l r = (p.watchLists.getD l.index []).countP
      (fun w => w.clauseReference == r) := rfl

/-- The indexed and the literal-level forms of the watch invariant agree. -/
theorem watchInvariant_iff (p : ClausalPropagator) (alloc : ClauseAllocator) :
    WatchInvariant p alloc ↔ WatchInvariantL p alloc := by
  constructor
  · rintro ⟨h1, h2, h3⟩
    refine ⟨h1, ?_, ?_⟩
    · intro l w hw
      rcases Nat.lt_or_ge l.index p.watchLists.length with hi | hi
      · have := h2 l.index (List.mem_range.mpr hi) w hw
        rwa [litOfIndex_index] at this
      · rw [ClausalPropagator.getWatchList, getD_nil_of_le _ _ hi] at hw
        exact absurd hw (List.not_mem_nil w)
    · intro r hr
      obtain ⟨b1, b2, b3⟩ := h3 r hr
      refine ⟨b1, b2, fun hnd => ?_⟩
      obtain ⟨c1, c2, c3⟩ := b3 hnd
      refine ⟨c1, c2, fun l hl0 hl1 => ?_⟩
      rcases Nat.lt_or_ge l.index p.watchLists.length with hi | hi
      · have := c3 l.index (List.mem_range.mpr hi)
          (by rwa [litOfIndex_index]) (by rwa [litOfIndex_index])
        rwa [watchCount_eq_countP]
      · rw [watchCount_eq_countP, getD_nil_of_le _ _ hi]
        rfl
  · rintro ⟨h1, h2, h3⟩
    refine ⟨h1, ?_, ?_⟩
    · intro i hi w hw
      exact h2 (litOfIndex i) w (by rwa [ClausalPropagator.getWatchList, index_litOfIndex])
    · intro r hr
      obtain ⟨b1, b2, b3⟩ := h3 r hr
      refine ⟨b1, b2, fun hnd => ?_⟩
      obtain ⟨c1, c2, c3⟩ := b3 hnd
      refine ⟨c1, c2, fun i hi hl0 hl1 => ?_⟩
      have := c3 (litOfIndex i) hl0 hl1
      rwa [watchCount_eq_countP, index_litOfIndex] at this

theorem getClause_setClauseLiterals_self (a : ClauseAllocator) (r : ClauseReference)
    (xs : List Literal) (h1 : 1 ≤ r.code) (h2 : r.code ≤ a.allocatedClauses.length) :
    (a.setClauseLiterals r xs).getClause r = { a.getClause r with literals := xs } := by
  unfold ClauseAllocator.getClause ClauseAllocator.setClauseLiterals
  dsimp only
  exact getD_set_self _ _ _ (by omega)

theorem getClause_setClauseLiterals_ne (a : ClauseAllocator) (r r' : ClauseReference)
    (xs : List Literal) (h1 : 1 ≤ r.code) (h1' : 1 ≤ r'.code) (h : r'.code ≠ r.code) :
    (a.setClauseLiterals r xs).getClause r' = a.getClause r' := by
  unfold ClauseAllocator.getClause ClauseAllocator.setClauseLiterals
  dsimp only
  rw [List.getD_eq_getElem?_getD, List.getElem?_set_ne (by omega),
    ← List.getD_eq_getElem?_getD]

theorem setClauseLiterals_length (a : ClauseAllocator) (r : ClauseReference)
    (xs : List Literal) :
    (a.setClauseLiterals r xs).allocatedClauses.length = a.allocatedClauses.length := by
  simp [ClauseAllocator.setClauseLiterals]

theorem setClauseLiterals_deleted_refs (a : ClauseAllocator) (r : ClauseReference)
    (xs : List Literal) :
    (a.setClauseLiterals r xs).deletedClauseReferences = a.deletedClauseReferences := rfl

theorem setClauseLiterals_mem (a : ClauseAllocator) (r : ClauseReference)
    (xs : List Literal) (cl : Clause)
    (h : cl ∈ (a.setClauseLiterals r xs).allocatedClauses) :
    cl ∈ a.allocatedClauses ∨ cl = { a.getClause r with literals := xs } :=
  List.mem_or_eq_of_mem_set h

theorem getD_cons_set_perm {α : Type} (t : List α) (k : Nat) (b d : α)
    (hk : k < t.length) : ((t.getD k d) :: t.set k b).Perm (b :: t) := by
  induction t generalizing k with
  | nil => simp at hk
  | cons x t' ih =>
    cases k with
    | zero => exact List.Perm.swap b x t'
    | succ k =>
      have hk' : k < t'.length := by simpa [Nat.succ_lt_succ_iff] using hk
      show (t'.getD k d :: x :: t'.set k b).Perm (b :: x :: t')
      exact (List.Perm.swap x (t'.getD k d) (t'.set k b)).trans
        (((ih k hk').cons x).trans (List.Perm.swap b x t'))

theorem swap01_perm (l : List Literal) : (swap01 l).Perm l := by
  rcases l with _ | ⟨a, _ | ⟨b, rest⟩⟩
  · exact List.Perm.refl _
  · exact List.Perm.refl _
  · exact List.Perm.swap a b rest

theorem makeAssignment_values_length (asg : AssignmentsPropositional) (l : Literal)
    (reason : Option ClauseReference) :
    (asg.makeAssignment l reason).values.length = asg.values.length := by
  simp [AssignmentsPropositional.makeAssignment]

theorem values_none_of_not_true_not_false (asg : AssignmentsPropositional) (l : Literal)
    (h1 : asg.isLiteralAssignedFalse l = false)
    (h2 : asg.isLiteralAssignedTrue l = false) :
    asg.values.getD l.variableIndex none = none := by
  unfold AssignmentsPropositional.isLiteralAssignedFalse at h1
  unfold AssignmentsPropositional.isLiteralAssignedTrue at h2
  rcases hv : asg.values.getD l.variableIndex none with _ | b
  · rfl
  · rw [hv] at h1 h2
    cases b <;> cases hb : l.isPositive <;> rw [hb] at h1 h2 <;> simp at h1 h2

theorem trailConsistent_makeAssignment (asg : AssignmentsPropositional) (l : Literal)
    (reason : Option ClauseReference) (hT : TrailConsistent asg)
    (hvar : l.variableIndex < asg.values.length)
    (hun : asg.values.getD l.variableIndex none = none) :
    TrailConsistent (asg.makeAssignment l reason) := by
  intro e he
  simp only [AssignmentsPropositional.makeAssignment] at he ⊢
  rcases List.mem_append.mp he with h | h
  · obtain ⟨h1, h2⟩ := hT e h
    refine ⟨by simpa using h1, ?_⟩
    by_cases hv : e.literal.variableIndex = l.variableIndex
    · rw [hv, hun] at h2
      exact absurd h2 (by simp)
    · rw [List.getD_eq_getElem?_getD, List.getElem?_set_ne (fun hc => hv hc.symm),
        ← List.getD_eq_getElem?_getD]
      exact h2
  · rw [List.mem_singleton] at h
    subst h
    dsimp only
    refine ⟨by simpa using hvar, ?_⟩
    rw [List.getD_eq_getElem?_getD, List.getElem?_set_self hvar]
    rfl

theorem clauseReference_ext (r r' : ClauseReference) (h : r.code = r'.code) : r = r' := by
  cases r
  cases r'
  simpa using h

/-- Overwriting a clause's literal list with a permutation that keeps (or
swaps) the first two literals preserves the watch invariant. -/
theorem watchInvariantL_setClauseLiterals_norm (p : ClausalPropagator)
    (alloc : ClauseAllocator) (r : ClauseReference) (xs : List Literal)
    (hinv : WatchInvariantL p alloc)
    (h1 : 1 ≤ r.code) (h2 : r.code ≤ alloc.allocatedClauses.length)
    (hperm : xs.Perm (alloc.getClause r).literals)
    (hpos : (xs.getD 0 default = (alloc.getClause r).literals.getD 0 default
          ∧ xs.getD 1 default = (alloc.getClause r).literals.getD 1 default)
        ∨ (xs.getD 0 default = (alloc.getClause r).literals.getD 1 default
          ∧ xs.getD 1 default = (alloc.getClause r).literals.getD 0 default)) :
    WatchInvariantL p (alloc.setClauseLiterals r xs) := by
  obtain ⟨hW1, hW2, hW3⟩ := hinv
  have hself := getClause_setClauseLiterals_self alloc r xs h1 h2
  have hlen := setClauseLiterals_length alloc r xs
  refine ⟨?_, ?_, ?_⟩
  · intro cl hm
    rcases setClauseLiterals_mem _ _ _ _ hm with h | h
    · exact hW1 cl h
    · subst h
      have hmem : alloc.getClause r ∈ alloc.allocatedClauses := getD_mem _ _ (by omega)
      obtain ⟨hl, hnd⟩ := hW1 _ hmem
      refine ⟨?_, ?_⟩
      · show 2 ≤ xs.length
        rw [hperm.length_eq]
        exact hl
      · show xs.Nodup
        exact hperm.nodup_iff.mpr hnd
  · intro l w hw
    obtain ⟨a1, a2, a3, a4, a5⟩ := hW2 l w hw
    refine ⟨a1, by rw [hlen]; exact a2, a3, ?_, ?_⟩
    · by_cases hc : w.clauseReference.code = r.code
      · have hrr : w.clauseReference = r := clauseReference_ext _ _ hc
        rw [hrr, hself]
        rw [hrr] at a4
        exact a4
      · rw [getClause_setClauseLiterals_ne _ _ _ _ h1 a1 hc]
        exact a4
    · by_cases hc : w.clauseReference.code = r.code
      · have hrr : w.clauseReference = r := clauseReference_ext _ _ hc
        rw [hrr, hself]
        rw [hrr] at a5
        dsimp only
        rcases hpos with ⟨hp0, hp1⟩ | ⟨hp0, hp1⟩
        · rw [hp0, hp1]
          exact a5
        · rw [hp0, hp1]
          exact a5.symm
      · rw [getClause_setClauseLiterals_ne _ _ _ _ h1 a1 hc]
        exact a5
  · intro r' hr'
    obtain ⟨b1, b2, b3⟩ := hW3 r' hr'
    refine ⟨b1, by rw [hlen]; exact b2, ?_⟩
    by_cases hc : r'.code = r.code
    · have hrr : r' = r := clauseReference_ext _ _ hc
      subst hrr
      rw [hself]
      dsimp only
      intro hnd
      obtain ⟨c1, c2, c3⟩ := b3 hnd
      rcases hpos with ⟨hp0, hp1⟩ | ⟨hp0, hp1⟩
      · rw [hp0, hp1]
        exact ⟨c1, c2, c3⟩
      · rw [hp0, hp1]
        exact ⟨c2, c1, fun l hl0 hl1 => c3 l hl1 hl0⟩
    · rw [getClause_setClauseLiterals_ne _ _ _ _ h1 b1 hc]
      exact b3

/-- Replacing one watcher of a list by a watcher for the same clause
(the cached-literal refresh of `propagate`) preserves the watch
invariant. -/
theorem watchInvariantL_replace_watcher (p : ClausalPropagator) (negLit : Literal)
    (A B : List ClauseWatcher) (w w1 : ClauseWatcher) (alloc : ClauseAllocator)
    (href : w1.clauseReference = w.clauseReference)
    (hinv : WatchInvariantL (p.setWatchList negLit (A ++ w :: B)) alloc) :
    WatchInvariantL (p.setWatchList negLit (A ++ w1 :: B)) alloc := by
  obtain ⟨hW1, hW2, hW3⟩ := hinv
  refine ⟨hW1, ?_, ?_⟩
  · intro l w' hw'
    by_cases hl : l = negLit
    · subst hl
      rw [getWatchList_setWatchList_self] at hw'
      rcases List.mem_append.mp hw' with h | h
      · exact hW2 _ w' (by
          rw [getWatchList_setWatchList_self]
          exact List.mem_append.mpr (.inl h))
      · rcases List.mem_cons.mp h with h | h
        · subst h
          have := hW2 _ w (by
            rw [getWatchList_setWatchList_self]
            exact List.mem_append.mpr (.inr (List.mem_cons_self _ _)))
          rw [href]
          exact this
        · exact hW2 _ w' (by
            rw [getWatchList_setWatchList_self]
            exact List.mem_append.mpr (.inr (List.mem_cons_of_mem _ h)))
    · rw [getWatchList_setWatchList_ne _ _ _ _ hl] at hw'
      exact hW2 l w' (by rw [getWatchList_setWatchList_ne _ _ _ _ hl]; exact hw')
  · intro r hr
    obtain ⟨b1, b2, b3⟩ := hW3 r hr
    refine ⟨b1, b2, fun hnd => ?_⟩
    obtain ⟨c1, c2, c3⟩ := b3 hnd
    have hcount : ∀ (l' : Literal) (rr : ClauseReference),
        (p.setWatchList negLit (A ++ w1 :: B)).watchCount l' rr
          = (p.setWatchList negLit (A ++ w :: B)).watchCount l' rr := by
      intro l' rr
      by_cases hl : l' = negLit
      · subst hl
        rw [watchCount_setWatchList_self, watchCount_setWatchList_self,
          List.countP_append, List.countP_append, List.countP_cons, List.countP_cons,
          href]
      · rw [watchCount_setWatchList_ne _ _ _ _ _ hl,
          watchCount_setWatchList_ne _ _ _ _ _ hl]
    exact ⟨(hcount _ _).trans c1, (hcount _ _).trans c2,
      fun l hl0 hl1 => (hcount _ _).trans (c3 l hl0 hl1)⟩

theorem getD_set_of_ne {α : Type} [Inhabited α] (l : List α) (i j : Nat) (x : α)
    (h : i ≠ j) : (l.set i x).getD j default = l.getD j default := by
  rw [List.getD_eq_getElem?_getD, List.getElem?_set_ne h, ← List.getD_eq_getElem?_getD]

theorem nodup_getD_ne {α : Type} [Inhabited α] (l : List α) (hnd : l.Nodup) (i j : Nat)
    (hi : i < l.length) (hj : j < l.length) (hij : i ≠ j) :
    l.getD i default ≠ l.getD j default := by
  intro hEq
  rw [List.getD_eq_getElem?_getD, List.getElem?_eq_getElem hi,
    List.getD_eq_getElem?_getD, List.getElem?_eq_getElem hj] at hEq
  simp only [Option.getD_some] at hEq
  exact hij ((List.Nodup.getElem_inj_iff hnd).mp hEq)

/-- Swapping position 1 with a later position is a permutation. -/
theorem set_swap_perm {α : Type} [Inhabited α] (l : List α) (i : Nat)
    (h1 : 1 < l.length) (hi2 : 2 ≤ i) (hilen : i < l.length) :
    ((l.set 1 (l.getD i default)).set i (l.getD 1 default)).Perm l := by
  rcases l with _ | ⟨a, t⟩
  · simp at h1
  rcases t with _ | ⟨b, rest⟩
  · simp at h1
  obtain ⟨k, rfl⟩ : ∃ k, i = k + 2 := ⟨i - 2, by omega⟩
  have hk : k < rest.length := by
    simp only [List.length_cons] at hilen
    omega
  show ((a :: (rest.getD k default) :: rest.set k b) : List α).Perm (a :: b :: rest)
  exact (getD_cons_set_perm rest k b default hk).cons a

/-- The watch-rehoming step of `propagate`: moving watcher `w` of `negLit`
to the replacement literal at position `i` (swapping positions 1 and `i` of
the clause) preserves the watch invariant on the compacted state. -/
theorem watchInvariantL_moved (p : ClausalPropagator) (negLit : Literal)
    (A B : List ClauseWatcher) (w : ClauseWatcher) (alloc : ClauseAllocator) (i : Nat)
    (hinv : WatchInvariantL (p.setWatchList negLit (A ++ w :: B)) alloc)
    (hl1 : (alloc.getClause w.clauseReference).literals.getD 1 default = negLit)
    (hi2 : 2 ≤ i) (hilen : i < (alloc.getClause w.clauseReference).literals.length)
    (hnw : (alloc.getClause w.clauseReference).literals.getD i default ≠ negLit) :
    WatchInvariantL
      ((p.pushWatcher ((alloc.getClause w.clauseReference).literals.getD i default)
          ⟨(alloc.getClause w.clauseReference).literals.getD 0 default, w.clauseReference⟩
        ).setWatchList negLit (A ++ B))
      (alloc.setClauseLiterals w.clauseReference
        (((alloc.getClause w.clauseReference).literals.set 1
            ((alloc.getClause w.clauseReference).literals.getD i default)).set i
          negLit)) := by
  set r := w.clauseReference with hr
  set V := p.setWatchList negLit (A ++ w :: B) with hVdef
  set L := (alloc.getClause r).literals with hLdef
  set nw := L.getD i default with hnwdef
  set fst := L.getD 0 default with hfstdef
  set L1 := (L.set 1 nw).set i negLit with hL1def
  obtain ⟨hW1, hW2, hW3⟩ := hinv
  have hwmem : w ∈ V.getWatchList negLit := by
    rw [hVdef, getWatchList_setWatchList_self]
    exact List.mem_append.mpr (.inr (List.mem_cons_self _ _))
  obtain ⟨a1, a2, a3, a4, a5⟩ := hW2 negLit w hwmem
  have hclmem : alloc.getClause r ∈ alloc.allocatedClauses :=
    getD_mem _ _ (by rw [hr]; omega)
  obtain ⟨hLlen, hLnd⟩ := hW1 _ hclmem
  have hfst_ne_neg : fst ≠ negLit := by
    rw [hfstdef, ← hl1]
    exact nodup_getD_ne L hLnd 0 1 (by omega) (by omega) (by omega)
  have hnw_ne_fst : nw ≠ fst := by
    rw [hnwdef, hfstdef]
    exact nodup_getD_ne L hLnd i 0 hilen (by omega) (by omega)
  have hnw_ne_l1 : nw ≠ L.getD 1 default := by
    rw [hl1]
    exact hnw
  have hL1perm : L1.Perm L := by
    rw [hL1def, hnwdef, ← hl1]
    exact set_swap_perm L i (by omega) hi2 hilen
  have hL1len : L1.length = L.length := by
    rw [hL1def]
    simp
  have hc0' : L1.getD 0 default = fst := by
    rw [hL1def, getD_set_of_ne _ _ _ _ (by omega), getD_set_of_ne _ _ _ _ (by omega),
      hfstdef]
  have hc1' : L1.getD 1 default = nw := by
    rw [hL1def, getD_set_of_ne _ _ _ _ (by omega)]
    exact getD_set_self _ _ _ (by omega)
  have hself' : (alloc.setClauseLiterals r L1).getClause r
      = { alloc.getClause r with literals := L1 } :=
    getClause_setClauseLiterals_self alloc r L1 a1 a2
  have hlen' := setClauseLiterals_length alloc r L1
  obtain ⟨-, -, b3w⟩ := hW3 r a3
  obtain ⟨c1, c2, c3⟩ := b3w a4
  rw [hl1] at c2
  have hcntNeg : (A ++ w :: B).countP (fun w' => w'.clauseReference == r) = 1 := by
    rw [← watchCount_setWatchList_self p negLit (A ++ w :: B) r]
    exact c2
  have hAB : (A ++ B).countP (fun w' => w'.clauseReference == r) = 0 := by
    rw [List.countP_append] at hcntNeg ⊢
    rw [List.countP_cons] at hcntNeg
    have hwr : (w.clauseReference == r) = true := by
      rw [hr]
      exact beq_self_eq_true _
    rw [hwr, if_pos rfl] at hcntNeg
    omega
  have hnoAB : ∀ w' ∈ A ++ B, w'.clauseReference ≠ r := by
    intro w' hw' hc
    have hmem := List.countP_eq_zero.mp hAB w' hw'
    apply hmem
    rw [hc]
    exact beq_self_eq_true r
  have hPneg : ((p.pushWatcher nw ⟨fst, r⟩).setWatchList negLit (A ++ B)).getWatchList
      negLit = A ++ B := getWatchList_setWatchList_self _ _ _
  have hVnw : V.getWatchList nw = p.getWatchList nw := by
    rw [hVdef]
    exact getWatchList_setWatchList_ne _ _ _ _ hnw
  have hPnw : ((p.pushWatcher nw ⟨fst, r⟩).setWatchList negLit (A ++ B)).getWatchList nw
      = V.getWatchList nw ++ [⟨fst, r⟩] := by
    rw [getWatchList_setWatchList_ne _ _ _ _ hnw, ClausalPropagator.pushWatcher,
      getWatchList_setWatchList_self, hVnw]
  have hPother : ∀ l : Literal, l ≠ negLit → l ≠ nw →
      ((p.pushWatcher nw ⟨fst, r⟩).setWatchList negLit (A ++ B)).getWatchList l
        = V.getWatchList l := by
    intro l h1 h2
    rw [getWatchList_setWatchList_ne _ _ _ _ h1, ClausalPropagator.pushWatcher,
      getWatchList_setWatchList_ne _ _ _ _ h2, hVdef,
      getWatchList_setWatchList_ne _ _ _ _ h1]
  have htrans : ∀ (l : Literal) (w' : ClauseWatcher), w' ∈ V.getWatchList l →
      (w'.clauseReference = r → l ≠ negLit) →
      1 ≤ w'.clauseReference.code
        ∧ w'.clauseReference.code
            ≤ (alloc.setClauseLiterals r L1).allocatedClauses.length
        ∧ w'.clauseReference ∈ p.permanentClauses
        ∧ ((alloc.setClauseLiterals r L1).getClause w'.clauseReference).isDeleted = false
        ∧ (l = ((alloc.setClauseLiterals r L1).getClause
              w'.clauseReference).literals.getD 0 default
          ∨ l = ((alloc.setClauseLiterals r L1).getClause
              w'.clauseReference).literals.getD 1 default) := by
    intro l w' hw' hcond
    obtain ⟨a1', a2', a3', a4', a5'⟩ := hW2 l w' hw'
    by_cases hrc : w'.clauseReference = r
    · have hlne : l ≠ negLit := hcond hrc
      refine ⟨a1', by rw [hlen']; exact a2', a3', ?_, ?_⟩
      · rw [hrc, hself']
        rw [hrc] at a4'
        exact a4'
      · rw [hrc, hself']
        dsimp only
        rw [hrc] at a5'
        rcases a5' with h | h
        · exact .inl (by rw [hc0']; exact h)
        · rw [hl1] at h
          exact absurd h hlne
    · have hcode : w'.clauseReference.code ≠ r.code :=
        fun hc => hrc (clauseReference_ext _ _ hc)
      rw [getClause_setClauseLiterals_ne _ _ _ _ a1 a1' hcode]
      exact ⟨a1', by rw [hlen']; exact a2', a3', a4', a5'⟩
  refine ⟨?_, ?_, ?_⟩
  · intro cl hm
    rcases setClauseLiterals_mem _ _ _ _ hm with h | h
    · exact hW1 cl h
    · subst h
      refine ⟨?_, ?_⟩
      · show 2 ≤ L1.length
        rw [hL1len]
        exact hLlen
      · show L1.Nodup
        exact hL1perm.nodup_iff.mpr hLnd
  · intro l w' hw'
    by_cases h1 : l = negLit
    · rw [h1, hPneg] at hw'
      have hwid : w' ∈ V.getWatchList l := by
        rw [h1, hVdef, getWatchList_setWatchList_self]
        rcases List.mem_append.mp hw' with h | h
        · exact List.mem_append.mpr (.inl h)
        · exact List.mem_append.mpr (.inr (List.mem_cons_of_mem _ h))
      exact htrans l w' hwid (fun hc => absurd hc (hnoAB w' hw'))
    · by_cases h2 : l = nw
      · rw [h2, hPnw] at hw'
        rcases List.mem_append.mp hw' with h | h
        · exact htrans l w' (by rw [h2]; exact h) (fun _ => h1)
        · rw [List.mem_singleton] at h
          subst h
          refine ⟨a1, by rw [hlen']; exact a2, a3, ?_, ?_⟩
          · show ((alloc.setClauseLiterals r L1).getClause r).isDeleted = false
            rw [hself']
            exact a4
          · right
            show l = ((alloc.setClauseLiterals r L1).getClause r).literals.getD 1 default
            rw [hself']
            dsimp only
            rw [hc1']
            exact h2
      · exact htrans l w' (by rw [← hPother l h1 h2]; exact hw') (fun _ => h1)
  · intro r' hr'
    obtain ⟨b1, b2, b3⟩ := hW3 r' hr'
    refine ⟨b1, by rw [hlen']; exact b2, ?_⟩
    by_cases hc : r' = r
    · rw [hc, hself']
      dsimp only
      intro hnd
      rw [hc0', hc1']
      refine ⟨?_, ?_, ?_⟩
      · unfold ClausalPropagator.watchCount
        rw [hPother fst hfst_ne_neg (fun hc2 => hnw_ne_fst hc2.symm)]
        exact c1
      · unfold ClausalPropagator.watchCount
        rw [hPnw, List.countP_append]
        have h0 : (V.getWatchList nw).countP (fun w'' => w''.clauseReference == r) = 0 :=
          c3 nw hnw_ne_fst hnw_ne_l1
        rw [h0]
        simp [List.countP_cons]
      · intro l hl0 hl1'
        unfold ClausalPropagator.watchCount
        by_cases hln : l = negLit
        · rw [hln, hPneg]
          exact hAB
        · rw [hPother l hln hl1']
          exact c3 l hl0 (by rw [hl1]; exact hln)
    · have hcode : r'.code ≠ r.code := fun h => hc (clauseReference_ext _ _ h)
      rw [getClause_setClauseLiterals_ne _ _ _ _ a1 b1 hcode]
      intro hnd
      obtain ⟨c1', c2', c3'⟩ := b3 hnd
      have hwr' : (w.clauseReference == r') = false :=
        beq_eq_false_iff_ne.mpr (fun h => hc (hr.trans h).symm)
      have hfr' : ((⟨fst, r⟩ : ClauseWatcher).clauseReference == r') = false := by
        show (r == r') = false
        exact beq_eq_false_iff_ne.mpr (fun h => hc h.symm)
      have hcnt : ∀ l : Literal,
          ((p.pushWatcher nw ⟨fst, r⟩).setWatchList negLit (A ++ B)).watchCount l r'
            = V.watchCount l r' := by
        intro l
        unfold ClausalPropagator.watchCount
        by_cases h1 : l = negLit
        · rw [h1, hPneg, hVdef, getWatchList_setWatchList_self, List.countP_append,
            List.countP_append, List.countP_cons, hwr', if_neg (by simp)]
          omega
        · by_cases h2 : l = nw
          · rw [h2, hPnw, List.countP_append]
            simp [List.countP_cons, hfr']
          · rw [hPother l h1 h2]
      exact ⟨(hcnt _).trans c1', (hcnt _).trans c2',
        fun l h0 h1 => (hcnt _).trans (c3' l h0 h1)⟩

theorem swap01_getD (l : List Literal) (h : 2 ≤ l.length) :
    (swap01 l).getD 0 default = l.getD 1 default
      ∧ (swap01 l).getD 1 default = l.getD 0 default := by
  rcases l with _ | ⟨a, _ | ⟨b, rest⟩⟩
  · simp at h
  · simp at h
  · exact ⟨rfl, rfl⟩

theorem isFalse_makeAssignment_ne (asg : AssignmentsPropositional) (x l : Literal)
    (reason : Option ClauseReference) (h : x.variableIndex ≠ l.variableIndex) :
    (asg.makeAssignment x reason).isLiteralAssignedFalse l
      = asg.isLiteralAssignedFalse l := by
  unfold AssignmentsPropositional.isLiteralAssignedFalse
    AssignmentsPropositional.makeAssignment
  dsimp only
  rw [List.getD_eq_getElem?_getD, List.getElem?_set_ne h, ← List.getD_eq_getElem?_getD]

theorem literalsInRange_makeAssignment (alloc : ClauseAllocator)
    (asg : AssignmentsPropositional) (x : Literal) (reason : Option ClauseReference)
    (h : LiteralsInRange alloc asg) :
    LiteralsInRange alloc (asg.makeAssignment x reason) := by
  intro cl hm l hl
  rw [makeAssignment_values_length]
  exact h cl hm l hl

theorem literalsInRange_setClauseLiterals (alloc : ClauseAllocator)
    (asg : AssignmentsPropositional) (r : ClauseReference) (xs : List Literal)
    (h1 : 1 ≤ r.code) (h2 : r.code ≤ alloc.allocatedClauses.length)
    (hsub : ∀ l ∈ xs, l ∈ (alloc.getClause r).literals)
    (h : LiteralsInRange alloc asg) :
    LiteralsInRange (alloc.setClauseLiterals r xs) asg := by
  intro cl hm l hl
  rcases setClauseLiterals_mem _ _ _ _ hm with hcl | hcl
  · exact h cl hcl l hl
  · subst hcl
    have hl' : l ∈ (alloc.getClause r).literals := hsub l hl
    exact h _ (getD_mem _ _ (by omega)) l hl'

/-- The watch invariant only looks at the watch lists and the registered
clauses, so it transfers along agreement of those observations. -/
theorem watchInvariantL_congr (p p' : ClausalPropagator) (alloc : ClauseAllocator)
    (hg : ∀ l : Literal, p'.getWatchList l = p.getWatchList l)
    (hp : p'.permanentClauses = p.permanentClauses)
    (h : WatchInvariantL p alloc) : WatchInvariantL p' alloc := by
  obtain ⟨h1, h2, h3⟩ := h
  have hcnt : ∀ (l : Literal) (r : ClauseReference), p'.watchCount l r = p.watchCount l r := by
    intro l r
    unfold ClausalPropagator.watchCount
    rw [hg]
  refine ⟨h1, ?_, ?_⟩
  · intro l w hw
    rw [hg] at hw
    obtain ⟨a1, a2, a3, a4, a5⟩ := h2 l w hw
    exact ⟨a1, a2, by rw [hp]; exact a3, a4, a5⟩
  · intro r hr
    rw [hp] at hr
    obtain ⟨b1, b2, b3⟩ := h3 r hr
    refine ⟨b1, b2, fun hnd => ?_⟩
    obtain ⟨c1, c2, c3⟩ := b3 hnd
    exact ⟨(hcnt _ _).trans c1, (hcnt _ _).trans c2,
      fun l h0 h1' => (hcnt _ _).trans (c3 l h0 h1')⟩

theorem watchInvariantL_self_set (p : ClausalPropagator) (negLit : Literal)
    (alloc : ClauseAllocator) (h : WatchInvariantL p alloc) :
    WatchInvariantL (p.setWatchList negLit (p.getWatchList negLit)) alloc := by
  refine watchInvariantL_congr p _ alloc ?_ rfl h
  intro l
  by_cases hl : l = negLit
  · rw [hl, getWatchList_setWatchList_self]
  · rw [getWatchList_setWatchList_ne _ _ _ _ hl]

/-- One `processWatcher` step preserves the watch invariant (on the
virtual state that holds the pending watchers of `negLit` out of band),
the literal ranges, trail consistency, and the falsity of `negLit`. -/
theorem processWatcher_preserves (p : ClausalPropagator)
    (asg : AssignmentsPropositional) (alloc : ClauseAllocator) (negLit : Literal)
    (w : ClauseWatcher) (A B : List ClauseWatcher)
    (hinv : WatchInvariantL (p.setWatchList negLit (A ++ w :: B)) alloc)
    (hrange : LiteralsInRange alloc asg)
    (hT : TrailConsistent asg)
    (hneg : asg.isLiteralAssignedFalse negLit = true) :
    WatchInvariantL
      ((p.processWatcher asg alloc negLit w).2.1.setWatchList negLit
        (A ++ stepKept (p.processWatcher asg alloc negLit w).1 ++ B))
      (p.processWatcher asg alloc negLit w).2.2.2
    ∧ LiteralsInRange (p.processWatcher asg alloc negLit w).2.2.2
        (p.processWatcher asg alloc negLit w).2.2.1
    ∧ TrailConsistent (p.processWatcher asg alloc negLit w).2.2.1
    ∧ (p.processWatcher asg alloc negLit w).2.2.1.isLiteralAssignedFalse negLit
        = true := by
  have hwmem : w ∈ (p.setWatchList negLit (A ++ w :: B)).getWatchList negLit := by
    rw [getWatchList_setWatchList_self]
    exact List.mem_append.mpr (.inr (List.mem_cons_self _ _))
  obtain ⟨a1, a2, a3, a4, a5⟩ := hinv.2.1 negLit w hwmem
  have hclmem : alloc.getClause w.clauseReference ∈ alloc.allocatedClauses :=
    getD_mem _ _ (by omega)
  obtain ⟨hLlen, hLnd⟩ := hinv.1 _ hclmem
  by_cases hcache : asg.isLiteralAssignedTrue w.cachedLiteral = true
  · have hPW : p.processWatcher asg alloc negLit w = (.keep w, p, asg, alloc) := by
      unfold ClausalPropagator.processWatcher
      rw [if_pos hcache]
    rw [hPW]
    dsimp only [stepKept]
    rw [← List.append_cons]
    exact ⟨hinv, hrange, hT, hneg⟩
  · have hcache' : asg.isLiteralAssignedTrue w.cachedLiteral = false := by
      cases h : asg.isLiteralAssignedTrue w.cachedLiteral
      · rfl
      · exact absurd h hcache
    set litsE := (if (alloc.getClause w.clauseReference).literals.getD 0 default = negLit
      then swap01 (alloc.getClause w.clauseReference).literals
      else (alloc.getClause w.clauseReference).literals) with hlits
    have hpermE : litsE.Perm (alloc.getClause w.clauseReference).literals := by
      rw [hlits]
      by_cases hsw : (alloc.getClause w.clauseReference).literals.getD 0 default = negLit
      · rw [if_pos hsw]
        exact swap01_perm _
      · rw [if_neg hsw]
    have hposE : (litsE.getD 0 default
            = (alloc.getClause w.clauseReference).literals.getD 0 default
          ∧ litsE.getD 1 default
            = (alloc.getClause w.clauseReference).literals.getD 1 default)
        ∨ (litsE.getD 0 default
            = (alloc.getClause w.clauseReference).literals.getD 1 default
          ∧ litsE.getD 1 default
            = (alloc.getClause w.clauseReference).literals.getD 0 default) := by
      rw [hlits]
      by_cases hsw : (alloc.getClause w.clauseReference).literals.getD 0 default = negLit
      · rw [if_pos hsw]
        exact .inr (swap01_getD _ hLlen)
      · rw [if_neg hsw]
        exact .inl ⟨rfl, rfl⟩
    have hl1E : litsE.getD 1 default = negLit := by
      rw [hlits]
      by_cases hsw : (alloc.getClause w.clauseReference).literals.getD 0 default = negLit
      · rw [if_pos hsw, (swap01_getD _ hLlen).2]
        exact hsw
      · rw [if_neg hsw]
        rcases a5 with h | h
        · exact absurd h.symm hsw
        · exact h.symm
    have hElen : 2 ≤ litsE.length := by
      rw [hpermE.length_eq]
      exact hLlen
    have hinv1 : WatchInvariantL (p.setWatchList negLit (A ++ w :: B))
        (alloc.setClauseLiterals w.clauseReference litsE) :=
      watchInvariantL_setClauseLiterals_norm _ alloc w.clauseReference litsE hinv
        a1 a2 hpermE hposE
    have hrange1 : LiteralsInRange (alloc.setClauseLiterals w.clauseReference litsE) asg :=
      literalsInRange_setClauseLiterals alloc asg w.clauseReference litsE a1 a2
        (fun l hl => hpermE.subset hl) hrange
    have hself1 : (alloc.setClauseLiterals w.clauseReference litsE).getClause
        w.clauseReference = { alloc.getClause w.clauseReference with literals := litsE } :=
      getClause_setClauseLiterals_self alloc w.clauseReference litsE a1 a2
    have hkey : ((alloc.setClauseLiterals w.clauseReference litsE).getClause
        w.clauseReference).literals = litsE := by
      rw [hself1]
    by_cases hfirst : asg.isLiteralAssignedTrue (litsE.getD 0 default) = true
    · have hPW : p.processWatcher asg alloc negLit w
          = (.keep { w with cachedLiteral := litsE.getD 0 default }, p, asg,
             alloc.setClauseLiterals w.clauseReference litsE) := by
        simp only [ClausalPropagator.processWatcher]
        rw [← hlits, if_neg (by rw [hcache']; simp), if_pos hfirst]
      rw [hPW]
      dsimp only [stepKept]
      refine ⟨?_, hrange1, hT, hneg⟩
      rw [← List.append_cons]
      exact watchInvariantL_replace_watcher p negLit A B w _ _ rfl hinv1
    · have hfirst' : asg.isLiteralAssignedTrue (litsE.getD 0 default) = false := by
        cases h : asg.isLiteralAssignedTrue (litsE.getD 0 default)
        · rfl
        · exact absurd h hfirst
      rcases hfind : findNewWatchIdx asg litsE with _ | i
      · by_cases hff : asg.isLiteralAssignedFalse (litsE.getD 0 default) = true
        · have henq : asg.enqueuePropagatedLiteral (litsE.getD 0 default)
              w.clauseReference = (some ⟨litsE.getD 0 default, w.clauseReference⟩, asg) := by
            unfold AssignmentsPropositional.enqueuePropagatedLiteral
            rw [if_pos hff]
          have hPW : p.processWatcher asg alloc negLit w
              = (.conflict w ⟨litsE.getD 0 default, w.clauseReference⟩, p, asg,
                 alloc.setClauseLiterals w.clauseReference litsE) := by
            simp only [ClausalPropagator.processWatcher]
            rw [← hlits, if_neg (by rw [hcache']; simp), if_neg (by rw [hfirst']; simp), hfind]
            dsimp only
            rw [henq]
          rw [hPW]
          dsimp only [stepKept]
          refine ⟨?_, hrange1, hT, hneg⟩
          rw [← List.append_cons]
          exact hinv1
        · have hff' : asg.isLiteralAssignedFalse (litsE.getD 0 default) = false := by
            cases h : asg.isLiteralAssignedFalse (litsE.getD 0 default)
            · rfl
            · exact absurd h hff
          have hun : asg.values.getD (litsE.getD 0 default).variableIndex none = none :=
            values_none_of_not_true_not_false asg _ hff' hfirst'
          have henq : asg.enqueuePropagatedLiteral (litsE.getD 0 default)
              w.clauseReference
              = (none, asg.makeAssignment (litsE.getD 0 default)
                  (some w.clauseReference)) := by
            unfold AssignmentsPropositional.enqueuePropagatedLiteral
            rw [if_neg (by rw [hff']; simp), if_neg (by rw [hfirst']; simp)]
          have hPW : p.processWatcher asg alloc negLit w
              = (.propagated w, p,
                 asg.makeAssignment (litsE.getD 0 default) (some w.clauseReference),
                 alloc.setClauseLiterals w.clauseReference litsE) := by
            simp only [ClausalPropagator.processWatcher]
            rw [← hlits, if_neg (by rw [hcache']; simp), if_neg (by rw [hfirst']; simp), hfind]
            dsimp only
            rw [henq]
          have hfstmem : litsE.getD 0 default
              ∈ (alloc.getClause w.clauseReference).literals :=
            hpermE.subset (getD_mem _ _ (by omega))
          have hfstvar : (litsE.getD 0 default).variableIndex < asg.values.length :=
            hrange _ hclmem _ hfstmem
          have hvne : (litsE.getD 0 default).variableIndex ≠ negLit.variableIndex := by
            intro hc
            have hsome : asg.values.getD negLit.variableIndex none
                = some (!negLit.isPositive) := by
              have hx := hneg
              unfold AssignmentsPropositional.isLiteralAssignedFalse at hx
              exact eq_of_beq hx
            rw [hc, hsome] at hun
            exact absurd hun (by simp)
          rw [hPW]
          dsimp only [stepKept]
          refine ⟨?_, ?_, ?_, ?_⟩
          · rw [← List.append_cons]
            exact hinv1
          · exact literalsInRange_makeAssignment _ _ _ _ hrange1
          · exact trailConsistent_makeAssignment asg _ _ hT hfstvar hun
          · rw [isFalse_makeAssignment_ne asg _ negLit _ hvne]
            exact hneg
      · have hfind' := hfind
        unfold findNewWatchIdx at hfind'
        have hi_mem : i ∈ List.range' 2 (litsE.length - 2) :=
          List.mem_of_find?_eq_some hfind'
        have hi_bounds : 2 ≤ i ∧ i < litsE.length := by
          rw [List.mem_range'_1] at hi_mem
          omega
        have hnwnf : asg.isLiteralAssignedFalse (litsE.getD i default) = false := by
          have hpredi := List.find?_some hfind'
          simpa using hpredi
        have hnwne : litsE.getD i default ≠ negLit := by
          intro hc
          rw [hc, hneg] at hnwnf
          exact absurd hnwnf (by simp)
        have hPW : p.processWatcher asg alloc negLit w
            = (.moved,
               p.pushWatcher (litsE.getD i default)
                 ⟨litsE.getD 0 default, w.clauseReference⟩, asg,
               (alloc.setClauseLiterals w.clauseReference litsE).setClauseLiterals
                 w.clauseReference
                 ((litsE.set 1 (litsE.getD i default)).set i negLit)) := by
          simp only [ClausalPropagator.processWatcher]
          rw [← hlits, if_neg (by rw [hcache']; simp), if_neg (by rw [hfirst']; simp), hfind]
        have hmv := watchInvariantL_moved p negLit A B w
          (alloc.setClauseLiterals w.clauseReference litsE) i hinv1
          (by rw [hkey]; exact hl1E)
          hi_bounds.1
          (by rw [hkey]; exact hi_bounds.2)
          (by rw [hkey]; exact hnwne)
        rw [hkey] at hmv
        rw [hPW]
        dsimp only [stepKept]
        refine ⟨?_, ?_, hT, hneg⟩
        · rw [List.append_nil]
          exact hmv
        · apply literalsInRange_setClauseLiterals _ _ _ _ a1 ?_ ?_ hrange1
          · rw [setClauseLiterals_length]
            exact a2
          · intro l hl
            rw [hkey]
            rcases List.mem_or_eq_of_mem_set hl with h | h
            · rcases List.mem_or_eq_of_mem_set h with h2 | h2
              · exact h2
              · subst h2
                exact getD_mem _ _ (by omega)
            · subst h
              rw [← hl1E]
              exact getD_mem _ _ (by omega)

/-- The inner watcher loop of `propagate` preserves the watch invariant,
the literal ranges and trail consistency. -/
theorem processWatchers_preserves (pending : List ClauseWatcher) :
    ∀ (p : ClausalPropagator) (asg : AssignmentsPropositional) (alloc : ClauseAllocator)
      (negLit : Literal) (kept : List ClauseWatcher),
    WatchInvariantL (p.setWatchList negLit (kept ++ pending)) alloc →
    LiteralsInRange alloc asg →
    TrailConsistent asg →
    asg.isLiteralAssignedFalse negLit = true →
    WatchInvariantL (p.processWatchers asg alloc negLit kept pending).2.1
        (p.processWatchers asg alloc negLit kept pending).2.2.2
      ∧ LiteralsInRange (p.processWatchers asg alloc negLit kept pending).2.2.2
          (p.processWatchers asg alloc negLit kept pending).2.2.1
      ∧ TrailConsistent (p.processWatchers asg alloc negLit kept pending).2.2.1 := by
  induction pending with
  | nil =>
    intro p asg alloc negLit kept hinv hr hT hneg
    rw [List.append_nil] at hinv
    exact ⟨hinv, hr, hT⟩
  | cons w rest ih =>
    intro p asg alloc negLit kept hinv hr hT hneg
    have hpres := processWatcher_preserves p asg alloc negLit w kept rest hinv hr hT hneg
    simp only [ClausalPropagator.processWatchers]
    rcases hstep : p.processWatcher asg alloc negLit w with ⟨step, p1, asg1, alloc1⟩
    rw [hstep] at hpres
    dsimp only at hpres
    obtain ⟨h1, h2, h3, h4⟩ := hpres
    cases step with
    | keep w1 =>
      dsimp only [stepKept] at h1
      dsimp only
      apply ih p1 asg1 alloc1 negLit (kept ++ [w1]) ?_ h2 h3 h4
      exact h1
    | moved =>
      dsimp only [stepKept] at h1
      dsimp only
      apply ih p1 asg1 alloc1 negLit kept ?_ h2 h3 h4
      rw [List.append_nil] at h1
      exact h1
    | propagated w1 =>
      dsimp only [stepKept] at h1
      dsimp only
      apply ih p1 asg1 alloc1 negLit (kept ++ [w1]) ?_ h2 h3 h4
      exact h1
    | conflict w1 ci =>
      dsimp only [stepKept] at h1
      dsimp only
      rw [List.append_cons]
      exact ⟨h1, h2, h3⟩

/-- The outer trail loop of `propagate` preserves the watch invariant, the
literal ranges and trail consistency. -/
theorem propagateGo_preserves (fuel : Nat) :
    ∀ (p : ClausalPropagator) (asg : AssignmentsPropositional) (alloc : ClauseAllocator),
    WatchInvariantL p alloc →
    LiteralsInRange alloc asg →
    TrailConsistent asg →
    WatchInvariantL (ClausalPropagator.propagateGo fuel p asg alloc).2.1
        (ClausalPropagator.propagateGo fuel p asg alloc).2.2.2
      ∧ LiteralsInRange (ClausalPropagator.propagateGo fuel p asg alloc).2.2.2
          (ClausalPropagator.propagateGo fuel p asg alloc).2.2.1
      ∧ TrailConsistent (ClausalPropagator.propagateGo fuel p asg alloc).2.2.1 := by
  induction fuel with
  | zero =>
    intro p asg alloc hinv hr hT
    exact ⟨hinv, hr, hT⟩
  | succ fuel ih =>
    intro p asg alloc hinv hr hT
    simp only [ClausalPropagator.propagateGo]
    by_cases hcur : p.nextPositionOnTrailToPropagate < asg.numTrailEntries
    · rw [if_pos hcur]
      have hentry : asg.trail.getD p.nextPositionOnTrailToPropagate default
          ∈ asg.trail := getD_mem _ _ hcur
      obtain ⟨hv, hsome⟩ := hT _ hentry
      have hnegf : asg.isLiteralAssignedFalse
          (asg.getTrailEntry p.nextPositionOnTrailToPropagate).negate = true := by
        unfold AssignmentsPropositional.isLiteralAssignedFalse
          AssignmentsPropositional.getTrailEntry Literal.negate
        dsimp only
        rw [hsome]
        simp
      by_cases hempty : (p.getWatchList
          (asg.getTrailEntry p.nextPositionOnTrailToPropagate).negate).isEmpty = true
      · rw [if_pos hempty]
        exact ih _ asg alloc hinv hr hT
      · rw [if_neg hempty]
        have hinv0 : WatchInvariantL
            (p.setWatchList (asg.getTrailEntry p.nextPositionOnTrailToPropagate).negate
              ([] ++ p.getWatchList
                (asg.getTrailEntry p.nextPositionOnTrailToPropagate).negate)) alloc := by
          rw [List.nil_append]
          exact watchInvariantL_self_set p _ alloc hinv
        have hPW := processWatchers_preserves
          (p.getWatchList (asg.getTrailEntry p.nextPositionOnTrailToPropagate).negate)
          p asg alloc (asg.getTrailEntry p.nextPositionOnTrailToPropagate).negate []
          hinv0 hr hT hnegf
        rcases hres : p.processWatchers asg alloc
            (asg.getTrailEntry p.nextPositionOnTrailToPropagate).negate []
            (p.getWatchList (asg.getTrailEntry p.nextPositionOnTrailToPropagate).negate)
          with ⟨oc, p1, asg1, alloc1⟩
        rw [hres] at hPW
        dsimp only at hPW
        obtain ⟨h1, h2, h3⟩ := hPW
        cases oc with
        | some ci =>
          dsimp only
          exact ⟨h1, h2, h3⟩
        | none =>
          dsimp only
          apply ih _ asg1 alloc1 ?_ h2 h3
          exact watchInvariantL_congr p1 _ alloc1 (fun l => rfl) rfl h1
    · rw [if_neg hcur]
      exact ⟨hinv, hr, hT⟩

/-- Installing a clause of at least two distinct literals through
`add_clause_unchecked` (fresh allocation path) preserves the watch
invariant. -/
theorem addClauseUnchecked_preserves (p : ClausalPropagator)
    (asg : AssignmentsPropositional) (alloc : ClauseAllocator)
    (lits : List Literal) (isLearned : Bool)
    (hinv : WatchInvariantL p alloc)
    (hfree : alloc.deletedClauseReferences = [])
    (hlen : 2 ≤ lits.length) (hnd : lits.Nodup)
    (hrange : LiteralsInRange alloc asg)
    (hvars : ∀ l ∈ lits, l.variableIndex < asg.values.length) :
    WatchInvariantL (p.addClauseUnchecked lits isLearned alloc).2.1
        (p.addClauseUnchecked lits isLearned alloc).2.2
      ∧ LiteralsInRange (p.addClauseUnchecked lits isLearned alloc).2.2 asg := by
  set rN : ClauseReference := ⟨alloc.allocatedClauses.length + 1⟩ with hrN
  set allocN : ClauseAllocator :=
    { alloc with allocatedClauses := alloc.allocatedClauses ++ [Clause.new lits isLearned] }
    with hallocN
  set c0 := lits.getD 0 default with hc0
  set c1 := lits.getD 1 default with hc1
  set q2 := (({ p with permanentClauses := p.permanentClauses ++ [rN] }
      : ClausalPropagator).pushWatcher c0 ⟨c1, rN⟩).pushWatcher c1 ⟨c0, rN⟩ with hq2
  have hcc : alloc.createClause lits isLearned = (rN, allocN) := by
    simp only [ClauseAllocator.createClause, hfree]
    rw [hallocN, hrN, hfree]
    rfl
  have hgcN : allocN.getClause rN = Clause.new lits isLearned := by
    rw [hallocN, hrN]
    unfold ClauseAllocator.getClause
    show (alloc.allocatedClauses ++ [Clause.new lits isLearned]).getD
      (alloc.allocatedClauses.length + 1 - 1) default = _
    exact getD_append_length _ _ _
  have hADD : p.addClauseUnchecked lits isLearned alloc = (rN, q2, allocN) := by
    simp only [ClausalPropagator.addClauseUnchecked, hcc]
    simp only [ClausalPropagator.startWatchingClauseUnchecked, hgcN]
    rfl
  have hlenN : allocN.allocatedClauses.length = alloc.allocatedClauses.length + 1 := by
    rw [hallocN]
    dsimp only
    simp
  have hgcOld : ∀ r' : ClauseReference, 1 ≤ r'.code →
      r'.code ≤ alloc.allocatedClauses.length → allocN.getClause r' = alloc.getClause r' := by
    intro r' h1 h2
    rw [hallocN]
    unfold ClauseAllocator.getClause
    dsimp only
    exact getD_append_left _ _ _ (by omega)
  have hc01 : c0 ≠ c1 := by
    rw [hc0, hc1]
    exact nodup_getD_ne lits hnd 0 1 (by omega) (by omega) (by omega)
  have hq2perm : q2.permanentClauses = p.permanentClauses ++ [rN] := rfl
  have hq2c0 : q2.getWatchList c0 = p.getWatchList c0 ++ [⟨c1, rN⟩] := by
    rw [hq2]
    simp only [ClausalPropagator.pushWatcher]
    rw [getWatchList_setWatchList_ne _ _ _ _ hc01, getWatchList_setWatchList_self]
    rfl
  have hq2c1 : q2.getWatchList c1 = p.getWatchList c1 ++ [⟨c0, rN⟩] := by
    rw [hq2]
    simp only [ClausalPropagator.pushWatcher]
    rw [getWatchList_setWatchList_self,
      getWatchList_setWatchList_ne _ _ _ _ (fun h => hc01 h.symm)]
    rfl
  have hq2other : ∀ l : Literal, l ≠ c0 → l ≠ c1 →
      q2.getWatchList l = p.getWatchList l := by
    intro l h0 h1
    rw [hq2]
    simp only [ClausalPropagator.pushWatcher]
    rw [getWatchList_setWatchList_ne _ _ _ _ h1, getWatchList_setWatchList_ne _ _ _ _ h0]
    rfl
  have hnoN : ∀ (l : Literal) (w' : ClauseWatcher), w' ∈ p.getWatchList l →
      w'.clauseReference ≠ rN := by
    intro l w' hw' hc
    obtain ⟨-, a2', -, -, -⟩ := hinv.2.1 l w' hw'
    rw [hc, hrN] at a2'
    dsimp only at a2'
    omega
  have hcnt0 : ∀ l : Literal,
      (p.getWatchList l).countP (fun w' => w'.clauseReference == rN) = 0 := by
    intro l
    rw [List.countP_eq_zero]
    intro w' hw' hb
    exact hnoN l w' hw' (eq_of_beq hb)
  rw [hADD]
  dsimp only
  refine ⟨⟨?_, ?_, ?_⟩, ?_⟩
  · intro cl hm
    rw [hallocN] at hm
    dsimp only at hm
    rcases List.mem_append.mp hm with h | h
    · exact hinv.1 cl h
    · rw [List.mem_singleton] at h
      subst h
      exact ⟨hlen, hnd⟩
  · intro l w' hw'
    by_cases h0 : l = c0
    · rw [h0, hq2c0] at hw'
      rcases List.mem_append.mp hw' with h | h
      · obtain ⟨a1', a2', a3', a4', a5'⟩ := hinv.2.1 c0 w' h
        have hne : w'.clauseReference ≠ rN := hnoN c0 w' h
        refine ⟨a1', by rw [hlenN]; omega, ?_, ?_, ?_⟩
        · rw [hq2perm]
          exact List.mem_append.mpr (.inl a3')
        · rw [hgcOld _ a1' a2']
          exact a4'
        · rw [h0, hgcOld _ a1' a2']
          exact a5'
      · rw [List.mem_singleton] at h
        subst h
        refine ⟨?_, ?_, ?_, ?_, ?_⟩
        · show 1 ≤ alloc.allocatedClauses.length + 1
          omega
        · show rN.code ≤ allocN.allocatedClauses.length
          rw [hlenN]
        · show rN ∈ q2.permanentClauses
          rw [hq2perm]
          exact List.mem_append.mpr (.inr (List.mem_singleton.mpr rfl))
        · show (allocN.getClause rN).isDeleted = false
          rw [hgcN]
          rfl
        · left
          show l = (allocN.getClause rN).literals.getD 0 default
          rw [hgcN, h0]
          exact hc0
    · by_cases h1 : l = c1
      · rw [h1, hq2c1] at hw'
        rcases List.mem_append.mp hw' with h | h
        · obtain ⟨a1', a2', a3', a4', a5'⟩ := hinv.2.1 c1 w' h
          have hne : w'.clauseReference ≠ rN := hnoN c1 w' h
          refine ⟨a1', by rw [hlenN]; omega, ?_, ?_, ?_⟩
          · rw [hq2perm]
            exact List.mem_append.mpr (.inl a3')
          · rw [hgcOld _ a1' a2']
            exact a4'
          · rw [h1, hgcOld _ a1' a2']
            exact a5'
        · rw [List.mem_singleton] at h
          subst h
          refine ⟨?_, ?_, ?_, ?_, ?_⟩
          · show 1 ≤ alloc.allocatedClauses.length + 1
            omega
          · show rN.code ≤ allocN.allocatedClauses.length
            rw [hlenN]
          · show rN ∈ q2.permanentClauses
            rw [hq2perm]
            exact List.mem_append.mpr (.inr (List.mem_singleton.mpr rfl))
          · show (allocN.getClause rN).isDeleted = false
            rw [hgcN]
            rfl
          · right
            show l = (allocN.getClause rN).literals.getD 1 default
            rw [hgcN, h1]
            exact hc1
      · rw [hq2other l h0 h1] at hw'
        obtain ⟨a1', a2', a3', a4', a5'⟩ := hinv.2.1 l w' hw'
        refine ⟨a1', by rw [hlenN]; omega, ?_, ?_, ?_⟩
        · rw [hq2perm]
          exact List.mem_append.mpr (.inl a3')
        · rw [hgcOld _ a1' a2']
          exact a4'
        · rw [hgcOld _ a1' a2']
          exact a5'
  · intro r' hr'
    rw [hq2perm] at hr'
    rcases List.mem_append.mp hr' with hOld | hNew
    · obtain ⟨b1, b2, b3⟩ := hinv.2.2 r' hOld
      have hne : r' ≠ rN := by
        intro hc
        rw [hc, hrN] at b2
        dsimp only at b2
        omega
      refine ⟨b1, by rw [hlenN]; omega, ?_⟩
      rw [hgcOld _ b1 b2]
      intro hnd'
      obtain ⟨cc1, cc2, cc3⟩ := b3 hnd'
      have hbN : ((⟨c1, rN⟩ : ClauseWatcher).clauseReference == r') = false := by
        show (rN == r') = false
        exact beq_eq_false_iff_ne.mpr (fun h => hne h.symm)
      have hbN' : ((⟨c0, rN⟩ : ClauseWatcher).clauseReference == r') = false := by
        show (rN == r') = false
        exact beq_eq_false_iff_ne.mpr (fun h => hne h.symm)
      have hcntEq : ∀ l : Literal, q2.watchCount l r' = p.watchCount l r' := by
        intro l
        unfold ClausalPropagator.watchCount
        by_cases h0 : l = c0
        · rw [h0, hq2c0, List.countP_append]
          simp [List.countP_cons, hbN]
        · by_cases h1 : l = c1
          · rw [h1, hq2c1, List.countP_append]
            simp [List.countP_cons, hbN']
          · rw [hq2other l h0 h1]
      exact ⟨(hcntEq _).trans cc1, (hcntEq _).trans cc2,
        fun l hx hy => (hcntEq _).trans (cc3 l hx hy)⟩
    · rw [List.mem_singleton] at hNew
      subst hNew
      refine ⟨?_, ?_, ?_⟩
      · show 1 ≤ alloc.allocatedClauses.length + 1
        omega
      · show rN.code ≤ allocN.allocatedClauses.length
        rw [hlenN]
      · intro hnd'
        rw [hgcN]
        refine ⟨?_, ?_, ?_⟩
        · unfold ClausalPropagator.watchCount
          rw [show (Clause.new lits isLearned).literals.getD 0 default = c0 from hc0.symm,
            hq2c0, List.countP_append, hcnt0 c0]
          simp
        · unfold ClausalPropagator.watchCount
          rw [show (Clause.new lits isLearned).literals.getD 1 default = c1 from hc1.symm,
            hq2c1, List.countP_append, hcnt0 c1]
          simp
        · intro l hx hy
          unfold ClausalPropagator.watchCount
          rw [hq2other l
            (by rw [hc0]; exact fun h => hx (h.trans rfl))
            (by rw [hc1]; exact fun h => hy (h.trans rfl))]
          exact hcnt0 l
  · intro cl hm
    rw [hallocN] at hm
    dsimp only at hm
    rcases List.mem_append.mp hm with h | h
    · exact hrange cl h
    · rw [List.mem_singleton] at h
      subst h
      intro l hl
      exact hvars l hl

/-- **C5**: the two-watched-literal invariant of `debug_check_state` —
every arena clause has at least two (distinct) literals, and every
registered non-deleted clause is watched exactly once from each of the
watch lists of its literals 0 and 1 and from no other list — is preserved
(1) by clause installation through `add_clause_unchecked` (fresh
allocation, a clause of at least two distinct literals over existing
variables), and (2) by `propagate`, whose watch rehoming moves watchers
between lists while keeping the first two literals of each clause the
watched ones. -/
theorem clause_installation_and_propagation_preserve_watch_invariant :
    (∀ (p : ClausalPropagator) (asg : AssignmentsPropositional) (alloc : ClauseAllocator)
      (lits : List Literal) (isLearned : Bool),
      WatchInvariant p alloc →
      alloc.deletedClauseReferences = [] →
      2 ≤ lits.length → lits.Nodup →
      LiteralsInRange alloc asg →
      (∀ l ∈ lits, l.variableIndex < asg.values.length) →
      WatchInvariant (p.addClauseUnchecked lits isLearned alloc).2.1
          (p.addClauseUnchecked lits isLearned alloc).2.2
        ∧ LiteralsInRange (p.addClauseUnchecked lits isLearned alloc).2.2 asg)
    ∧ (∀ (p : ClausalPropagator) (asg : AssignmentsPropositional)
        (alloc : ClauseAllocator),
      WatchInvariant p alloc →
      LiteralsInRange alloc asg →
      TrailConsistent asg →
      WatchInvariant (p.propagate asg alloc).2.1 (p.propagate asg alloc).2.2.2
        ∧ LiteralsInRange (p.propagate asg alloc).2.2.2 (p.propagate asg alloc).2.2.1
        ∧ TrailConsistent (p.propagate asg alloc).2.2.1) := by
  constructor
  · intro p asg alloc lits isLearned hinv hfree hlen hnd hrange hvars
    obtain ⟨h1, h2⟩ := addClauseUnchecked_preserves p asg alloc lits isLearned
      ((watchInvariant_iff _ _).mp hinv) hfree hlen hnd hrange hvars
    exact ⟨(watchInvariant_iff _ _).mpr h1, h2⟩
  · intro p asg alloc hinv hrange hT
    obtain ⟨h1, h2, h3⟩ := propagateGo_preserves
      (asg.numTrailEntries - p.nextPositionOnTrailToPropagate
        + asg.numPropositionalVariables + 1) p asg alloc
      ((watchInvariant_iff _ _).mp hinv) hrange hT
    exact ⟨(watchInvariant_iff _ _).mpr h1, h2, h3⟩

/-- **C5** (witness): installing the clause `[+0, +1]` into the start-up
two-variable propagator, and propagating on it, both from states satisfying
the invariant. -/
theorem clause_installation_and_propagation_preserve_watch_invariant_witness :
    WatchInvariant
        (ClausalPropagator.addClauseUnchecked ⟨[[], [], [], []], 0, [], false⟩
          [⟨0, true⟩, ⟨1, true⟩] false ⟨[], []⟩).2.1
        (ClausalPropagator.addClauseUnchecked ⟨[[], [], [], []], 0, [], false⟩
          [⟨0, true⟩, ⟨1, true⟩] false ⟨[], []⟩).2.2
      ∧ WatchInvariant
          (ClausalPropagator.propagate ⟨[[], [], [], []], 0, [], false⟩
            ⟨[none, none], [], ⟨0, true⟩⟩ ⟨[], []⟩).2.1
          (ClausalPropagator.propagate ⟨[[], [], [], []], 0, [], false⟩
            ⟨[none, none], [], ⟨0, true⟩⟩ ⟨[], []⟩).2.2.2 :=
  ⟨(clause_installation_and_propagation_preserve_watch_invariant.1
      ⟨[[], [], [], []], 0, [], false⟩ ⟨[none, none], [], ⟨0, true⟩⟩ ⟨[], []⟩
      [⟨0, true⟩, ⟨1, true⟩] false (by unfold WatchInvariant; decide) rfl (by decide)
      (by decide) (by unfold LiteralsInRange; decide) (by decide)).1,
   (clause_installation_and_propagation_preserve_watch_invariant.2
      ⟨[[], [], [], []], 0, [], false⟩ ⟨[none, none], [], ⟨0, true⟩⟩ ⟨[], []⟩
      (by unfold WatchInvariant; decide) (by unfold LiteralsInRange; decide)
      (by unfold TrailConsistent; decide)).1⟩

/-- **C4**: inside `propagate`, take a watcher `w` of `negLit` (the negation
of the newly true trail literal) whose clause, once normalised so that
`negLit` sits at position 1, has every literal from position 2 on assigned
false, a cached literal not assigned true, and a remaining watched literal
(position 0) not assigned true. Then: (1) if the remaining watched literal
is unassigned it is propagated — appended to the trail as true with this
clause as its reason; (2) if it is assigned false, the watcher reports the
conflict with this literal and clause; (3) the watcher loop then puts the
conflicting watcher and every remaining unprocessed watcher back into
`negLit`'s watch list and returns the conflict at once; (4) `propagate`
returns that conflict immediately — the trail cursor is not advanced and no
further trail entries are processed. -/
theorem propagate_unit_propagation_and_conflict (p : ClausalPropagator)
    (asg : AssignmentsPropositional) (alloc : ClauseAllocator)
    (negLit : Literal) (w : ClauseWatcher) (lits : List Literal)
    (hlits : (if (alloc.getClause w.clauseReference).literals.getD 0 default = negLit
        then swap01 (alloc.getClause w.clauseReference).literals
        else (alloc.getClause w.clauseReference).literals) = lits)
    (hcache : asg.isLiteralAssignedTrue w.cachedLiteral = false)
    (hfirst : asg.isLiteralAssignedTrue (lits.getD 0 default) = false)
    (hrest : ∀ i, 2 ≤ i → i < lits.length →
      asg.isLiteralAssignedFalse (lits.getD i default) = true) :
    (asg.isLiteralAssignedFalse (lits.getD 0 default) = false →
      p.processWatcher asg alloc negLit w
          = (.propagated w, p,
             asg.makeAssignment (lits.getD 0 default) (some w.clauseReference),
             alloc.setClauseLiterals w.clauseReference lits)
        ∧ (asg.makeAssignment (lits.getD 0 default) (some w.clauseReference)).trail
            = asg.trail ++ [⟨lits.getD 0 default, some w.clauseReference⟩])
    ∧ (asg.isLiteralAssignedFalse (lits.getD 0 default) = true →
      p.processWatcher asg alloc negLit w
        = (.conflict w ⟨lits.getD 0 default, w.clauseReference⟩, p, asg,
           alloc.setClauseLiterals w.clauseReference lits))
    ∧ (∀ (kept rest : List ClauseWatcher) (w1 : ClauseWatcher) (ci : ConflictInfo)
        (p1 : ClausalPropagator) (asg1 : AssignmentsPropositional)
        (alloc1 : ClauseAllocator),
        p.processWatcher asg alloc negLit w = (.conflict w1 ci, p1, asg1, alloc1) →
        p.processWatchers asg alloc negLit kept (w :: rest)
          = (some ci, p1.setWatchList negLit (kept ++ w1 :: rest), asg1, alloc1))
    ∧ (∀ (fuel : Nat) (ci : ConflictInfo) (p1 : ClausalPropagator)
        (asg1 : AssignmentsPropositional) (alloc1 : ClauseAllocator),
        p.nextPositionOnTrailToPropagate < asg.numTrailEntries →
        (asg.getTrailEntry p.nextPositionOnTrailToPropagate).negate = negLit →
        p.processWatchers asg alloc negLit [] (p.getWatchList negLit)
          = (some ci, p1, asg1, alloc1) →
        ClausalPropagator.propagateGo (fuel + 1) p asg alloc
          = (.error ci, p1, asg1, alloc1)) := by
  subst hlits
  have hfind : findNewWatchIdx asg
      (if (alloc.getClause w.clauseReference).literals.getD 0 default = negLit
        then swap01 (alloc.getClause w.clauseReference).literals
        else (alloc.getClause w.clauseReference).literals) = none := by
    rw [findNewWatchIdx, List.find?_eq_none]
    intro x hx
    rw [List.mem_range'_1] at hx
    have := hrest x hx.1 (by omega)
    simp only [this]
    decide
  refine ⟨?_, ?_, ?_, ?_⟩
  · intro hnf
    constructor
    · simp only [ClausalPropagator.processWatcher, hcache, Bool.false_eq_true, if_false,
        hfirst, hfind, AssignmentsPropositional.enqueuePropagatedLiteral, hnf]
    · simp only [AssignmentsPropositional.makeAssignment]
  · intro hf
    simp only [ClausalPropagator.processWatcher, hcache, Bool.false_eq_true, if_false,
      hfirst, hfind, AssignmentsPropositional.enqueuePropagatedLiteral, hf, if_true]
  · intro kept rest w1 ci p1 asg1 alloc1 h
    simp only [ClausalPropagator.processWatchers]
    rw [h]
  · intro fuel ci p1 asg1 alloc1 hcur hneg h
    rcases hwl : p.getWatchList negLit with _ | ⟨w0, ws⟩
    · rw [hwl] at h
      simp only [ClausalPropagator.processWatchers] at h
      simp at h
    · simp only [ClausalPropagator.propagateGo, if_pos hcur, hneg, hwl,
        List.isEmpty_cons, Bool.false_eq_true, if_false]
      rw [hwl] at h
      rw [h]

/-- **C4** (witness): on a two-variable state with the clause `[+1, +0]`
watched by both literals — first with variable 0 unassigned and variable 1
just assigned false, so that the clause propagates `+0`; then with both
variables assigned false, so that `propagate` returns the conflict at once
with the watcher put back. -/
theorem propagate_unit_propagation_and_conflict_witness :
    (ClausalPropagator.processWatcher
        ⟨[[], [⟨⟨1, true⟩, ⟨1⟩⟩], [], [⟨⟨0, true⟩, ⟨1⟩⟩]], 1, [⟨1⟩], false⟩
        ⟨[none, some false], [⟨⟨1, false⟩, none⟩], ⟨0, true⟩⟩
        ⟨[Clause.new [⟨1, true⟩, ⟨0, true⟩] false], []⟩
        ⟨1, true⟩ ⟨⟨0, true⟩, ⟨1⟩⟩
      = (.propagated ⟨⟨0, true⟩, ⟨1⟩⟩,
         ⟨[[], [⟨⟨1, true⟩, ⟨1⟩⟩], [], [⟨⟨0, true⟩, ⟨1⟩⟩]], 1, [⟨1⟩], false⟩,
         ⟨[some true, some false],
          [⟨⟨1, false⟩, none⟩, ⟨⟨0, true⟩, some ⟨1⟩⟩], ⟨0, true⟩⟩,
         ⟨[⟨[⟨0, true⟩, ⟨1, true⟩], false, false⟩], []⟩))
    ∧ ClausalPropagator.propagateGo 1
        ⟨[[], [⟨⟨1, true⟩, ⟨1⟩⟩], [], [⟨⟨0, true⟩, ⟨1⟩⟩]], 1, [⟨1⟩], false⟩
        ⟨[some false, some false], [⟨⟨0, false⟩, none⟩, ⟨⟨1, false⟩, none⟩], ⟨0, true⟩⟩
        ⟨[Clause.new [⟨1, true⟩, ⟨0, true⟩] false], []⟩
      = (.error ⟨⟨0, true⟩, ⟨1⟩⟩,
         ⟨[[], [⟨⟨1, true⟩, ⟨1⟩⟩], [], [⟨⟨0, true⟩, ⟨1⟩⟩]], 1, [⟨1⟩], false⟩,
         ⟨[some false, some false], [⟨⟨0, false⟩, none⟩, ⟨⟨1, false⟩, none⟩], ⟨0, true⟩⟩,
         ⟨[⟨[⟨0, true⟩, ⟨1, true⟩], false, false⟩], []⟩) :=
  ⟨((propagate_unit_propagation_and_conflict
      ⟨[[], [⟨⟨1, true⟩, ⟨1⟩⟩], [], [⟨⟨0, true⟩, ⟨1⟩⟩]], 1, [⟨1⟩], false⟩
      ⟨[none, some false], [⟨⟨1, false⟩, none⟩], ⟨0, true⟩⟩
      ⟨[Clause.new [⟨1, true⟩, ⟨0, true⟩] false], []⟩
      ⟨1, true⟩ ⟨⟨0, true⟩, ⟨1⟩⟩ [⟨0, true⟩, ⟨1, true⟩]
      (by decide) (by decide) (by decide)
      (fun i h1 h2 => absurd (Nat.lt_of_le_of_lt h1 h2) (Nat.lt_irrefl 2))).1
      (by decide)).1,
   (propagate_unit_propagation_and_conflict
      ⟨[[], [⟨⟨1, true⟩, ⟨1⟩⟩], [], [⟨⟨0, true⟩, ⟨1⟩⟩]], 1, [⟨1⟩], false⟩
      ⟨[some false, some false], [⟨⟨0, false⟩, none⟩, ⟨⟨1, false⟩, none⟩], ⟨0, true⟩⟩
      ⟨[Clause.new [⟨1, true⟩, ⟨0, true⟩] false], []⟩
      ⟨1, true⟩ ⟨⟨0, true⟩, ⟨1⟩⟩ [⟨0, true⟩, ⟨1, true⟩]
      (by decide) (by decide) (by decide)
      (fun i h1 h2 => absurd (Nat.lt_of_le_of_lt h1 h2) (Nat.lt_irrefl 2))).2.2.2
      0 ⟨⟨0, true⟩, ⟨1⟩⟩
      ⟨[[], [⟨⟨1, true⟩, ⟨1⟩⟩], [], [⟨⟨0, true⟩, ⟨1⟩⟩]], 1, [⟨1⟩], false⟩
      ⟨[some false, some false], [⟨⟨0, false⟩, none⟩, ⟨⟨1, false⟩, none⟩], ⟨0, true⟩⟩
      ⟨[⟨[⟨0, true⟩, ⟨1, true⟩], false, false⟩], []⟩
      (by decide) (by decide) (by decide)⟩

/-- **C3** (amended, witness): the amended theorem applied to the start-up
state and a fresh domain with initial bounds `[0, 2]`. -/
theorem create_new_domain_builds_unary_encoding_witness :
    ((0 : Int) < 2
      ∧ initialCtx.clauseAllocator.deletedClauseReferences = []
      ∧ initialCtx.clausalPropagator.isInInfeasibleState = false
      ∧ initialCtx.mappings.domainToLowerBoundLiterals.length
          = initialCtx.assignmentsInteger.domains.length
      ∧ initialCtx.mappings.domainToEqualityLiterals.length
          = initialCtx.assignmentsInteger.domains.length)
    ∧ (initialCtx.createNewDomain 0 2).1
        = initialCtx.assignmentsInteger.domains.length :=
  ⟨⟨by decide, rfl, rfl, rfl, rfl⟩,
   (create_new_domain_builds_unary_encoding initialCtx 0 2 (by decide)
     rfl rfl rfl rfl).1⟩

end Munchkin
